import Mathlib

/-!
Verification of the code/state synchronization engine of the ManimComposer
repository (src/manim_composer): the code generator
(codegen/generator.py), the regex-based parser (codegen/parser.py), the
scene model (models/scene_state.py), the reconciler
(main.py `_apply_code_to_canvas`) and the rename handler
(controllers/properties_controller.py `_on_name_edited`).

Modelling conventions for the shallow embedding:
* Python strings are modelled as `List Char` (`Str`).  The character
  classes of the regexes (`\w`, `\s`, `\d`, hex digits) are modelled over
  ASCII, which covers every string the generator emits.
* Python floats are modelled as exact rationals (`ℚ`); `float(...)`
  conversion failures and printf-style formatting (`%.1f`, `%.2f`,
  `%.4g`) are modelled exactly over `ℚ` with round-half-to-even.
* Exceptions (`ValueError`, `AttributeError`, `TypeError`, `NameError`)
  are modelled with `Except String`.
* Each regex of parser.py is translated to an anchored matcher built from
  greedy combinators; `re.search` is modelled by trying the anchored
  matcher at every start position (leftmost match).  For the particular
  patterns of parser.py the greedy no-backtracking strategy coincides
  with Python regex semantics because every character class in them is
  disjoint from the literal that follows it.
-/

abbrev Str := List Char

def str (s : String) : Str := s.toList

/-- `\s` of Python regexes / `str.strip()` whitespace (ASCII part). -/
def isSpaceC (c : Char) : Bool :=
  c = ' ' || c = '\t' || c = '\n' || c = '\x0d' || c = '\x0b' || c = '\x0c'

/-- `\w` of Python regexes (ASCII part): letters, digits, underscore. -/
def isWordC (c : Char) : Bool :=
  ('a' ≤ c && c ≤ 'z') || ('A' ≤ c && c ≤ 'Z') || ('0' ≤ c && c ≤ '9') || c = '_'

def isDigitC (c : Char) : Bool := '0' ≤ c && c ≤ '9'

/-- the `[\d.]` class of `_RE_SCALE`, `_RE_WAIT`, `_RE_PLAY`. -/
def isDigitDotC (c : Char) : Bool := isDigitC c || c = '.'

/-- the `[\d.eE+-]` class of `_RE_MOVE`. -/
def isNumMoveC (c : Char) : Bool :=
  isDigitC c || c = '.' || c = 'e' || c = 'E' || c = '+' || c = '-'

/-- the `[0-9A-Fa-f]` class of the hex-color groups. -/
def isHexC (c : Char) : Bool :=
  isDigitC c || ('a' ≤ c && c ≤ 'f') || ('A' ≤ c && c ≤ 'F')

/-- Python `str.strip()` (ASCII whitespace). -/
def pyStrip (s : Str) : Str :=
  ((s.dropWhile isSpaceC).reverse.dropWhile isSpaceC).reverse

/-- Python `str.upper()` (ASCII). -/
def upperStr (s : Str) : Str := s.map Char.toUpper

/-- One splitting pass of `str.splitlines()`: split at `\n`, `\r` and
`\r\n`, keeping every (possibly empty) segment. -/
def splitB : Str → List Str
  | [] => [[]]
  | '\x0d' :: '\n' :: t => [] :: splitB t
  | '\x0d' :: t => [] :: splitB t
  | '\n' :: t => [] :: splitB t
  | c :: t =>
    match splitB t with
    | [] => [[c]]
    | h :: r => (c :: h) :: r

def endsWithBreak (s : Str) : Bool :=
  match s.getLast? with
  | some '\n' => true
  | some '\x0d' => true
  | _ => false

/-- Python `str.splitlines()`. -/
def pySplitlines (s : Str) : List Str :=
  if s = [] then []
  else if endsWithBreak s then (splitB s).dropLast else splitB s

/-- Round half to even (Python `round` to an integer, and the rounding
used by printf-style float formatting), modelled exactly on `ℚ`. -/
def rhe (q : ℚ) : ℤ :=
  let f := ⌊q⌋
  let r := q - f
  if r < 1/2 then f
  else if 1/2 < r then f + 1
  else if f % 2 = 0 then f else f + 1

/-- Decimal digit character of `d < 10`. -/
def digitChar (d : ℕ) : Char := Char.ofNat (48 + d)

def natDigitsAux : ℕ → ℕ → Str
  | 0, _ => []
  | fuel+1, n =>
    if n < 10 then [digitChar n]
    else natDigitsAux fuel (n / 10) ++ [digitChar (n % 10)]

/-- Decimal digits of a natural number (no sign, no leading zeros). -/
def natDigits (n : ℕ) : Str := natDigitsAux (n + 1) n

/-- Numeric value of a digit character. -/
def digitVal (c : Char) : ℕ := c.toNat - 48

@[simp] theorem digitVal_0 : digitVal '0' = 0 := by decide
@[simp] theorem digitVal_1 : digitVal '1' = 1 := by decide
@[simp] theorem digitVal_2 : digitVal '2' = 2 := by decide
@[simp] theorem digitVal_3 : digitVal '3' = 3 := by decide
@[simp] theorem digitVal_4 : digitVal '4' = 4 := by decide
@[simp] theorem digitVal_5 : digitVal '5' = 5 := by decide
@[simp] theorem digitVal_6 : digitVal '6' = 6 := by decide
@[simp] theorem digitVal_7 : digitVal '7' = 7 := by decide
@[simp] theorem digitVal_8 : digitVal '8' = 8 := by decide
@[simp] theorem digitVal_9 : digitVal '9' = 9 := by decide

/-- Value of a digit string (most significant first). -/
def valDigits (s : Str) : ℕ := s.foldl (fun a c => a * 10 + digitVal c) 0

/-- `0`-pad a digit string on the left to length `n`. -/
def padLeft (n : ℕ) (s : Str) : Str := List.replicate (n - s.length) '0' ++ s

/-- Python `%.<nd>f` formatting of a rational (the formatting used by
f-strings `{x:.2f}` and `{x:.1f}` in generator.py), modelled with exact
round-half-to-even at `nd` decimal places. -/
def fmtFixed (nd : ℕ) (q : ℚ) : Str :=
  let p := rhe (q * (10 : ℚ) ^ nd)
  let a := p.natAbs
  let ip := natDigits (a / 10 ^ nd)
  let fp := padLeft nd (natDigits (a % 10 ^ nd))
  (if q < 0 then ['-'] else []) ++ ip ++ (if nd = 0 then [] else '.' :: fp)

/-- The exact rational denoted by `fmtFixed nd q`. -/
def fmtFixedVal (nd : ℕ) (q : ℚ) : ℚ := (rhe (q * (10 : ℚ) ^ nd) : ℚ) / 10 ^ nd

/-- Mantissa part of Python `float()`: digits, optionally containing one
decimal point; at least one digit required.  Returns the value and the
unconsumed rest. -/
def parseUnsigned (s : Str) : Option (ℚ × Str) :=
  let d1 := s.takeWhile isDigitC
  let r1 := s.dropWhile isDigitC
  match r1 with
  | '.' :: r2 =>
    let d2 := r2.takeWhile isDigitC
    let r3 := r2.dropWhile isDigitC
    if d1 = [] && d2 = [] then none
    else some ((valDigits d1 : ℚ) + (valDigits d2 : ℚ) / 10 ^ d2.length, r3)
  | _ => if d1 = [] then none else some ((valDigits d1 : ℚ), r1)

def parseExp (m : ℚ) (t : Str) : Option ℚ :=
  let (esgn, t1) :=
    match t with
    | '+' :: u => ((1 : ℤ), u)
    | '-' :: u => ((-1 : ℤ), u)
    | _ => ((1 : ℤ), t)
  let ds := t1.takeWhile isDigitC
  let t2 := t1.dropWhile isDigitC
  if ds = [] || t2 ≠ [] then none
  else some (m * (10 : ℚ) ^ (esgn * (valDigits ds : ℤ)))

/-- Python `float(s)` on the strings reachable from the regex captures of
parser.py: optional sign, decimal mantissa, optional exponent.  Returns
`none` where CPython raises `ValueError` (e.g. `"1.2.3"`, `"."`, `""`). -/
def pyFloat (s0 : Str) : Option ℚ :=
  let s := pyStrip s0
  let (sgn, s1) :=
    match s with
    | '+' :: t => ((1 : ℚ), t)
    | '-' :: t => ((-1 : ℚ), t)
    | _ => ((1 : ℚ), s)
  match parseUnsigned s1 with
  | none => none
  | some (m, rest) =>
    match rest with
    | [] => some (sgn * m)
    | 'e' :: t => (parseExp m t).map (sgn * ·)
    | 'E' :: t => (parseExp m t).map (sgn * ·)
    | _ => none

example : pyFloat (str "1.5") = some (3/2) := by
  norm_num +decide [pyFloat, parseUnsigned, pyStrip, valDigits, str]
example : pyFloat (str "1.2.3") = none := by
  norm_num +decide [pyFloat, parseUnsigned, pyStrip, valDigits, str]
example : pyFloat (str ".") = none := by
  norm_num +decide [pyFloat, parseUnsigned, pyStrip, valDigits, str]
example : pyFloat (str "-0.25") = some (-(1/4)) := by
  norm_num +decide [pyFloat, parseUnsigned, pyStrip, valDigits, str]
example : pyFloat (str "0.50") = some (1/2) := by
  norm_num +decide [pyFloat, parseUnsigned, pyStrip, valDigits, str]
example : fmtFixed 2 (-(1/1000)) = str "-0.00" := by
  norm_num +decide [fmtFixed, rhe, natDigits, natDigitsAux, digitChar, padLeft, str]
example : fmtFixed 1 (73/100) = str "0.7" := by
  norm_num +decide [fmtFixed, rhe, natDigits, natDigitsAux, digitChar, padLeft, str]
example : fmtFixed 2 (-(3141/1000)) = str "-3.14" := by
  norm_num +decide [fmtFixed, rhe, natDigits, natDigitsAux, digitChar, padLeft, str]

/-! ## Anchored matchers for the regexes of parser.py

Each `_RE_*` pattern of parser.py is translated into an anchored matcher;
`re.search` is `searchM` (leftmost position at which the anchored matcher
succeeds).  `lit` consumes a literal, `ws1`/`wsDrop` are `\s+`/`\s*`, and
`cls1` is a greedy one-or-more character class. -/

def lit : Str → Str → Option Str
  | [], s => some s
  | _ :: _, [] => none
  | c :: cs, x :: xs => if x = c then lit cs xs else none

def wsDrop (s : Str) : Str := s.dropWhile isSpaceC

def ws1 : Str → Option Str
  | [] => none
  | c :: t => if isSpaceC c then some (wsDrop t) else none

def cls1 (p : Char → Bool) (s : Str) : Option (Str × Str) :=
  match s.takeWhile p with
  | [] => none
  | t => some (t, s.dropWhile p)

/-- `_RE_CLASS = class\s+(\w+)\s*\(\s*Scene\s*\)\s*:` (returns the scene
name and the rest of the input after the match). -/
def mClass (s : Str) : Option (Str × Str) := do
  let r1 ← lit (str "class") s
  let r2 ← ws1 r1
  let (nm, r3) ← cls1 isWordC r2
  let r5 ← lit ['('] (wsDrop r3)
  let r7 ← lit (str "Scene") (wsDrop r5)
  let r9 ← lit [')'] (wsDrop r7)
  let r11 ← lit [':'] (wsDrop r9)
  some (nm, r11)

/-- `_RE_OBJ = (\w+)\s*=\s*(?:Tex|MathTex)\s*\(\s*r"([^"]*)"\s*\)`.
The ordered alternation `Tex|MathTex` needs no backtracking: a suffix
cannot start with both literals. -/
def mObj (s : Str) : Option (Str × Str) := do
  let (nm, r1) ← cls1 isWordC s
  let r2 ← lit ['='] (wsDrop r1)
  let r3 ← (lit (str "Tex") (wsDrop r2)) <|> (lit (str "MathTex") (wsDrop r2))
  let r4 ← lit ['('] (wsDrop r3)
  let r5 ← lit ['r', '"'] (wsDrop r4)
  let latex := r5.takeWhile (fun c => c ≠ '"')
  let r6 := r5.dropWhile (fun c => c ≠ '"')
  let r7 ← lit ['"'] r6
  let _ ← lit [')'] (wsDrop r7)
  some (nm, latex)

/-- the `(#[0-9A-Fa-f]{6})` group: exactly six hex digits after `#`. -/
def hex6 (s : Str) : Option (Str × Str) :=
  let h := s.take 6
  if h.length = 6 && h.all isHexC then some ('#' :: h, s.drop 6) else none

/-- `_RE_COLOR = (\w+)\.set_color\s*\(\s*"(#[0-9A-Fa-f]{6})"\s*\)`. -/
def mColor (s : Str) : Option (Str × Str) := do
  let (nm, r1) ← cls1 isWordC s
  let r2 ← lit (str ".set_color") r1
  let r3 ← lit ['('] (wsDrop r2)
  let r4 ← lit ['"', '#'] (wsDrop r3)
  let (hx, r5) ← hex6 r4
  let r6 ← lit ['"'] r5
  let _ ← lit [')'] (wsDrop r6)
  some (nm, hx)

/-- `_RE_SCALE = (\w+)\.scale\s*\(\s*([\d.]+)\s*\)`. -/
def mScale (s : Str) : Option (Str × Str) := do
  let (nm, r1) ← cls1 isWordC s
  let r2 ← lit (str ".scale") r1
  let r3 ← lit ['('] (wsDrop r2)
  let (num, r4) ← cls1 isDigitDotC (wsDrop r3)
  let _ ← lit [')'] (wsDrop r4)
  some (nm, num)

/-- `_RE_MOVE = (\w+)\.move_to\s*\(\s*np\.array\s*\(\s*\[\s*([\d.eE+-]+)
\s*,\s*([\d.eE+-]+)\s*,\s*[\d.eE+-]+\s*\]\s*\)\s*\)`. -/
def mMove (s : Str) : Option (Str × Str × Str) := do
  let (nm, r1) ← cls1 isWordC s
  let r2 ← lit (str ".move_to") r1
  let r3 ← lit ['('] (wsDrop r2)
  let r4 ← lit (str "np.array") (wsDrop r3)
  let r5 ← lit ['('] (wsDrop r4)
  let r6 ← lit ['['] (wsDrop r5)
  let (gx, r7) ← cls1 isNumMoveC (wsDrop r6)
  let r8 ← lit [','] (wsDrop r7)
  let (gy, r9) ← cls1 isNumMoveC (wsDrop r8)
  let r10 ← lit [','] (wsDrop r9)
  let (_, r11) ← cls1 isNumMoveC (wsDrop r10)
  let r12 ← lit [']'] (wsDrop r11)
  let r13 ← lit [')'] (wsDrop r12)
  let _ ← lit [')'] (wsDrop r13)
  some (nm, gx, gy)

/-- `_RE_BG_CE = self\.camera\.background_color\s*=\s*"(#[0-9A-Fa-f]{6})"`. -/
def mBgCE (s : Str) : Option Str := do
  let r1 ← lit (str "self.camera.background_color") s
  let r2 ← lit ['='] (wsDrop r1)
  let r3 ← lit ['"', '#'] (wsDrop r2)
  let (hx, r4) ← hex6 r3
  let _ ← lit ['"'] r4
  some hx

/-- `_RE_BG_GL = self\.camera\.background_rgba\s*=\s*color_to_rgba\s*\(
\s*"(#[0-9A-Fa-f]{6})"\s*\)`. -/
def mBgGL (s : Str) : Option Str := do
  let r1 ← lit (str "self.camera.background_rgba") s
  let r2 ← lit ['='] (wsDrop r1)
  let r3 ← lit (str "color_to_rgba") (wsDrop r2)
  let r4 ← lit ['('] (wsDrop r3)
  let r5 ← lit ['"', '#'] (wsDrop r4)
  let (hx, r6) ← hex6 r5
  let r7 ← lit ['"'] r6
  let _ ← lit [')'] (wsDrop r7)
  some hx

/-- `_RE_ADD = self\.add\s*\(\s*(\w+)\s*\)`. -/
def mAdd (s : Str) : Option Str := do
  let r1 ← lit (str "self.add") s
  let r2 ← lit ['('] (wsDrop r1)
  let (nm, r3) ← cls1 isWordC (wsDrop r2)
  let _ ← lit [')'] (wsDrop r3)
  some nm

/-- `_RE_WAIT = self\.wait\s*\(\s*([\d.]+)?\s*\)`.  The optional greedy
group needs no backtracking: if it consumed characters, the following
`\s*\)` cannot match a digit or dot anyway. -/
def mWait (s : Str) : Option (Option Str) := do
  let r1 ← lit (str "self.wait") s
  let r2 ← lit ['('] (wsDrop r1)
  let r3 := wsDrop r2
  match cls1 isDigitDotC r3 with
  | some (num, r4) =>
    let _ ← lit [')'] (wsDrop r4)
    some (some num)
  | none =>
    let _ ← lit [')'] (wsDrop r3)
    some none

/-- `_RE_PLAY = self\.play\s*\(\s*(\w+)\s*\(\s*(\w+)\s*\)`
`(?:\s*,\s*run_time\s*=\s*([\d.]+))?(?:\s*,\s*rate_func\s*=\s*(\w+))?`.
The optional groups are attempted greedily and skipped wholesale when
they fail, as in the regex (there is nothing after them to backtrack
for). -/
def mPlayRunTime (s : Str) : Option (Str × Str) := do
  let r1 ← lit [','] (wsDrop s)
  let r2 ← lit (str "run_time") (wsDrop r1)
  let r3 ← lit ['='] (wsDrop r2)
  let (num, r4) ← cls1 isDigitDotC (wsDrop r3)
  some (num, r4)

def mPlayRateFunc (s : Str) : Option Str := do
  let r1 ← lit [','] (wsDrop s)
  let r2 ← lit (str "rate_func") (wsDrop r1)
  let r3 ← lit ['='] (wsDrop r2)
  let (nm, _) ← cls1 isWordC (wsDrop r3)
  some nm

def mPlay (s : Str) : Option (Str × Str × Option Str × Option Str) := do
  let r1 ← lit (str "self.play") s
  let r2 ← lit ['('] (wsDrop r1)
  let (anim, r3) ← cls1 isWordC (wsDrop r2)
  let r4 ← lit ['('] (wsDrop r3)
  let (tgt, r5) ← cls1 isWordC (wsDrop r4)
  let r6 ← lit [')'] (wsDrop r5)
  let (rt, r7) :=
    match mPlayRunTime r6 with
    | some (num, rest) => (some num, rest)
    | none => (none, r6)
  let rf :=
    match mPlayRateFunc r7 with
    | some nm => some nm
    | none => none
  some (anim, tgt, rt, rf)

/-- `re.search`: try the anchored matcher at every position, leftmost
match wins. -/
def searchM {α : Type} (m : Str → Option α) : Str → Option α
  | [] => m []
  | s@(_ :: t) =>
    match m s with
    | some a => some a
    | none => searchM m t

example : searchM mObj (str "eq_1 = Tex(r\"F=ma\")") = some (str "eq_1", str "F=ma") := by
  simp +decide [searchM, mObj, cls1, wsDrop, lit, str, bind]
example : searchM mObj (str "x = MathTex(r\"\\frac{a}{b}\")") =
    some (str "x", str "\\frac{a}{b}") := by
  simp +decide [searchM, mObj, cls1, wsDrop, lit, str, bind]
example : searchM mWait (str "self.wait(2.5)") = some (some (str "2.5")) := by
  simp +decide [searchM, mWait, cls1, wsDrop, lit, str, bind]
example : searchM mWait (str "self.wait()") = some none := by
  simp +decide [searchM, mWait, cls1, wsDrop, lit, str, bind]
example : searchM mPlay (str "self.play(Write(eq_1), run_time=2.0, rate_func=linear)") =
    some (str "Write", str "eq_1", some (str "2.0"), some (str "linear")) := by
  simp +decide [searchM, mPlay, mPlayRunTime, mPlayRateFunc, cls1, wsDrop, lit, str, bind]
example : searchM mColor (str "eq_1.set_color(\"#FF0000\")") =
    some (str "eq_1", str "#FF0000") := by
  simp +decide [searchM, mColor, hex6, cls1, wsDrop, lit, str, bind]
example : searchM mClass (str "class MyScene(Scene):") = some (str "MyScene", []) := by
  simp +decide [searchM, mClass, cls1, wsDrop, ws1, lit, str, bind]
example : searchM mAdd (str "self.play(Write(eq_1))") = none := by
  simp +decide [searchM, mAdd, cls1, wsDrop, lit, str, bind]

/-! ## parser.py: `parse_code` and `_parse_scene_block` -/

/-- `_RE_CLASS.finditer`: scan left to right, recording `(start, end,
name)` for each match and resuming after the end of a match (matches do
not overlap).  Fuelled recursion; the fuel `length + 1` is always
enough because every step consumes at least one character. -/
def classMatchesAux : ℕ → Str → ℕ → List (ℕ × ℕ × Str)
  | 0, _, _ => []
  | fuel+1, s, pos =>
    match mClass s with
    | some (nm, rest) =>
      (pos, pos + (s.length - rest.length), nm)
        :: classMatchesAux fuel rest (pos + (s.length - rest.length))
    | none =>
      match s with
      | [] => []
      | _ :: t => classMatchesAux fuel t (pos + 1)

def classMatches (code : Str) : List (ℕ × ℕ × Str) :=
  classMatchesAux (code.length + 1) code 0

structure ParsedObject where
  name : Str
  latex : Str
  color : Str := str "#FFFFFF"
  font_size : ℤ := 48
  pos_x : ℚ := 0
  pos_y : ℚ := 0
deriving DecidableEq, Repr

structure ParsedAnimation where
  target_name : Str
  anim_type : Str
  duration : ℚ := 1
  easing : Str := str "smooth"
deriving DecidableEq, Repr

structure ParsedScene where
  name : Str
  bg_color : Str := str "#000000"
  objects : List ParsedObject := []
  animations : List ParsedAnimation := []
deriving DecidableEq, Repr

/-- the `_CE_TO_GL_ANIM` dict of parser.py. -/
def ceToGlAnim : List (Str × Str) := [(str "Create", str "ShowCreation")]

/-- Python `dict.get(k, k)` on an association list. -/
def dictGetD (d : List (Str × Str)) (k : Str) : Str :=
  match d.lookup k with
  | some v => v
  | none => k

/-- `objects[name]` lookup on the insertion-ordered working map. -/
def lookupA (k : Str) : List (Str × ParsedObject) → Option ParsedObject
  | [] => none
  | (k', v) :: t => if k' = k then some v else lookupA k t

/-- in-place update of the working map (`objects[name].field = ...`);
a miss leaves the map unchanged. -/
def updateA (k : Str) (f : ParsedObject → ParsedObject) :
    List (Str × ParsedObject) → List (Str × ParsedObject)
  | [] => []
  | (k', v) :: t => if k' = k then (k', f v) :: t else (k', v) :: updateA k f t

/-- `objects[name] = obj`: replace in place if present, else append
(Python dict assignment preserves insertion order). -/
def insertA (k : Str) (v : ParsedObject) (l : List (Str × ParsedObject)) :
    List (Str × ParsedObject) :=
  if (lookupA k l).isSome then updateA k (fun _ => v) l else l ++ [(k, v)]

/-- Working state inside `_parse_scene_block`. -/
structure BlockSt where
  bg : Str := str "#000000"
  objs : List (Str × ParsedObject) := []
  anims : List ParsedAnimation := []
deriving DecidableEq, Repr

/-- One iteration of the line loop of `_parse_scene_block`.  The patterns
are tried in the source's order; the unguarded `float(...)` calls in the
wait and play branches are modelled as `Except.error` (`ValueError`),
while the guarded ones in the scale and move branches skip the line. -/
def processLine (st : BlockSt) (line : Str) : Except String BlockSt :=
  let stripped := pyStrip line
  if stripped = [] then .ok st
  else if stripped.head? = some '#' then .ok st
  else
    match searchM mBgCE stripped with
    | some hx => .ok { st with bg := hx }
    | none =>
    match searchM mBgGL stripped with
    | some hx => .ok { st with bg := hx }
    | none =>
    match searchM mObj stripped with
    | some (nm, latex) => .ok { st with objs := insertA nm ⟨nm, latex, str "#FFFFFF", 48, 0, 0⟩ st.objs }
    | none =>
    match searchM mColor stripped with
    | some (nm, hx) =>
      .ok { st with objs := if (lookupA nm st.objs).isSome then updateA nm (fun o => { o with color := hx }) st.objs else st.objs }
    | none =>
    match searchM mScale stripped with
    | some (nm, num) =>
      match pyFloat num with
      | none => .ok st
      | some scale =>
        .ok { st with objs := if (lookupA nm st.objs).isSome then updateA nm (fun o => { o with font_size := max 8 (rhe (scale * 48)) }) st.objs else st.objs }
    | none =>
    match searchM mMove stripped with
    | some (nm, gx, gy) =>
      match pyFloat gx, pyFloat gy with
      | some x, some y =>
        .ok { st with objs := if (lookupA nm st.objs).isSome then updateA nm (fun o => { o with pos_x := x, pos_y := y }) st.objs else st.objs }
      | _, _ => .ok st
    | none =>
    match searchM mAdd stripped with
    | some tgt => .ok { st with anims := st.anims ++ [⟨tgt, str "Add", 0, []⟩] }
    | none =>
    match searchM mWait stripped with
    | some grp =>
      match grp with
      | some num =>
        match pyFloat num with
        | some d => .ok { st with anims := st.anims ++ [⟨[], str "Wait", d, []⟩] }
        | none => .error "ValueError: could not convert string to float"
      | none => .ok { st with anims := st.anims ++ [⟨[], str "Wait", 1, []⟩] }
    | none =>
    match searchM mPlay stripped with
    | some (anim0, tgt, rt, rf) =>
      let dur? : Except String ℚ :=
        match rt with
        | some num =>
          match pyFloat num with
          | some d => .ok d
          | none => .error "ValueError: could not convert string to float"
        | none => .ok 1
      match dur? with
      | .error e => .error e
      | .ok dur =>
        let easing := match rf with | some e => e | none => str "smooth"
        let anim := dictGetD ceToGlAnim anim0
        .ok { st with anims := st.anims ++ [⟨tgt, anim, dur, easing⟩] }
    | none => .ok st

/-- `_parse_scene_block`. -/
def parse_scene_block (scene_name : Str) (block : Str) : Except String ParsedScene := do
  let st ← (pySplitlines block).foldlM processLine {}
  return { name := scene_name, bg_color := st.bg,
           objects := st.objs.map Prod.snd, animations := st.anims }

/-- the slice `code[a:b]`. -/
def sliceStr (code : Str) (a b : ℕ) : Str := (code.drop a).take (b - a)

/-- `parse_code`: split at class declarations, parse each block.  `none`
is Python `None` (no scenes found); `Except.error` models an uncaught
exception escaping `parse_code`. -/
def parse_code (code : Str) : Except String (Option (List ParsedScene)) := do
  let ms := classMatches code
  if ms = [] then return none
  let scenes ← (List.range ms.length).mapM (fun i => do
    match ms[i]? with
    | none => .error "index"
    | some (_, e, nm) =>
      let stop := match ms[i+1]? with
        | some (s', _, _) => s'
        | none => code.length
      parse_scene_block nm (sliceStr code e stop))
  return some scenes

/-! ## Python `%.4g` formatting (used by the f-string `{scale:.4g}`)

`%.4g` rounds to four significant digits and uses fixed-point notation
(with trailing zeros and a trailing point stripped) when the decimal
exponent `e` satisfies `-4 ≤ e < 4`, scientific notation otherwise.
Modelled exactly over `ℚ` with round-half-to-even. -/

/-- `⌊log₁₀ q⌋` for `q > 0`. -/
def flog10 (q : ℚ) : ℤ :=
  if 1 ≤ q then (Nat.log 10 ⌊q⌋.toNat : ℤ)
  else
    let k0 := Nat.log 10 ⌊q⁻¹⌋.toNat
    if (10 : ℚ) ^ (-(k0 : ℤ)) ≤ q then -(k0 : ℤ) else -(k0 : ℤ) - 1

/-- Strip trailing zeros, then a trailing decimal point (the `%g`
post-processing). -/
def stripG (s : Str) : Str :=
  let r := s.reverse.dropWhile (fun c => c = '0')
  let r2 := match r with
    | '.' :: t => t
    | _ => r
  r2.reverse

/-- Fixed-point rendering of `m·10^(e-3)` for a four-digit mantissa `m`. -/
def renderSig (m : ℕ) (e : ℤ) : Str :=
  let D := natDigits m
  if 3 ≤ e then D ++ List.replicate (e - 3).toNat '0'
  else if 0 ≤ e then stripG (D.take (e.toNat + 1) ++ '.' :: D.drop (e.toNat + 1))
  else stripG ('0' :: '.' :: List.replicate (-e - 1).toNat '0' ++ D)

/-- Scientific rendering `d.ddde±XX` of `m·10^(e-3)`. -/
def renderExpForm (m : ℕ) (e : ℤ) : Str :=
  let D := natDigits m
  (stripG (D.take 1 ++ '.' :: D.drop 1)) ++ 'e' :: (if e < 0 then '-' else '+') ::
    padLeft 2 (natDigits e.natAbs)

def fmtG4pos (q : ℚ) : Str :=
  let e0 := flog10 q
  let m0 := rhe (q / (10 : ℚ) ^ (e0 - 3))
  let me : ℕ × ℤ := if m0 = 10000 then (1000, e0 + 1) else (m0.toNat, e0)
  if -4 ≤ me.2 ∧ me.2 < 4 then renderSig me.1 me.2 else renderExpForm me.1 me.2

def fmtG4 (q : ℚ) : Str :=
  if q = 0 then ['0'] else if q < 0 then '-' :: fmtG4pos (-q) else fmtG4pos q

theorem natLog10_of_lt (n : ℕ) (h : n < 10) : Nat.log 10 n = 0 :=
  Nat.log_eq_zero_iff.mpr (Or.inl h)

theorem natLog10_of_teens (n : ℕ) (h1 : 10 ≤ n) (h2 : n < 100) : Nat.log 10 n = 1 :=
  Nat.log_eq_of_pow_le_of_lt_pow (by simpa using h1) (by simpa using h2)

theorem natLog10_1 : Nat.log 10 1 = 0 := natLog10_of_lt 1 (by norm_num)
theorem natLog10_2 : Nat.log 10 2 = 0 := natLog10_of_lt 2 (by norm_num)
theorem natLog10_9 : Nat.log 10 9 = 0 := natLog10_of_lt 9 (by norm_num)
theorem natLog10_20 : Nat.log 10 20 = 1 := natLog10_of_teens 20 (by norm_num) (by norm_num)

/-- Evaluation scaffold for `fmtG4` on positive rationals in the
fixed-point regime. -/
theorem fmtG4_eq_renderSig (q : ℚ) (e m : ℤ) (hq : 0 < q) (he : flog10 q = e)
    (hm : rhe (q / (10 : ℚ) ^ (e - 3)) = m) (hm10 : m ≠ 10000)
    (h1 : -4 ≤ e) (h2 : e < 4) :
    fmtG4 q = renderSig m.toNat e := by
  rw [fmtG4, if_neg (ne_of_gt hq), if_neg (not_lt.mpr (le_of_lt hq))]
  simp only [fmtG4pos, he, hm, if_neg hm10]
  rw [if_pos ⟨h1, h2⟩]

example : fmtG4 (1/2) = str "0.5" := by
  have he : flog10 (1/2 : ℚ) = -1 := by
    simp only [flog10]
    norm_num [(show ((2:ℤ)).toNat = 2 by decide), natLog10_of_lt 2 (by norm_num)]
  have hm : rhe ((1/2 : ℚ) / (10 : ℚ) ^ ((-1 : ℤ) - 3)) = 5000 := by
    simp only [rhe]
    norm_num
  rw [fmtG4_eq_renderSig (1/2) (-1) 5000 (by norm_num) he hm (by norm_num)
    (by norm_num) (by norm_num)]
  decide

example : fmtG4 (50/48) = str "1.042" := by
  have he : flog10 (50/48 : ℚ) = 0 := by
    simp only [flog10]
    norm_num [(show ((1:ℤ)).toNat = 1 by decide), natLog10_of_lt 1 (by norm_num)]
  have hm : rhe ((50/48 : ℚ) / (10 : ℚ) ^ ((0 : ℤ) - 3)) = 1042 := by
    simp only [rhe]
    norm_num
  rw [fmtG4_eq_renderSig (50/48) 0 1042 (by norm_num) he hm (by norm_num)
    (by norm_num) (by norm_num)]
  decide

example : fmtG4 (1000/48) = str "20.83" := by
  have he : flog10 (1000/48 : ℚ) = 1 := by
    simp only [flog10]
    norm_num [(show ((20:ℤ)).toNat = 20 by decide), natLog10_20]
  have hm : rhe ((1000/48 : ℚ) / (10 : ℚ) ^ ((1 : ℤ) - 3)) = 2083 := by
    simp only [rhe]
    norm_num
  rw [fmtG4_eq_renderSig (1000/48) 1 2083 (by norm_num) he hm (by norm_num)
    (by norm_num) (by norm_num)]
  decide

example : fmtG4 (5/48) = str "0.1042" := by
  have he : flog10 (5/48 : ℚ) = -1 := by
    simp only [flog10]
    norm_num [(show ((9:ℤ)).toNat = 9 by decide), natLog10_of_lt 9 (by norm_num)]
  have hm : rhe ((5/48 : ℚ) / (10 : ℚ) ^ ((-1 : ℤ) - 3)) = 1042 := by
    simp only [rhe]
    norm_num
  rw [fmtG4_eq_renderSig (5/48) (-1) 1042 (by norm_num) he hm (by norm_num)
    (by norm_num) (by norm_num)]
  decide

/-! ## models/scene_state.py and codegen/generator.py -/

/-- The `TrackedObject` dataclass of scene_state.py declares exactly the
fields `name`, `obj_type`, `latex`, `color`.  `font_size` is *not* a
declared field; it only ever appears as a dynamically added attribute
(`tracked.font_size = value` in properties_controller.py).  It is
modelled as an `Option`: `none` means the attribute was never set, and
reading it then raises `AttributeError`. -/
structure TrackedObject where
  name : Str
  obj_type : Str
  latex : Str
  color : Str
  font_size : Option ℤ := none
deriving DecidableEq, Repr

/-- The `AnimationEntry` dataclass of scene_state.py. -/
structure AnimationEntry where
  target_name : Str
  anim_type : Str
  duration : ℚ
  easing : Str
deriving DecidableEq, Repr

/-- A `QGraphicsItem` as far as the sync engine reads it: its scene
position (`item.pos()`, `item.setPos`), in canvas pixels. -/
structure Item where
  posX : ℚ
  posY : ℚ
deriving DecidableEq, Repr

/-- `SceneState`: `_objects` and `_items` are insertion-ordered dicts
keyed by name, `_animations` an ordered list. -/
structure SceneState where
  objects : List (Str × TrackedObject) := []
  items : List (Str × Item) := []
  animations : List AnimationEntry := []
deriving DecidableEq, Repr

def lookupItem (k : Str) : List (Str × Item) → Option Item
  | [] => none
  | (k', v) :: t => if k' = k then some v else lookupItem k t

/-- the `_CE_ANIM_NAMES` dict of generator.py. -/
def ceAnimNames : List (Str × Str) := [(str "ShowCreation", str "Create")]

/-- One animation of the `_generate_body` animation loop. -/
def genAnimLine (indent : Str) (animMap : Option (List (Str × Str))) (anim : AnimationEntry) : Str :=
  if anim.anim_type = str "Add" then
    indent ++ str "self.add(" ++ anim.target_name ++ str ")"
  else if anim.anim_type = str "Wait" then
    if 1/100 < |anim.duration - 1| then
      indent ++ str "self.wait(" ++ fmtFixed 1 anim.duration ++ str ")"
    else
      indent ++ str "self.wait()"
  else
    let ty := match animMap with
      | some m => dictGetD m anim.anim_type
      | none => anim.anim_type
    let call := ty ++ str "(" ++ anim.target_name ++ str ")"
    let params :=
      (if 1/100 < |anim.duration - 1| then [str "run_time=" ++ fmtFixed 1 anim.duration] else [])
      ++ (if anim.easing ≠ [] ∧ anim.easing ≠ str "smooth" then [str "rate_func=" ++ anim.easing] else [])
    match params with
    | [] => indent ++ str "self.play(" ++ call ++ str ")"
    | p :: ps => indent ++ str "self.play(" ++ call ++ str ", " ++
        (ps.foldl (fun a q => a ++ str ", " ++ q) p) ++ str ")"

/-- The object-declaration part of `_generate_body` for one object.
Returns the new value of the Python local `constructor` (which persists
across loop iterations) and the emitted lines; `none` for the lines
models `continue` (no registered item); reading the missing
`font_size` attribute or using an unbound `constructor` raises. -/
def genObjLines (st : SceneState) (indent : Str) (ce : Bool)
    (ctor : Option Str) (nm : Str) (tr : TrackedObject) :
    Except String (Option Str × List Str) :=
  match lookupItem nm st.items with
  | none => .ok (ctor, [])
  | some item =>
    let ctor' :=
      if tr.obj_type = str "mathtex" then
        some ((if ce then str "MathTex" else str "Tex") ++ str "(r\"" ++ tr.latex ++ str "\")")
      else ctor
    match ctor' with
    | none => .error "NameError: name constructor is not defined"
    | some c => do
      let declLine := indent ++ nm ++ str " = " ++ c
      let colorLines :=
        if tr.obj_type = str "mathtex" ∧ tr.color ≠ [] ∧ upperStr tr.color ≠ str "#FFFFFF" then
          [indent ++ nm ++ str ".set_color(\"" ++ tr.color ++ str "\")"]
        else []
      let scaleLines ←
        if tr.obj_type = str "mathtex" then
          match tr.font_size with
          | none => .error "AttributeError: TrackedObject object has no attribute font_size"
          | some fs =>
            if fs ≠ 48 then
              .ok [indent ++ nm ++ str ".scale(" ++ fmtG4 ((fs : ℚ) / 48) ++ str ")"]
            else .ok []
        else .ok []
      let mx := item.posX / 100
      let my := -item.posY / 100
      let moveLines :=
        if 1/100 < |mx| ∨ 1/100 < |my| then
          [indent ++ nm ++ str ".move_to(np.array([" ++ fmtFixed 2 mx ++ str ", " ++
            fmtFixed 2 my ++ str ", 0]))"]
        else []
      return (some c, [declLine] ++ colorLines ++ scaleLines ++ moveLines)

/-- `_generate_body`. -/
def generate_body (st : SceneState) (indent : Str)
    (animMap : Option (List (Str × Str))) (ce : Bool) : Except String (List Str) := do
  if st.objects = [] ∧ st.animations = [] then return []
  let (_, objLines) ← st.objects.foldlM
    (fun (acc : Option Str × List Str) (p : Str × TrackedObject) => do
      let (ctor', ls) ← genObjLines st indent ce acc.1 p.1 p.2
      return (ctor', acc.2 ++ ls))
    ((none : Option Str), ([] : List Str))
  let animLines := st.animations.map (genAnimLine indent animMap)
  let tailLines :=
    if st.objects ≠ [] ∧ st.animations = [] then [indent ++ str "self.wait()"] else []
  return objLines ++ animLines ++ tailLines

/-- `"\n".join(lines) + "\n"`. -/
def joinNL (lines : List Str) : Str :=
  match lines with
  | [] => ['\n']
  | l :: ls => l ++ (ls.foldl (fun a x => a ++ '\n' :: x) []) ++ ['\n']

/-- The fixed interactive block of `generate_manimgl_code` (emitted only
when `interactive=True`; the round-trip theorems use the default
`interactive=False`). -/
def interactiveHeader : List Str :=
  [str "        # Lock 16:9 aspect ratio on resize",
   str "        if self.window:",
   str "            self.window.fixed_aspect_ratio = 16 / 9",
   str "",
   str "        # Scene boundary border",
   str "        _border = Rectangle(width=FRAME_WIDTH, height=FRAME_HEIGHT,",
   str "                            stroke_color=WHITE, stroke_width=1)",
   str "        self.add(_border)",
   str ""]

def interactiveFooter (replay_file : Str) : List Str :=
  [str "",
   str "        # Keep GL window alive, watch for hot-reload",
   str "        import os as _os, time as _time",
   str "        _rp = r\"" ++ replay_file ++ str "\"",
   str "        _lm = 0.0",
   str "        while not self.is_window_closing():",
   str "            self.update_frame(dt=0)",
   str "            try:",
   str "                _mt = _os.path.getmtime(_rp)",
   str "                if _mt > _lm:",
   str "                    _lm = _mt",
   str "                    exec(open(_rp).read())",
   str "                    self.update_frame(dt=0, force_draw=True)",
   str "            except FileNotFoundError:",
   str "                pass",
   str "            _time.sleep(0.02)"]

/-- `generate_manimgl_code`. -/
def generate_manimgl_code (st : SceneState) (scene_name : Str)
    (interactive : Bool := false) (replay_file : Str := [])
    (include_import : Bool := true) (bg_color : Str := str "#000000") :
    Except String Str := do
  let head := if include_import then [str "from manimlib import *", [], []] else []
  let classLines := [str "class " ++ scene_name ++ str "(Scene):",
                     str "    def construct(self):"]
  let bgLines :=
    if bg_color ≠ [] ∧ upperStr bg_color ≠ str "#000000" then
      [str "        self.camera.background_rgba = color_to_rgba(\"" ++ bg_color ++ str "\")", []]
    else []
  let body ← generate_body st (str "        ") none false
  let bodyLines :=
    if body = [] ∧ interactive = false then [str "        pass"] else body
  let tailLines := if interactive then interactiveFooter replay_file else []
  let preBody := if interactive then interactiveHeader else []
  return joinNL (head ++ classLines ++ bgLines ++ preBody ++ bodyLines ++ tailLines)

/-- `generate_manimce_code`. -/
def generate_manimce_code (st : SceneState) (scene_name : Str)
    (include_import : Bool := true) (bg_color : Str := str "#000000") :
    Except String Str := do
  let head := if include_import then [str "from manim import *", [], []] else []
  let classLines := [str "class " ++ scene_name ++ str "(Scene):",
                     str "    def construct(self):"]
  let bgLines :=
    if bg_color ≠ [] ∧ upperStr bg_color ≠ str "#000000" then
      [str "        self.camera.background_color = \"" ++ bg_color ++ str "\"", []]
    else []
  let body ← generate_body st (str "        ") (some ceAnimNames) true
  let bodyLines := if body = [] then [str "        pass"] else body
  return joinNL (head ++ classLines ++ bgLines ++ bodyLines)

/-- `generate_replay_code`. -/
def generate_replay_code (st : SceneState) (bg_color : Str := str "#000000") :
    Except String Str := do
  let bgLine :=
    if bg_color ≠ [] ∧ upperStr bg_color ≠ str "#000000" then
      str "self.camera.background_rgba = color_to_rgba(\"" ++ bg_color ++ str "\")"
    else
      str "self.camera.background_rgba = color_to_rgba(\"#000000\")"
  let border := str "self.add(Rectangle(width=FRAME_WIDTH, height=FRAME_HEIGHT," ++
    str " stroke_color=WHITE, stroke_width=1))"
  let body ← generate_body st [] none false
  return joinNL ([str "self.clear()", bgLine, border] ++ body)

/-! ## scene_state.py mutations, properties_controller.py rename,
main.py `_apply_code_to_canvas` -/

def removeA {α : Type} (k : Str) : List (Str × α) → List (Str × α)
  | [] => []
  | (k', v) :: t => if k' = k then t else (k', v) :: removeA k t

def lookupTr (k : Str) : List (Str × TrackedObject) → Option TrackedObject
  | [] => none
  | (k', v) :: t => if k' = k then some v else lookupTr k t

/-- `SceneState.unregister`: drop the object, its item, and every
animation that targeted it. -/
def unregister (st : SceneState) (name : Str) : SceneState :=
  { objects := removeA name st.objects,
    items := removeA name st.items,
    animations := st.animations.filter (fun a => a.target_name ≠ name) }

/-- `SceneState.register` (dict assignment: replace in place or append). -/
def register (st : SceneState) (name : Str) (tr : TrackedObject) (it : Item) : SceneState :=
  { st with
    objects :=
      if (lookupTr name st.objects).isSome then
        st.objects.map (fun p => if p.1 = name then (name, tr) else p)
      else st.objects ++ [(name, tr)],
    items :=
      if (lookupItem name st.items).isSome then
        st.items.map (fun p => if p.1 = name then (name, it) else p)
      else st.items ++ [(name, it)] }

/-- `PropertiesController._on_name_edited` (the part after reading the
text field): rename `cur` to `new_name`.  Mirrors the source order:
animation targets are rewritten first, then `unregister(cur)`, then
`register` under the new name with `tracked.name` updated.  Reading a
missing tracked object raises (`AttributeError` on `None`). -/
def on_name_edited (st : SceneState) (cur new_name : Str) : Except String SceneState :=
  if new_name = [] ∨ new_name = cur then .ok st
  else if (st.objects.map Prod.fst).contains new_name then .ok st
  else
    match lookupTr cur st.objects, lookupItem cur st.items with
    | some tr, some it =>
      let st1 := { st with animations := (st.animations.map
        (fun a => if a.target_name = cur then { a with target_name := new_name } else a)) }

      let st2 := unregister st1 cur
      .ok (register st2 new_name { tr with name := new_name } it)
    | _, _ => .error "AttributeError: NoneType"

/-- One scene entry of `self._scenes` in main.py (its `"state"`,
`"name"` and `"bg_color"` keys). -/
structure AppScene where
  name : Str
  bg_color : Str
  state : SceneState
deriving DecidableEq, Repr

/-- The per-object update/create part of `_apply_code_to_canvas`.
Creating a new object calls `TrackedObject(..., font_size=...)`, which
raises `TypeError`: the dataclass declares no `font_size` field. -/
def reconcileObj (st : SceneState) (pobj : ParsedObject) : Except String SceneState :=
  match lookupTr pobj.name st.objects, lookupItem pobj.name st.items with
  | some tr, some it => do
    let tr1 := if tr.latex ≠ pobj.latex then { tr with latex := pobj.latex } else tr
    let tr2 := if upperStr tr1.color ≠ upperStr pobj.color then { tr1 with color := pobj.color } else tr1
    let tr3 ←
      match tr2.font_size with
      | none => .error "AttributeError: TrackedObject object has no attribute font_size"
      | some fs => .ok (if fs ≠ pobj.font_size then { tr2 with font_size := some pobj.font_size } else tr2)
    let newX := pobj.pos_x * 100
    let newY := -pobj.pos_y * 100
    let it' :=
      if 1/2 < |it.posX - newX| ∨ 1/2 < |it.posY - newY| then { posX := newX, posY := newY }
      else it
    return { st with
      objects := st.objects.map (fun p => if p.1 = pobj.name then (p.1, tr3) else p),
      items := st.items.map (fun p => if p.1 = pobj.name then (p.1, it') else p) }
  | _, _ =>
    .error "TypeError: TrackedObject.__init__ got an unexpected keyword argument font_size"

/-- `_apply_code_to_canvas` on the current scene (the caller passes the
text of the active code editor).  Returns the updated scene list;
`Except.error` models an exception escaping the handler. -/
def apply_code_to_canvas (scenes : List AppScene) (cur : ℕ) (code : Str) :
    Except String (List AppScene) := do
  match (← parse_code code) with
  | none => return scenes
  | some parsedScenes =>
    if parsedScenes = [] then return scenes
    match scenes[cur]? with
    | none => .error "IndexError"
    | some a =>
      let parsed? :=
        match parsedScenes.find? (fun s => s.name = a.name) with
        | some p => some p
        | none => parsedScenes[cur]?
      match parsed? with
      | none => return scenes
      | some parsed => do
        let parsedNames := parsed.objects.map ParsedObject.name
        let currentNames := a.state.objects.map Prod.fst
        let st1 ← parsed.objects.foldlM reconcileObj a.state
        let removed := currentNames.filter (fun n => ¬ parsedNames.contains n)
        let st2 := removed.foldl unregister st1
        let st3 := { st2 with animations := (parsed.animations.map
          (fun p => { target_name := p.target_name, anim_type := p.anim_type,
                      duration := p.duration, easing := p.easing })) }
        let bg' := if upperStr parsed.bg_color ≠ upperStr a.bg_color then parsed.bg_color else a.bg_color
        let nm' := if parsed.name ≠ a.name then parsed.name else a.name
        return scenes.set cur { name := nm', bg_color := bg', state := st3 }

/-! ## Combinator specification lemmas -/

theorem lit_eq_some {p : Str} : ∀ {s r : Str}, lit p s = some r ↔ s = p ++ r := by
  induction p with
  | nil => intro s r; simp [lit]
  | cons c cs ih =>
    intro s r
    cases s with
    | nil => simp [lit]
    | cons x xs =>
      simp only [lit, List.cons_append, List.cons.injEq]
      by_cases h : x = c
      · subst h; simp [ih]
      · simp [h]

theorem mem_of_lit {p s r : Str} (h : lit p s = some r) {c : Char} (hc : c ∈ p) : c ∈ s := by
  rw [lit_eq_some] at h
  subst h
  exact List.mem_append_left _ hc

theorem mem_of_lit_rest {p s r : Str} (h : lit p s = some r) {c : Char} (hc : c ∈ r) : c ∈ s := by
  rw [lit_eq_some] at h
  subst h
  exact List.mem_append_right _ hc

theorem mem_wsDrop {s : Str} {c : Char} (h : c ∈ wsDrop s) : c ∈ s :=
  List.Sublist.mem h (List.dropWhile_sublist _)

theorem cls1_inv {p : Char → Bool} {s tk r : Str} (h : cls1 p s = some (tk, r)) :
    s = tk ++ r ∧ tk ≠ [] ∧ (∀ c ∈ tk, p c = true) ∧ (∀ c, r.head? = some c → p c = false) := by
  unfold cls1 at h
  rcases heq : List.takeWhile p s with _ | ⟨c, cs⟩ <;> rw [heq] at h
  · cases h
  · simp only [Option.some.injEq, Prod.mk.injEq] at h
    obtain ⟨h1, h2⟩ := h
    refine ⟨?_, by simp [← h1], ?_, ?_⟩
    · rw [← h1, ← h2, ← heq, List.takeWhile_append_dropWhile]
    · intro x hx
      exact List.mem_takeWhile_imp (heq ▸ h1 ▸ hx)
    · intro x hx
      rw [← h2] at hx
      have := List.head?_dropWhile_not p s
      rw [hx] at this
      simpa using this

theorem mem_of_cls1 {p : Char → Bool} {s tk r : Str} (h : cls1 p s = some (tk, r))
    {c : Char} (hc : c ∈ r) : c ∈ s := by
  obtain ⟨hs, -, -, -⟩ := cls1_inv h
  subst hs
  exact List.mem_append_right _ hc

theorem mem_of_cls1_tk {p : Char → Bool} {s tk r : Str} (h : cls1 p s = some (tk, r))
    {c : Char} (hc : c ∈ tk) : c ∈ s := by
  obtain ⟨hs, -, -, -⟩ := cls1_inv h
  subst hs
  exact List.mem_append_left _ hc

/-- Constructive direction for greedy classes. -/
theorem cls1_intro {p : Char → Bool} {tk r : Str} (htk : tk ≠ [])
    (hall : ∀ c ∈ tk, p c = true) (hr : ∀ c, r.head? = some c → p c = false) :
    cls1 p (tk ++ r) = some (tk, r) := by
  have hdw : ∀ u : Str, (∀ c, u.head? = some c → p c = false) →
      u.takeWhile p = [] ∧ u.dropWhile p = u := by
    intro u hu
    cases u with
    | nil => simp
    | cons c cs =>
      have := hu c rfl
      constructor
      · simp [List.takeWhile_cons, this]
      · simp [List.dropWhile_cons, this]
  have hgen : ∀ w : Str, (∀ c ∈ w, p c = true) →
      (w ++ r).takeWhile p = w ++ r.takeWhile p := by
    intro w hw
    induction w with
    | nil => simp
    | cons c cs ih =>
      simp [List.takeWhile_cons, hw c (by simp), ih (fun x hx => hw x (by simp [hx]))]
  have h1 : (tk ++ r).takeWhile p = tk := by
    rw [hgen tk hall, (hdw r hr).1, List.append_nil]
  have h2 : (tk ++ r).dropWhile p = r := by
    have := List.takeWhile_append_dropWhile p (tk ++ r)
    rw [h1] at this
    exact List.append_cancel_left this
  unfold cls1
  rw [h1, h2]
  cases tk with
  | nil => simp at htk
  | cons c cs => rfl

theorem wsDrop_eq_of_head {s : Str} (h : ∀ c, s.head? = some c → isSpaceC c = false) :
    wsDrop s = s := by
  cases s with
  | nil => rfl
  | cons c cs => simp [wsDrop, List.dropWhile_cons, h c rfl]

theorem wsDrop_append_run {w s : Str} (hw : ∀ c ∈ w, isSpaceC c = true)
    (hs : ∀ c, s.head? = some c → isSpaceC c = false) : wsDrop (w ++ s) = s := by
  induction w with
  | nil => simpa using wsDrop_eq_of_head hs
  | cons c cs ih =>
    simp only [List.cons_append, wsDrop, List.dropWhile_cons, hw c (by simp)]
    exact ih (fun c hc => hw c (by simp [hc]))

/-- `searchM` necessary-condition wrapper: a property of every anchored
success that is preserved by prepending characters holds of any string
on which the search succeeds. -/
theorem searchM_imp {α : Type} {M : Str → Option α} {P : Str → Prop}
    (anch : ∀ t a, M t = some a → P t) (clos : ∀ c t, P t → P (c :: t)) :
    ∀ s a, searchM M s = some a → P s := by
  intro s
  induction s with
  | nil => intro a h; exact anch [] a h
  | cons c t ih =>
    intro a h
    rw [searchM] at h
    revert h
    split
    next heq => intro h; injection h with h'; subst h'; exact anch _ _ heq
    next => intro h; exact clos c t (ih a h)

/-- If the anchored matcher succeeds on the string itself, the search
returns that result (leftmost). -/
theorem searchM_head {α : Type} {M : Str → Option α} {s : Str} {a : α}
    (h : M s = some a) : searchM M s = some a := by
  cases s with
  | nil => simpa [searchM] using h
  | cons c t => simp [searchM, h]

theorem searchM_eq_none {α : Type} {M : Str → Option α} :
    ∀ {s : Str}, (∀ t a, M t = some a → ¬ (t <:+ s)) → searchM M s = none := by
  intro s
  induction s with
  | nil =>
    intro h
    rw [searchM]
    cases hM : M [] with
    | none => rfl
    | some a => exact absurd List.nil_suffix (h [] a hM)
  | cons c t ih =>
    intro h
    rw [searchM]
    cases hM : M (c :: t) with
    | some a => exact absurd (List.suffix_refl _) (h _ a hM)
    | none =>
      exact ih (fun u a hu hsuf => h u a hu (hsuf.trans (List.suffix_cons c t)))

/-! ## Adjacent-pair toolkit (necessary conditions for searches) -/

/-- `hasPair s a b`: the two-character string `ab` occurs in `s`. -/
def hasPair (s : Str) (a b : Char) : Prop := ∃ U V, s = U ++ a :: b :: V

theorem hasPair_cons {s : Str} {a b c : Char} (h : hasPair s a b) : hasPair (c :: s) a b := by
  obtain ⟨U, V, hUV⟩ := h
  exact ⟨c :: U, V, by simp [hUV]⟩

theorem hasPair_append_left {s t : Str} {a b : Char} (h : hasPair s a b) :
    hasPair (s ++ t) a b := by
  obtain ⟨U, V, hUV⟩ := h
  exact ⟨U, V ++ t, by simp [hUV]⟩

theorem hasPair_append_right {s t : Str} {a b : Char} (h : hasPair t a b) :
    hasPair (s ++ t) a b := by
  obtain ⟨U, V, hUV⟩ := h
  exact ⟨s ++ U, V, by simp [hUV]⟩

theorem hasPair_of_suffix {s t : Str} {a b : Char} (h : hasPair t a b) (hsuf : t <:+ s) :
    hasPair s a b := by
  obtain ⟨u, hu⟩ := hsuf
  exact hu ▸ hasPair_append_right h

/-- Decompose an occurrence across an append. -/
theorem hasPair_append_elim {a b : Char} : ∀ {X : Str} {Y : Str}, hasPair (X ++ Y) a b →
    hasPair X a b ∨ hasPair Y a b ∨ (X.getLast? = some a ∧ Y.head? = some b) := by
  intro X
  induction X with
  | nil => intro Y h; exact Or.inr (Or.inl (by simpa using h))
  | cons c cs ih =>
    intro Y h
    obtain ⟨U, V, hUV⟩ := h
    cases U with
    | nil =>
      simp only [List.nil_append, List.cons_append, List.cons.injEq] at hUV
      obtain ⟨hc, htail⟩ := hUV
      subst hc
      cases hcs : cs with
      | nil =>
        subst hcs
        simp only [List.nil_append] at htail
        cases Y with
        | nil => simp at htail
        | cons y ys =>
          simp only [List.cons.injEq] at htail
          exact Or.inr (Or.inr ⟨by simp, by simp [htail.1]⟩)
      | cons d ds =>
        subst hcs
        simp only [List.cons_append, List.cons.injEq] at htail
        exact Or.inl ⟨[], ds, by simp [htail.1]⟩
    | cons u us =>
      simp only [List.cons_append, List.cons.injEq] at hUV
      obtain ⟨hc, htail⟩ := hUV
      subst hc
      rcases ih ⟨us, V, htail⟩ with h1 | h2 | h3
      · exact Or.inl (hasPair_cons h1)
      · exact Or.inr (Or.inl h2)
      · refine Or.inr (Or.inr ⟨?_, h3.2⟩)
        cases cs with
        | nil => simp at h3
        | cons d ds =>
          rw [List.getLast?_cons_cons]
          exact h3.1

/-! ## Necessary conditions for each anchored matcher (used to show a
search cannot fire on lines of the other shapes) -/

theorem mBgCE_pairs {t : Str} {x : Str} (hm : mBgCE t = some x) :
    hasPair t '.' 'c' ∧ hasPair t '_' 'c' := by
  obtain ⟨r1, h1, -⟩ := Option.bind_eq_some.mp hm
  rw [lit_eq_some] at h1
  subst h1
  exact ⟨⟨str "self", str "amera.background_color" ++ r1, rfl⟩,
         ⟨str "self.camera.background", str "olor" ++ r1, rfl⟩⟩

theorem mBgGL_pairs {t : Str} {x : Str} (hm : mBgGL t = some x) :
    hasPair t '.' 'c' ∧ hasPair t '_' 'r' := by
  obtain ⟨r1, h1, -⟩ := Option.bind_eq_some.mp hm
  rw [lit_eq_some] at h1
  subst h1
  exact ⟨⟨str "self", str "amera.background_rgba" ++ r1, rfl⟩,
         ⟨str "self.camera.background", str "gba" ++ r1, rfl⟩⟩

theorem mObj_chars {t : Str} {x : Str × Str} (hm : mObj t = some x) :
    '=' ∈ t ∧ '"' ∈ t := by
  obtain ⟨⟨nm, r1⟩, h1, hm⟩ := Option.bind_eq_some.mp hm
  obtain ⟨r2, h2, hm⟩ := Option.bind_eq_some.mp hm
  obtain ⟨r3, h3, hm⟩ := Option.bind_eq_some.mp hm
  obtain ⟨r4, h4, hm⟩ := Option.bind_eq_some.mp hm
  obtain ⟨r5, h5, -⟩ := Option.bind_eq_some.mp hm
  have heq : '=' ∈ t :=
    mem_of_cls1 h1 (mem_wsDrop (mem_of_lit h2 (by simp)))
  have h3' : lit (str "Tex") (wsDrop r2) = some r3 ∨ lit (str "MathTex") (wsDrop r2) = some r3 := by
    rcases ha : lit (str "Tex") (wsDrop r2) with _ | y
    · right
      rw [ha] at h3
      simpa using h3
    · left
      rw [ha] at h3
      simpa using h3
  have hq5 : '"' ∈ wsDrop r4 := mem_of_lit h5 (by simp)
  have hq4 : '"' ∈ r4 := mem_wsDrop hq5
  have hq3 : '"' ∈ wsDrop r3 := mem_of_lit_rest h4 hq4
  have hqr3 : '"' ∈ r3 := mem_wsDrop hq3
  have hq2 : '"' ∈ r2 := by
    rcases h3' with h | h
    · exact mem_wsDrop (mem_of_lit_rest h hqr3)
    · exact mem_wsDrop (mem_of_lit_rest h hqr3)
  exact ⟨heq, mem_of_cls1 h1 (mem_wsDrop (mem_of_lit_rest h2 hq2))⟩

theorem mColor_quote {t : Str} {x : Str × Str} (hm : mColor t = some x) : '"' ∈ t := by
  obtain ⟨⟨nm, r1⟩, h1, hm⟩ := Option.bind_eq_some.mp hm
  obtain ⟨r2, h2, hm⟩ := Option.bind_eq_some.mp hm
  obtain ⟨r3, h3, hm⟩ := Option.bind_eq_some.mp hm
  obtain ⟨r4, h4, -⟩ := Option.bind_eq_some.mp hm
  exact mem_of_cls1 h1 (mem_of_lit_rest h2
    (mem_wsDrop (mem_of_lit_rest h3 (mem_wsDrop (mem_of_lit h4 (by simp))))))

theorem mColor_pair {t : Str} {x : Str × Str} (hm : mColor t = some x) :
    hasPair t '.' 's' := by
  obtain ⟨⟨nm, r1⟩, h1, hm⟩ := Option.bind_eq_some.mp hm
  obtain ⟨r2, h2, -⟩ := Option.bind_eq_some.mp hm
  obtain ⟨ht, -, -, -⟩ := cls1_inv h1
  rw [lit_eq_some] at h2
  subst ht; subst h2
  exact hasPair_append_right ⟨[], str "et_color" ++ r2, rfl⟩

theorem mScale_pair {t : Str} {x : Str × Str} (hm : mScale t = some x) :
    hasPair t '.' 's' := by
  obtain ⟨⟨nm, r1⟩, h1, hm⟩ := Option.bind_eq_some.mp hm
  obtain ⟨r2, h2, -⟩ := Option.bind_eq_some.mp hm
  obtain ⟨ht, -, -, -⟩ := cls1_inv h1
  rw [lit_eq_some] at h2
  subst ht; subst h2
  exact hasPair_append_right ⟨[], str "cale" ++ r2, rfl⟩

theorem mMove_pair {t : Str} {x : Str × Str × Str} (hm : mMove t = some x) :
    hasPair t '.' 'm' := by
  obtain ⟨⟨nm, r1⟩, h1, hm⟩ := Option.bind_eq_some.mp hm
  obtain ⟨r2, h2, -⟩ := Option.bind_eq_some.mp hm
  obtain ⟨ht, -, -, -⟩ := cls1_inv h1
  rw [lit_eq_some] at h2
  subst ht; subst h2
  exact hasPair_append_right ⟨[], str "ove_to" ++ r2, rfl⟩

theorem mAdd_pair {t : Str} {x : Str} (hm : mAdd t = some x) : hasPair t '.' 'a' := by
  obtain ⟨r1, h1, -⟩ := Option.bind_eq_some.mp hm
  rw [lit_eq_some] at h1
  subst h1
  exact ⟨str "self", str "dd" ++ r1, rfl⟩

theorem mWait_pair {t : Str} {x : Option Str} (hm : mWait t = some x) :
    hasPair t '.' 'w' := by
  obtain ⟨r1, h1, -⟩ := Option.bind_eq_some.mp hm
  rw [lit_eq_some] at h1
  subst h1
  exact ⟨str "self", str "ait" ++ r1, rfl⟩

theorem mPlay_pair {t : Str} {x : Str × Str × Option Str × Option Str}
    (hm : mPlay t = some x) : hasPair t '.' 'p' := by
  obtain ⟨r1, h1, -⟩ := Option.bind_eq_some.mp hm
  rw [lit_eq_some] at h1
  subst h1
  exact ⟨str "self", str "lay" ++ r1, rfl⟩

/-! search-level necessary conditions -/

theorem searchBgCE_pairs {s : Str} {x : Str} (h : searchM mBgCE s = some x) :
    hasPair s '.' 'c' ∧ hasPair s '_' 'c' :=
  searchM_imp (P := fun u => hasPair u '.' 'c' ∧ hasPair u '_' 'c')
    (fun _ _ hm => mBgCE_pairs hm)
    (fun _ _ hp => ⟨hasPair_cons hp.1, hasPair_cons hp.2⟩) s x h

theorem searchBgGL_pairs {s : Str} {x : Str} (h : searchM mBgGL s = some x) :
    hasPair s '.' 'c' ∧ hasPair s '_' 'r' :=
  searchM_imp (P := fun u => hasPair u '.' 'c' ∧ hasPair u '_' 'r')
    (fun _ _ hm => mBgGL_pairs hm)
    (fun _ _ hp => ⟨hasPair_cons hp.1, hasPair_cons hp.2⟩) s x h

theorem searchObj_chars {s : Str} {x : Str × Str} (h : searchM mObj s = some x) :
    '=' ∈ s ∧ '"' ∈ s :=
  searchM_imp (P := fun u => '=' ∈ u ∧ '"' ∈ u)
    (fun _ _ hm => mObj_chars hm)
    (fun c _ hp => ⟨List.mem_cons_of_mem c hp.1, List.mem_cons_of_mem c hp.2⟩) s x h

theorem searchColor_quote {s : Str} {x : Str × Str} (h : searchM mColor s = some x) :
    '"' ∈ s :=
  searchM_imp (P := fun u => '"' ∈ u)
    (fun _ _ hm => mColor_quote hm)
    (fun c _ hp => List.mem_cons_of_mem c hp) s x h

theorem searchColor_pair {s : Str} {x : Str × Str} (h : searchM mColor s = some x) :
    hasPair s '.' 's' :=
  searchM_imp (P := fun u => hasPair u '.' 's')
    (fun _ _ hm => mColor_pair hm) (fun _ _ hp => hasPair_cons hp) s x h

theorem searchScale_pair {s : Str} {x : Str × Str} (h : searchM mScale s = some x) :
    hasPair s '.' 's' :=
  searchM_imp (P := fun u => hasPair u '.' 's')
    (fun _ _ hm => mScale_pair hm) (fun _ _ hp => hasPair_cons hp) s x h

theorem searchMove_pair {s : Str} {x : Str × Str × Str} (h : searchM mMove s = some x) :
    hasPair s '.' 'm' :=
  searchM_imp (P := fun u => hasPair u '.' 'm')
    (fun _ _ hm => mMove_pair hm) (fun _ _ hp => hasPair_cons hp) s x h

theorem searchAdd_pair {s : Str} {x : Str} (h : searchM mAdd s = some x) :
    hasPair s '.' 'a' :=
  searchM_imp (P := fun u => hasPair u '.' 'a')
    (fun _ _ hm => mAdd_pair hm) (fun _ _ hp => hasPair_cons hp) s x h

theorem searchWait_pair {s : Str} {x : Option Str} (h : searchM mWait s = some x) :
    hasPair s '.' 'w' :=
  searchM_imp (P := fun u => hasPair u '.' 'w')
    (fun _ _ hm => mWait_pair hm) (fun _ _ hp => hasPair_cons hp) s x h

theorem searchPlay_pair {s : Str} {x : Str × Str × Option Str × Option Str}
    (h : searchM mPlay s = some x) : hasPair s '.' 'p' :=
  searchM_imp (P := fun u => hasPair u '.' 'p')
    (fun _ _ hm => mPlay_pair hm) (fun _ _ hp => hasPair_cons hp) s x h

/-! ## Absence infrastructure -/

/-- Executable adjacent-pair scan, for deciding `hasPair` on concrete
segments. -/
def pairScan (a b : Char) : Str → Bool
  | [] => false
  | [_] => false
  | x :: y :: t => (x = a && y = b) || pairScan a b (y :: t)

theorem hasPair_iff_pairScan {a b : Char} : ∀ {s : Str}, hasPair s a b ↔ pairScan a b s = true := by
  intro s
  induction s with
  | nil =>
    simp only [pairScan]
    constructor
    · rintro ⟨U, V, hUV⟩
      exact absurd hUV (by simp)
    · simp
  | cons x t ih =>
    cases t with
    | nil =>
      simp only [pairScan]
      constructor
      · rintro ⟨U, V, hUV⟩
        cases U with
        | nil => simp at hUV
        | cons u us => simp at hUV
      · simp
    | cons y u =>
      simp only [pairScan, Bool.or_eq_true, Bool.and_eq_true, decide_eq_true_eq]
      constructor
      · rintro ⟨U, V, hUV⟩
        cases U with
        | nil =>
          simp only [List.nil_append, List.cons.injEq] at hUV
          exact Or.inl ⟨hUV.1, hUV.2.1⟩
        | cons w ws =>
          simp only [List.cons_append, List.cons.injEq] at hUV
          exact Or.inr (ih.mp ⟨ws, V, hUV.2⟩)
      · rintro (⟨hx, hy⟩ | hrec)
        · exact ⟨[], u, by simp [hx, hy]⟩
        · obtain ⟨U, V, hUV⟩ := ih.mpr hrec
          exact ⟨x :: U, V, by simp [hUV]⟩

theorem hasPair_mem_fst {s : Str} {a b : Char} (h : hasPair s a b) : a ∈ s := by
  obtain ⟨U, V, hUV⟩ := h
  subst hUV
  simp

theorem noPair_of_not_mem {s : Str} {a b : Char} (h : a ∉ s) : ¬ hasPair s a b :=
  fun hp => h (hasPair_mem_fst hp)

theorem all_not_mem {p : Char → Bool} {s : Str} (hall : ∀ c ∈ s, p c = true)
    {ch : Char} (hc : p ch = false) : ch ∉ s := by
  intro hm
  rw [hall ch hm] at hc
  cases hc

theorem noPair_append {X Y : Str} {a b : Char} (hX : ¬ hasPair X a b)
    (hY : ¬ hasPair Y a b) (hJ : ¬ (X.getLast? = some a ∧ Y.head? = some b)) :
    ¬ hasPair (X ++ Y) a b := by
  intro h
  rcases hasPair_append_elim h with h1 | h2 | h3
  · exact hX h1
  · exact hY h2
  · exact hJ h3

/-- In an all-`p` run, any pair occurrence has its first char satisfying
`p`; contrapositive form used constantly. -/
theorem noPair_run {s : Str} {p : Char → Bool} (hall : ∀ c ∈ s, p c = true)
    {a b : Char} (ha : p a = false) : ¬ hasPair s a b :=
  noPair_of_not_mem (all_not_mem hall ha)

/-! character-class disjointness facts -/

theorem word_not_space {c : Char} (h : isWordC c = true) : isSpaceC c = false := by
  by_contra hc
  have hc' : isSpaceC c = true := by
    cases hs : isSpaceC c
    · exact absurd hs hc
    · rfl
  simp only [isSpaceC, Bool.or_eq_true, decide_eq_true_eq] at hc'
  rcases hc' with ((((h1 | h1) | h1) | h1) | h1) | h1 <;> subst h1 <;> simp [isWordC] at h

theorem digitDot_not_space {c : Char} (h : isDigitDotC c = true) : isSpaceC c = false := by
  by_contra hc
  have hc' : isSpaceC c = true := by
    cases hs : isSpaceC c
    · exact absurd hs hc
    · rfl
  simp only [isSpaceC, Bool.or_eq_true, decide_eq_true_eq] at hc'
  rcases hc' with ((((h1 | h1) | h1) | h1) | h1) | h1 <;> subst h1 <;>
    simp [isDigitDotC, isDigitC] at h

theorem numMove_not_space {c : Char} (h : isNumMoveC c = true) : isSpaceC c = false := by
  by_contra hc
  have hc' : isSpaceC c = true := by
    cases hs : isSpaceC c
    · exact absurd hs hc
    · rfl
  simp only [isSpaceC, Bool.or_eq_true, decide_eq_true_eq] at hc'
  rcases hc' with ((((h1 | h1) | h1) | h1) | h1) | h1 <;> subst h1 <;>
    simp [isNumMoveC, isDigitC] at h

theorem hex_not_space {c : Char} (h : isHexC c = true) : isSpaceC c = false := by
  by_contra hc
  have hc' : isSpaceC c = true := by
    cases hs : isSpaceC c
    · exact absurd hs hc
    · rfl
  simp only [isSpaceC, Bool.or_eq_true, decide_eq_true_eq] at hc'
  rcases hc' with ((((h1 | h1) | h1) | h1) | h1) | h1 <;> subst h1 <;>
    simp [isHexC, isDigitC] at h

theorem pyStrip_run {ind core : Str} (hind : ∀ c ∈ ind, isSpaceC c = true)
    (hh : ∀ c, core.head? = some c → isSpaceC c = false)
    (hl : ∀ c, core.getLast? = some c → isSpaceC c = false) :
    pyStrip (ind ++ core) = core := by
  unfold pyStrip
  have h1 : (ind ++ core).dropWhile isSpaceC = core := wsDrop_append_run hind hh
  rw [h1]
  have h2 : core.reverse.dropWhile isSpaceC = core.reverse := by
    apply wsDrop_eq_of_head
    intro c hc
    rw [List.head?_reverse] at hc
    exact hl c hc
  rw [h2, List.reverse_reverse]

/-! ## search = none from absence facts -/

theorem hasPair_mem_snd {s : Str} {a b : Char} (h : hasPair s a b) : b ∈ s := by
  obtain ⟨U, V, hUV⟩ := h
  subst hUV
  simp

theorem noPair_of_not_mem_snd {s : Str} {a b : Char} (h : b ∉ s) : ¬ hasPair s a b :=
  fun hp => h (hasPair_mem_snd hp)

theorem joint_ne_snd {X Y : Str} {a b : Char} (h : Y.head? ≠ some b) :
    ¬ (X.getLast? = some a ∧ Y.head? = some b) := fun hp => h hp.2

theorem joint_ne_fst {X Y : Str} {a b : Char} (h : X.getLast? ≠ some a) :
    ¬ (X.getLast? = some a ∧ Y.head? = some b) := fun hp => h hp.1

theorem run_getLast_ne {p : Char → Bool} {s : Str} (hall : ∀ c ∈ s, p c = true)
    {a : Char} (ha : p a = false) : s.getLast? ≠ some a := by
  intro h
  have hmem : a ∈ s.getLast? := by rw [h]; rfl
  obtain ⟨hne, heq⟩ := List.mem_getLast?_eq_getLast hmem
  have hm : a ∈ s := by rw [heq]; exact List.getLast_mem hne
  rw [hall a hm] at ha
  cases ha

theorem run_head_ne {p : Char → Bool} {s : Str} (hall : ∀ c ∈ s, p c = true)
    {a : Char} (ha : p a = false) : s.head? ≠ some a := by
  intro h
  have hm : a ∈ s := List.mem_of_mem_head? h
  rw [hall a hm] at ha
  cases ha

theorem snBgCE_dot {s : Str} (h : ¬ hasPair s '.' 'c') : searchM mBgCE s = none := by
  cases hs : searchM mBgCE s with
  | none => rfl
  | some x => exact absurd (searchBgCE_pairs hs).1 h

theorem snBgCE_us {s : Str} (h : ¬ hasPair s '_' 'c') : searchM mBgCE s = none := by
  cases hs : searchM mBgCE s with
  | none => rfl
  | some x => exact absurd (searchBgCE_pairs hs).2 h

theorem snBgGL_dot {s : Str} (h : ¬ hasPair s '.' 'c') : searchM mBgGL s = none := by
  cases hs : searchM mBgGL s with
  | none => rfl
  | some x => exact absurd (searchBgGL_pairs hs).1 h

theorem snBgGL_us {s : Str} (h : ¬ hasPair s '_' 'r') : searchM mBgGL s = none := by
  cases hs : searchM mBgGL s with
  | none => rfl
  | some x => exact absurd (searchBgGL_pairs hs).2 h

theorem snObj_eq {s : Str} (h : '=' ∉ s) : searchM mObj s = none := by
  cases hs : searchM mObj s with
  | none => rfl
  | some x => exact absurd (searchObj_chars hs).1 h

theorem snObj_quote {s : Str} (h : '"' ∉ s) : searchM mObj s = none := by
  cases hs : searchM mObj s with
  | none => rfl
  | some x => exact absurd (searchObj_chars hs).2 h

theorem snColor_quote {s : Str} (h : '"' ∉ s) : searchM mColor s = none := by
  cases hs : searchM mColor s with
  | none => rfl
  | some x => exact absurd (searchColor_quote hs) h

theorem snColor_pair {s : Str} (h : ¬ hasPair s '.' 's') : searchM mColor s = none := by
  cases hs : searchM mColor s with
  | none => rfl
  | some x => exact absurd (searchColor_pair hs) h

theorem snScale {s : Str} (h : ¬ hasPair s '.' 's') : searchM mScale s = none := by
  cases hs : searchM mScale s with
  | none => rfl
  | some x => exact absurd (searchScale_pair hs) h

theorem snMove {s : Str} (h : ¬ hasPair s '.' 'm') : searchM mMove s = none := by
  cases hs : searchM mMove s with
  | none => rfl
  | some x => exact absurd (searchMove_pair hs) h

theorem snAdd {s : Str} (h : ¬ hasPair s '.' 'a') : searchM mAdd s = none := by
  cases hs : searchM mAdd s with
  | none => rfl
  | some x => exact absurd (searchAdd_pair hs) h

theorem snWait {s : Str} (h : ¬ hasPair s '.' 'w') : searchM mWait s = none := by
  cases hs : searchM mWait s with
  | none => rfl
  | some x => exact absurd (searchWait_pair hs) h

theorem snPlay {s : Str} (h : ¬ hasPair s '.' 'p') : searchM mPlay s = none := by
  cases hs : searchM mPlay s with
  | none => rfl
  | some x => exact absurd (searchPlay_pair hs) h

/-! ## Field well-formedness predicates and line-level lemmas -/

/-- A nonempty `\w+` run (names, animation kinds, easings). -/
def wordRun (s : Str) : Prop := s ≠ [] ∧ ∀ c ∈ s, isWordC c = true

/-- A nonempty `[\d.]+` run (formatted durations and scales). -/
def ddRun (s : Str) : Prop := s ≠ [] ∧ ∀ c ∈ s, isDigitDotC c = true

/-- A nonempty `[\d.eE+-]+` run (formatted coordinates). -/
def nmRun (s : Str) : Prop := s ≠ [] ∧ ∀ c ∈ s, isNumMoveC c = true

/-- A `#RRGGBB` hex color as required by the color regexes. -/
def hexStr (s : Str) : Prop :=
  ∃ h, s = '#' :: h ∧ h.length = 6 ∧ ∀ c ∈ h, isHexC c = true

/-- Characters of `content` that keep every regex of parser.py away from
the inside of a generated `Tex/MathTex` literal: no quote (ends the
`[^"]*` group), no dot (every directive and both background patterns
need a literal dot), no colon (the class pattern needs one), and no line
break. -/
def latexOk (s : Str) : Prop :=
  ∀ c ∈ s, c ≠ '"' ∧ c ≠ '.' ∧ c ≠ ':' ∧ c ≠ '\n' ∧ c ≠ '\x0d'

theorem head?_append_ne {X Y : Str} (h : X ≠ []) : (X ++ Y).head? = X.head? := by
  cases X with
  | nil => exact absurd rfl h
  | cons c cs => rfl

theorem getLast?_append_ne {X Y : Str} (h : Y ≠ []) : (X ++ Y).getLast? = Y.getLast? := by
  induction X with
  | nil => rfl
  | cons c cs ih =>
    rw [List.cons_append]
    cases hcs : cs ++ Y with
    | nil =>
      rcases List.append_eq_nil.mp hcs with ⟨-, h2⟩
      exact absurd h2 h
    | cons d ds =>
      rw [List.getLast?_cons_cons, ← hcs, ih]

theorem wordRun_head_not_space {tgt : Str} (h : wordRun tgt) (Y : Str) :
    ∀ c, (tgt ++ Y).head? = some c → isSpaceC c = false := by
  intro c hc
  obtain ⟨hne, hall⟩ := h
  rw [head?_append_ne hne] at hc
  exact word_not_space (hall c (List.mem_of_mem_head? (by rw [hc]; rfl)))

theorem ddRun_head_not_space {d : Str} (h : ddRun d) (Y : Str) :
    ∀ c, (d ++ Y).head? = some c → isSpaceC c = false := by
  intro c hc
  obtain ⟨hne, hall⟩ := h
  rw [head?_append_ne hne] at hc
  exact digitDot_not_space (hall c (List.mem_of_mem_head? (by rw [hc]; rfl)))

theorem nmRun_head_not_space {d : Str} (h : nmRun d) (Y : Str) :
    ∀ c, (d ++ Y).head? = some c → isSpaceC c = false := by
  intro c hc
  obtain ⟨hne, hall⟩ := h
  rw [head?_append_ne hne] at hc
  exact numMove_not_space (hall c (List.mem_of_mem_head? (by rw [hc]; rfl)))

/-- Greedy `takeWhile`/`dropWhile` over `run ++ rest`. -/
theorem takeWhile_run {p : Char → Bool} {w rest : Str} (hw : ∀ c ∈ w, p c = true)
    (hr : ∀ c, rest.head? = some c → p c = false) :
    (w ++ rest).takeWhile p = w ∧ (w ++ rest).dropWhile p = rest := by
  constructor
  · induction w with
    | nil =>
      cases rest with
      | nil => simp
      | cons c cs => simp [List.takeWhile_cons, hr c rfl]
    | cons c cs ih =>
      simp [List.takeWhile_cons, hw c (by simp),
        ih (fun x hx => hw x (by simp [hx]))]
  · induction w with
    | nil =>
      cases rest with
      | nil => simp
      | cons c cs => simp [List.dropWhile_cons, hr c rfl]
    | cons c cs ih =>
      simp [List.dropWhile_cons, hw c (by simp),
        ih (fun x hx => hw x (by simp [hx]))]

theorem hex6_pos {h rest : Str} (hlen : h.length = 6) (hall : ∀ c ∈ h, isHexC c = true) :
    hex6 (h ++ rest) = some ('#' :: h, rest) := by
  unfold hex6
  have ht : (h ++ rest).take 6 = h := by
    rw [← hlen]
    exact List.take_left h rest
  have hd : (h ++ rest).drop 6 = rest := by
    rw [← hlen]
    exact List.drop_left h rest
  rw [ht, hd, if_pos]
  rw [hlen]
  simp only [Bool.and_eq_true, decide_eq_true_eq]
  exact ⟨trivial, List.all_eq_true.mpr (fun c hc => hall c hc)⟩

theorem wsDrop_cons {c : Char} (h : isSpaceC c = false) (X : Str) :
    wsDrop (c :: X) = c :: X := by
  simp [wsDrop, List.dropWhile_cons, h]

theorem wsDrop_space {c : Char} (h : isSpaceC c = true) (X : Str) :
    wsDrop (c :: X) = wsDrop X := by
  simp [wsDrop, List.dropWhile_cons, h]

theorem wsDrop_run_head {s Y : Str} (hs : s ≠ []) (hall : ∀ c ∈ s, isWordC c = true) :
    wsDrop (s ++ Y) = s ++ Y :=
  wsDrop_eq_of_head (wordRun_head_not_space ⟨hs, hall⟩ Y)

/-! ## Positive anchored matches on generated line shapes -/

theorem mAdd_pos {tgt : Str} (h : wordRun tgt) :
    mAdd (str "self.add(" ++ (tgt ++ str ")")) = some tgt := by
  obtain ⟨hne, hall⟩ := h
  have h1 : lit (str "self.add") (str "self.add(" ++ (tgt ++ str ")")) =
      some ('(' :: (tgt ++ str ")")) := lit_eq_some.mpr rfl
  have h2 : wsDrop ('(' :: (tgt ++ str ")")) = '(' :: (tgt ++ str ")") :=
    wsDrop_cons (by decide) _
  have h3 : lit ['('] ('(' :: (tgt ++ str ")")) = some (tgt ++ str ")") :=
    lit_eq_some.mpr rfl
  have h4 : wsDrop (tgt ++ str ")") = tgt ++ str ")" := wsDrop_run_head hne hall
  have h5 : cls1 isWordC (tgt ++ str ")") = some (tgt, str ")") :=
    cls1_intro hne hall (by intro c hc; cases hc; decide)
  have h6 : wsDrop (str ")") = str ")" := by decide
  have h7 : lit [')'] (str ")") = some [] := by decide
  simp only [mAdd, h1, Option.bind_eq_bind, Option.some_bind, h2, h3, h4, h5, h6, h7]

theorem mWait_pos_dur {d : Str} (h : ddRun d) :
    mWait (str "self.wait(" ++ (d ++ str ")")) = some (some d) := by
  obtain ⟨hne, hall⟩ := h
  have h1 : lit (str "self.wait") (str "self.wait(" ++ (d ++ str ")")) =
      some ('(' :: (d ++ str ")")) := lit_eq_some.mpr rfl
  have h2 : wsDrop ('(' :: (d ++ str ")")) = '(' :: (d ++ str ")") :=
    wsDrop_cons (by decide) _
  have h3 : lit ['('] ('(' :: (d ++ str ")")) = some (d ++ str ")") :=
    lit_eq_some.mpr rfl
  have h4 : wsDrop (d ++ str ")") = d ++ str ")" :=
    wsDrop_eq_of_head (ddRun_head_not_space ⟨hne, hall⟩ _)
  have h5 : cls1 isDigitDotC (d ++ str ")") = some (d, str ")") :=
    cls1_intro hne hall (by intro c hc; cases hc; decide)
  have h6 : wsDrop (str ")") = str ")" := by decide
  have h7 : lit [')'] (str ")") = some [] := by decide
  simp only [mWait, h1, Option.bind_eq_bind, Option.some_bind, h2, h3, h4, h5, h6, h7]

theorem mWait_pos_bare : mWait (str "self.wait()") = some none := by decide

theorem mScale_pos {nm num : Str} (hn : wordRun nm) (hd : ddRun num) :
    mScale (nm ++ (str ".scale(" ++ (num ++ str ")"))) = some (nm, num) := by
  obtain ⟨hne, hall⟩ := hn
  obtain ⟨hdne, hdall⟩ := hd
  have h1 : cls1 isWordC (nm ++ (str ".scale(" ++ (num ++ str ")"))) =
      some (nm, str ".scale(" ++ (num ++ str ")")) :=
    cls1_intro hne hall (by intro c hc; cases hc; decide)
  have h2 : lit (str ".scale") (str ".scale(" ++ (num ++ str ")")) =
      some ('(' :: (num ++ str ")")) := lit_eq_some.mpr rfl
  have h3 : wsDrop ('(' :: (num ++ str ")")) = '(' :: (num ++ str ")") :=
    wsDrop_cons (by decide) _
  have h4 : lit ['('] ('(' :: (num ++ str ")")) = some (num ++ str ")") :=
    lit_eq_some.mpr rfl
  have h5 : wsDrop (num ++ str ")") = num ++ str ")" :=
    wsDrop_eq_of_head (ddRun_head_not_space ⟨hdne, hdall⟩ _)
  have h6 : cls1 isDigitDotC (num ++ str ")") = some (num, str ")") :=
    cls1_intro hdne hdall (by intro c hc; cases hc; decide)
  have h7 : wsDrop (str ")") = str ")" := by decide
  have h8 : lit [')'] (str ")") = some [] := by decide
  simp only [mScale, h1, Option.bind_eq_bind, Option.some_bind, h2, h3, h4, h5, h6, h7, h8]

theorem mColor_pos {nm h6v : Str} (hn : wordRun nm) (hlen : h6v.length = 6)
    (hall6 : ∀ c ∈ h6v, isHexC c = true) :
    mColor (nm ++ (str ".set_color(\"#" ++ (h6v ++ str "\")"))) =
      some (nm, '#' :: h6v) := by
  obtain ⟨hne, hall⟩ := hn
  have h1 : cls1 isWordC (nm ++ (str ".set_color(\"#" ++ (h6v ++ str "\")"))) =
      some (nm, str ".set_color(\"#" ++ (h6v ++ str "\")")) :=
    cls1_intro hne hall (by intro c hc; cases hc; decide)
  have h2 : lit (str ".set_color") (str ".set_color(\"#" ++ (h6v ++ str "\")")) =
      some ('(' :: '"' :: '#' :: (h6v ++ str "\")")) := lit_eq_some.mpr rfl
  have h3 : wsDrop ('(' :: '"' :: '#' :: (h6v ++ str "\")")) =
      '(' :: '"' :: '#' :: (h6v ++ str "\")") := wsDrop_cons (by decide) _
  have h4 : lit ['('] ('(' :: '"' :: '#' :: (h6v ++ str "\")")) =
      some ('"' :: '#' :: (h6v ++ str "\")")) := lit_eq_some.mpr rfl
  have h5 : wsDrop ('"' :: '#' :: (h6v ++ str "\")")) =
      '"' :: '#' :: (h6v ++ str "\")") := wsDrop_cons (by decide) _
  have h6 : lit ['"', '#'] ('"' :: '#' :: (h6v ++ str "\")")) =
      some (h6v ++ str "\")") := lit_eq_some.mpr rfl
  have h7 : hex6 (h6v ++ str "\")") = some ('#' :: h6v, str "\")") :=
    hex6_pos hlen hall6
  have h8 : lit ['"'] (str "\")") = some (str ")") := lit_eq_some.mpr rfl
  have h9 : wsDrop (str ")") = str ")" := by decide
  have h10 : lit [')'] (str ")") = some [] := by decide
  simp only [mColor, h1, Option.bind_eq_bind, Option.some_bind, h2, h3, h4, h5, h6, h7,
    h8, h9, h10]

theorem mBgGL_pos {h6v : Str} (hlen : h6v.length = 6)
    (hall6 : ∀ c ∈ h6v, isHexC c = true) :
    mBgGL (str "self.camera.background_rgba = color_to_rgba(\"#" ++ (h6v ++ str "\")")) =
      some ('#' :: h6v) := by
  have h1 : lit (str "self.camera.background_rgba")
      (str "self.camera.background_rgba = color_to_rgba(\"#" ++ (h6v ++ str "\")")) =
      some (' ' :: '=' :: ' ' :: (str "color_to_rgba(\"#" ++ (h6v ++ str "\")"))) :=
    lit_eq_some.mpr rfl
  have h2 : wsDrop (' ' :: '=' :: ' ' :: (str "color_to_rgba(\"#" ++ (h6v ++ str "\")"))) =
      '=' :: ' ' :: (str "color_to_rgba(\"#" ++ (h6v ++ str "\")")) := by
    rw [wsDrop_space (by decide), wsDrop_cons (by decide)]
  have h3 : lit ['='] ('=' :: ' ' :: (str "color_to_rgba(\"#" ++ (h6v ++ str "\")"))) =
      some (' ' :: (str "color_to_rgba(\"#" ++ (h6v ++ str "\")"))) := lit_eq_some.mpr rfl
  have h4 : wsDrop (' ' :: (str "color_to_rgba(\"#" ++ (h6v ++ str "\")"))) =
      str "color_to_rgba(\"#" ++ (h6v ++ str "\")") := by
    rw [wsDrop_space (by decide), wsDrop_eq_of_head]
    intro c hc
    rw [head?_append_ne (by decide)] at hc
    cases hc
    decide
  have h5 : lit (str "color_to_rgba") (str "color_to_rgba(\"#" ++ (h6v ++ str "\")")) =
      some ('(' :: '"' :: '#' :: (h6v ++ str "\")")) := lit_eq_some.mpr rfl
  have h6 : lit ['('] ('(' :: '"' :: '#' :: (h6v ++ str "\")")) =
      some ('"' :: '#' :: (h6v ++ str "\")")) := lit_eq_some.mpr rfl
  have h7 : lit ['"', '#'] ('"' :: '#' :: (h6v ++ str "\")")) =
      some (h6v ++ str "\")") := lit_eq_some.mpr rfl
  have h8 : hex6 (h6v ++ str "\")") = some ('#' :: h6v, str "\")") := hex6_pos hlen hall6
  have h9 : lit ['"'] (str "\")") = some (str ")") := lit_eq_some.mpr rfl
  simp only [mBgGL, h1, Option.bind_eq_bind, Option.some_bind, h2, h3, h4, h5,
    wsDrop_cons (show isSpaceC '(' = false by decide),
    wsDrop_cons (show isSpaceC '"' = false by decide), h6, h7, h8, h9,
    show wsDrop (str ")") = str ")" by decide,
    show lit [')'] (str ")") = some [] by decide]

theorem mBgCE_pos {h6v : Str} (hlen : h6v.length = 6)
    (hall6 : ∀ c ∈ h6v, isHexC c = true) :
    mBgCE (str "self.camera.background_color = \"#" ++ (h6v ++ str "\"")) =
      some ('#' :: h6v) := by
  have h1 : lit (str "self.camera.background_color")
      (str "self.camera.background_color = \"#" ++ (h6v ++ str "\"")) =
      some (' ' :: '=' :: ' ' :: '"' :: '#' :: (h6v ++ str "\"")) := lit_eq_some.mpr rfl
  have h2 : wsDrop (' ' :: '=' :: ' ' :: '"' :: '#' :: (h6v ++ str "\"")) =
      '=' :: ' ' :: '"' :: '#' :: (h6v ++ str "\"") := by
    rw [wsDrop_space (by decide), wsDrop_cons (by decide)]
  have h3 : lit ['='] ('=' :: ' ' :: '"' :: '#' :: (h6v ++ str "\"")) =
      some (' ' :: '"' :: '#' :: (h6v ++ str "\"")) := lit_eq_some.mpr rfl
  have h4 : wsDrop (' ' :: '"' :: '#' :: (h6v ++ str "\"")) =
      '"' :: '#' :: (h6v ++ str "\"") := by
    rw [wsDrop_space (by decide), wsDrop_cons (by decide)]
  have h5 : lit ['"', '#'] ('"' :: '#' :: (h6v ++ str "\"")) =
      some (h6v ++ str "\"") := lit_eq_some.mpr rfl
  have h6 : hex6 (h6v ++ str "\"") = some ('#' :: h6v, str "\"") := hex6_pos hlen hall6
  have h7 : lit ['"'] (str "\"") = some [] := lit_eq_some.mpr rfl
  simp only [mBgCE, h1, Option.bind_eq_bind, Option.some_bind, h2, h3, h4, h5, h6, h7]

theorem mMove_pos {nm X Y : Str} (hn : wordRun nm) (hX : nmRun X) (hY : nmRun Y) :
    mMove (nm ++ (str ".move_to(np.array([" ++ (X ++ (str ", " ++ (Y ++ str ", 0]))"))))) =
      some (nm, X, Y) := by
  obtain ⟨hne, hall⟩ := hn
  have h1 : cls1 isWordC
      (nm ++ (str ".move_to(np.array([" ++ (X ++ (str ", " ++ (Y ++ str ", 0]))"))))) =
      some (nm, str ".move_to(np.array([" ++ (X ++ (str ", " ++ (Y ++ str ", 0]))")))) :=
    cls1_intro hne hall (by intro c hc; cases hc; decide)
  have h2 : lit (str ".move_to")
      (str ".move_to(np.array([" ++ (X ++ (str ", " ++ (Y ++ str ", 0]))")))) =
      some (str "(np.array([" ++ (X ++ (str ", " ++ (Y ++ str ", 0]))")))) :=
    lit_eq_some.mpr rfl
  have w2 : wsDrop (str "(np.array([" ++ (X ++ (str ", " ++ (Y ++ str ", 0]))")))) =
      str "(np.array([" ++ (X ++ (str ", " ++ (Y ++ str ", 0]))"))) :=
    wsDrop_eq_of_head (by intro c hc; rw [head?_append_ne (by decide)] at hc; cases hc; decide)
  have h3 : lit ['('] (str "(np.array([" ++ (X ++ (str ", " ++ (Y ++ str ", 0]))")))) =
      some (str "np.array([" ++ (X ++ (str ", " ++ (Y ++ str ", 0]))")))) :=
    lit_eq_some.mpr rfl
  have w3 : wsDrop (str "np.array([" ++ (X ++ (str ", " ++ (Y ++ str ", 0]))")))) =
      str "np.array([" ++ (X ++ (str ", " ++ (Y ++ str ", 0]))"))) :=
    wsDrop_eq_of_head (by intro c hc; rw [head?_append_ne (by decide)] at hc; cases hc; decide)
  have h4 : lit (str "np.array") (str "np.array([" ++ (X ++ (str ", " ++ (Y ++ str ", 0]))")))) =
      some (str "([" ++ (X ++ (str ", " ++ (Y ++ str ", 0]))")))) := lit_eq_some.mpr rfl
  have w4 : wsDrop (str "([" ++ (X ++ (str ", " ++ (Y ++ str ", 0]))")))) =
      str "([" ++ (X ++ (str ", " ++ (Y ++ str ", 0]))"))) :=
    wsDrop_eq_of_head (by intro c hc; rw [head?_append_ne (by decide)] at hc; cases hc; decide)
  have h5 : lit ['('] (str "([" ++ (X ++ (str ", " ++ (Y ++ str ", 0]))")))) =
      some (str "[" ++ (X ++ (str ", " ++ (Y ++ str ", 0]))")))) := lit_eq_some.mpr rfl
  have w5 : wsDrop (str "[" ++ (X ++ (str ", " ++ (Y ++ str ", 0]))")))) =
      str "[" ++ (X ++ (str ", " ++ (Y ++ str ", 0]))"))) :=
    wsDrop_eq_of_head (by intro c hc; rw [head?_append_ne (by decide)] at hc; cases hc; decide)
  have h6 : lit ['['] (str "[" ++ (X ++ (str ", " ++ (Y ++ str ", 0]))")))) =
      some (X ++ (str ", " ++ (Y ++ str ", 0]))"))) := lit_eq_some.mpr rfl
  have w6 : wsDrop (X ++ (str ", " ++ (Y ++ str ", 0]))"))) =
      X ++ (str ", " ++ (Y ++ str ", 0]))")) :=
    wsDrop_eq_of_head (nmRun_head_not_space hX _)
  have h7 : cls1 isNumMoveC (X ++ (str ", " ++ (Y ++ str ", 0]))"))) =
      some (X, str ", " ++ (Y ++ str ", 0]))")) :=
    cls1_intro hX.1 hX.2 (by
      intro c hc
      rw [head?_append_ne (by decide)] at hc
      cases hc
      decide)
  have w7 : wsDrop (str ", " ++ (Y ++ str ", 0]))")) = str ", " ++ (Y ++ str ", 0]))") :=
    wsDrop_eq_of_head (by intro c hc; rw [head?_append_ne (by decide)] at hc; cases hc; decide)
  have h8 : lit [','] (str ", " ++ (Y ++ str ", 0]))")) =
      some (' ' :: (Y ++ str ", 0]))")) := lit_eq_some.mpr rfl
  have w8 : wsDrop (' ' :: (Y ++ str ", 0]))")) = Y ++ str ", 0]))" := by
    rw [wsDrop_space (by decide)]
    exact wsDrop_eq_of_head (nmRun_head_not_space hY _)
  have h9 : cls1 isNumMoveC (Y ++ str ", 0]))") = some (Y, str ", 0]))") :=
    cls1_intro hY.1 hY.2 (by intro c hc; cases hc; decide)
  have w9 : wsDrop (str ", 0]))") = str ", 0]))" := by decide
  have h10 : lit [','] (str ", 0]))") = some (str " 0]))") := lit_eq_some.mpr rfl
  have h11 : cls1 isNumMoveC (wsDrop (str " 0]))")) = some (str "0", str "]))") := by decide
  have h12 : lit [']'] (wsDrop (str "]))")) = some (str "))") := by decide
  have h13 : lit [')'] (wsDrop (str "))")) = some (str ")") := by decide
  have h14 : lit [')'] (wsDrop (str ")")) = some [] := by decide
  simp only [mMove, h1, Option.bind_eq_bind, Option.some_bind,
    wsDrop_cons (show isSpaceC '.' = false by decide), h2, w2, h3, w3, h4, w4, h5, w5,
    h6, w6, h7, w7, h8, w8, h9, w9, h10, h11, h12, h13, h14]

theorem mObj_pos {nm latex tok : Str} (hn : wordRun nm) (hl : latexOk latex)
    (htok : tok = str "Tex" ∨ tok = str "MathTex") :
    mObj (nm ++ (str " = " ++ (tok ++ (str "(r\"" ++ (latex ++ str "\")"))))) =
      some (nm, latex) := by
  obtain ⟨hne, hall⟩ := hn
  have h1 : cls1 isWordC (nm ++ (str " = " ++ (tok ++ (str "(r\"" ++ (latex ++ str "\")"))))) =
      some (nm, str " = " ++ (tok ++ (str "(r\"" ++ (latex ++ str "\")")))) :=
    cls1_intro hne hall (by intro c hc; cases hc; decide)
  have h2 : wsDrop (str " = " ++ (tok ++ (str "(r\"" ++ (latex ++ str "\")")))) =
      '=' :: (' ' :: (tok ++ (str "(r\"" ++ (latex ++ str "\")")))) := by
    rw [show str " = " ++ (tok ++ (str "(r\"" ++ (latex ++ str "\")"))) =
      ' ' :: ('=' :: (' ' :: (tok ++ (str "(r\"" ++ (latex ++ str "\")"))))) from rfl]
    rw [wsDrop_space (by decide), wsDrop_cons (by decide)]
  have h3 : lit ['='] ('=' :: (' ' :: (tok ++ (str "(r\"" ++ (latex ++ str "\")"))))) =
      some (' ' :: (tok ++ (str "(r\"" ++ (latex ++ str "\")")))) := lit_eq_some.mpr rfl
  have h4 : wsDrop (' ' :: (tok ++ (str "(r\"" ++ (latex ++ str "\")")))) =
      tok ++ (str "(r\"" ++ (latex ++ str "\")")) := by
    rw [wsDrop_space (by decide)]
    rcases htok with h | h <;> subst h <;>
      exact wsDrop_eq_of_head (by
        intro c hc
        rw [head?_append_ne (by decide)] at hc
        cases hc
        decide)
  have h5 : ((lit (str "Tex") (tok ++ (str "(r\"" ++ (latex ++ str "\")")))) <|>
      (lit (str "MathTex") (tok ++ (str "(r\"" ++ (latex ++ str "\")"))))) =
      some (str "(r\"" ++ (latex ++ str "\")")) := by
    rcases htok with h | h <;> subst h
    · rw [lit_eq_some.mpr rfl]
      rfl
    · have hfail : lit (str "Tex") (str "MathTex" ++ (str "(r\"" ++ (latex ++ str "\")"))) =
          none := rfl
      rw [hfail, lit_eq_some.mpr rfl]
      rfl
  have w5 : wsDrop (str "(r\"" ++ (latex ++ str "\")")) =
      str "(r\"" ++ (latex ++ str "\")") :=
    wsDrop_eq_of_head (by intro c hc; rw [head?_append_ne (by decide)] at hc; cases hc; decide)
  have h6 : lit ['('] (str "(r\"" ++ (latex ++ str "\")")) =
      some (str "r\"" ++ (latex ++ str "\")")) := lit_eq_some.mpr rfl
  have w6 : wsDrop (str "r\"" ++ (latex ++ str "\")")) = str "r\"" ++ (latex ++ str "\")") :=
    wsDrop_eq_of_head (by intro c hc; rw [head?_append_ne (by decide)] at hc; cases hc; decide)
  have h7 : lit ['r', '"'] (str "r\"" ++ (latex ++ str "\")")) =
      some (latex ++ str "\")") := lit_eq_some.mpr rfl
  have htw := @takeWhile_run (fun c => decide (c ≠ '"')) latex (str "\")")
    (by
      intro c hc
      simp only [decide_eq_true_eq]
      exact (hl c hc).1)
    (by intro c hc; cases hc; decide)
  have h10 : lit ['"'] (str "\")") = some (str ")") := lit_eq_some.mpr rfl
  have h11 : wsDrop (str ")") = str ")" := by decide
  have h12 : lit [')'] (str ")") = some [] := by decide
  simp only [mObj, h1, Option.bind_eq_bind, Option.some_bind, h2, h3, h4, h5, w5, h6,
    w6, h7, htw.1, htw.2, h10, h11, h12]

theorem mPlayRunTime_none_close : mPlayRunTime (str ")") = none := by decide

theorem mPlayRateFunc_none_close : mPlayRateFunc (str ")") = none := by decide

theorem mPlayRunTime_none_rate {R : Str} :
    mPlayRunTime (str ", rate_func=" ++ R) = none := by
  have w1 : wsDrop (str ", rate_func=" ++ R) = str ", rate_func=" ++ R :=
    wsDrop_eq_of_head (by intro c hc; rw [head?_append_ne (by decide)] at hc; cases hc; decide)
  have h1 : lit [','] (str ", rate_func=" ++ R) = some (str " rate_func=" ++ R) :=
    lit_eq_some.mpr rfl
  have w2 : wsDrop (str " rate_func=" ++ R) = str "rate_func=" ++ R := by
    rw [show str " rate_func=" ++ R = ' ' :: (str "rate_func=" ++ R) from rfl,
      wsDrop_space (by decide)]
    exact wsDrop_eq_of_head (by
      intro c hc
      rw [head?_append_ne (by decide)] at hc
      cases hc
      decide)
  have h2 : lit (str "run_time") (str "rate_func=" ++ R) = none := rfl
  simp only [mPlayRunTime, Option.bind_eq_bind, w1, h1, Option.some_bind, w2, h2,
    Option.none_bind]

theorem mPlayRunTime_pos {d Y : Str} (hd : ddRun d)
    (hY : ∀ c, Y.head? = some c → isDigitDotC c = false) :
    mPlayRunTime (str ", run_time=" ++ (d ++ Y)) = some (d, Y) := by
  have w1 : wsDrop (str ", run_time=" ++ (d ++ Y)) = str ", run_time=" ++ (d ++ Y) :=
    wsDrop_eq_of_head (by intro c hc; rw [head?_append_ne (by decide)] at hc; cases hc; decide)
  have h1 : lit [','] (str ", run_time=" ++ (d ++ Y)) = some (str " run_time=" ++ (d ++ Y)) :=
    lit_eq_some.mpr rfl
  have w2 : wsDrop (str " run_time=" ++ (d ++ Y)) = str "run_time=" ++ (d ++ Y) := by
    rw [show str " run_time=" ++ (d ++ Y) = ' ' :: (str "run_time=" ++ (d ++ Y)) from rfl,
      wsDrop_space (by decide)]
    exact wsDrop_eq_of_head (by
      intro c hc
      rw [head?_append_ne (by decide)] at hc
      cases hc
      decide)
  have h2 : lit (str "run_time") (str "run_time=" ++ (d ++ Y)) =
      some ('=' :: (d ++ Y)) := lit_eq_some.mpr rfl
  have w3 : wsDrop ('=' :: (d ++ Y)) = '=' :: (d ++ Y) := wsDrop_cons (by decide) _
  have h3 : lit ['='] ('=' :: (d ++ Y)) = some (d ++ Y) := lit_eq_some.mpr rfl
  have w4 : wsDrop (d ++ Y) = d ++ Y := wsDrop_eq_of_head (ddRun_head_not_space hd _)
  have h4 : cls1 isDigitDotC (d ++ Y) = some (d, Y) := cls1_intro hd.1 hd.2 hY
  simp only [mPlayRunTime, Option.bind_eq_bind, w1, h1, Option.some_bind, w2, h2, w3,
    h3, w4, h4]

theorem mPlayRateFunc_pos {e R : Str} (he : wordRun e)
    (hR : ∀ c, R.head? = some c → isWordC c = false) :
    mPlayRateFunc (str ", rate_func=" ++ (e ++ R)) = some e := by
  have w1 : wsDrop (str ", rate_func=" ++ (e ++ R)) = str ", rate_func=" ++ (e ++ R) :=
    wsDrop_eq_of_head (by intro c hc; rw [head?_append_ne (by decide)] at hc; cases hc; decide)
  have h1 : lit [','] (str ", rate_func=" ++ (e ++ R)) =
      some (str " rate_func=" ++ (e ++ R)) := lit_eq_some.mpr rfl
  have w2 : wsDrop (str " rate_func=" ++ (e ++ R)) = str "rate_func=" ++ (e ++ R) := by
    rw [show str " rate_func=" ++ (e ++ R) = ' ' :: (str "rate_func=" ++ (e ++ R)) from rfl,
      wsDrop_space (by decide)]
    exact wsDrop_eq_of_head (by
      intro c hc
      rw [head?_append_ne (by decide)] at hc
      cases hc
      decide)
  have h2 : lit (str "rate_func") (str "rate_func=" ++ (e ++ R)) =
      some ('=' :: (e ++ R)) := lit_eq_some.mpr rfl
  have w3 : wsDrop ('=' :: (e ++ R)) = '=' :: (e ++ R) := wsDrop_cons (by decide) _
  have h3 : lit ['='] ('=' :: (e ++ R)) = some (e ++ R) := lit_eq_some.mpr rfl
  have w4 : wsDrop (e ++ R) = e ++ R := wsDrop_eq_of_head (wordRun_head_not_space he _)
  have h4 : cls1 isWordC (e ++ R) = some (e, R) := cls1_intro he.1 he.2 hR
  simp only [mPlayRateFunc, Option.bind_eq_bind, w1, h1, Option.some_bind, w2, h2, w3,
    h3, w4, h4]

/-- `mPlay` on the emitted play line, with the optional-parameter results
abstracted. -/
theorem mPlay_pos {ty tgt rest : Str} {rt : Option Str} {rest2 : Str} {rf : Option Str}
    (hty : wordRun ty) (htgt : wordRun tgt)
    (h1 : (match mPlayRunTime rest with
           | some (num, r) => ((some num : Option Str), r)
           | none => (none, rest)) = (rt, rest2))
    (h2 : (match mPlayRateFunc rest2 with
           | some nm => (some nm : Option Str)
           | none => none) = rf) :
    mPlay (str "self.play(" ++ (ty ++ ('(' :: (tgt ++ (')' :: rest))))) =
      some (ty, tgt, rt, rf) := by
  have ha : lit (str "self.play") (str "self.play(" ++ (ty ++ ('(' :: (tgt ++ (')' :: rest))))) =
      some ('(' :: (ty ++ ('(' :: (tgt ++ (')' :: rest))))) := lit_eq_some.mpr rfl
  have wa : wsDrop ('(' :: (ty ++ ('(' :: (tgt ++ (')' :: rest))))) =
      '(' :: (ty ++ ('(' :: (tgt ++ (')' :: rest)))) := wsDrop_cons (by decide) _
  have hb : lit ['('] ('(' :: (ty ++ ('(' :: (tgt ++ (')' :: rest))))) =
      some (ty ++ ('(' :: (tgt ++ (')' :: rest)))) := lit_eq_some.mpr rfl
  have wb : wsDrop (ty ++ ('(' :: (tgt ++ (')' :: rest)))) =
      ty ++ ('(' :: (tgt ++ (')' :: rest))) :=
    wsDrop_eq_of_head (wordRun_head_not_space hty _)
  have hc : cls1 isWordC (ty ++ ('(' :: (tgt ++ (')' :: rest)))) =
      some (ty, '(' :: (tgt ++ (')' :: rest))) :=
    cls1_intro hty.1 hty.2 (by intro c hcc; cases hcc; decide)
  have wc : wsDrop ('(' :: (tgt ++ (')' :: rest))) = '(' :: (tgt ++ (')' :: rest)) :=
    wsDrop_cons (by decide) _
  have hd : lit ['('] ('(' :: (tgt ++ (')' :: rest))) = some (tgt ++ (')' :: rest)) :=
    lit_eq_some.mpr rfl
  have wd : wsDrop (tgt ++ (')' :: rest)) = tgt ++ (')' :: rest) :=
    wsDrop_eq_of_head (wordRun_head_not_space htgt _)
  have he2 : cls1 isWordC (tgt ++ (')' :: rest)) = some (tgt, ')' :: rest) :=
    cls1_intro htgt.1 htgt.2 (by intro c hcc; cases hcc; decide)
  have we : wsDrop (')' :: rest) = ')' :: rest := wsDrop_cons (by decide) _
  have hf : lit [')'] (')' :: rest) = some rest := lit_eq_some.mpr rfl
  simp only [mPlay, Option.bind_eq_bind, ha, Option.some_bind, wa, hb, wb, hc, wc, hd,
    wd, he2, we, hf, h1, h2]

/-- `mClass` on a generated class line. -/
theorem mClass_pos {SN rest : Str} (h : wordRun SN) :
    mClass (str "class " ++ (SN ++ (str "(Scene):" ++ rest))) = some (SN, rest) := by
  obtain ⟨hne, hall⟩ := h
  have h1 : lit (str "class") (str "class " ++ (SN ++ (str "(Scene):" ++ rest))) =
      some (' ' :: (SN ++ (str "(Scene):" ++ rest))) := lit_eq_some.mpr rfl
  have h2 : ws1 (' ' :: (SN ++ (str "(Scene):" ++ rest))) =
      some (SN ++ (str "(Scene):" ++ rest)) := by
    show (if isSpaceC ' ' then some (wsDrop (SN ++ (str "(Scene):" ++ rest))) else none) = _
    rw [if_pos (by decide)]
    rw [wsDrop_eq_of_head (wordRun_head_not_space ⟨hne, hall⟩ _)]
  have h3 : cls1 isWordC (SN ++ (str "(Scene):" ++ rest)) =
      some (SN, str "(Scene):" ++ rest) :=
    cls1_intro hne hall (by
      intro c hc
      rw [head?_append_ne (by decide)] at hc
      cases hc
      decide)
  have w3 : wsDrop (str "(Scene):" ++ rest) = str "(Scene):" ++ rest :=
    wsDrop_eq_of_head (by intro c hc; rw [head?_append_ne (by decide)] at hc; cases hc; decide)
  have h4 : lit ['('] (str "(Scene):" ++ rest) = some (str "Scene):" ++ rest) :=
    lit_eq_some.mpr rfl
  have w4 : wsDrop (str "Scene):" ++ rest) = str "Scene):" ++ rest :=
    wsDrop_eq_of_head (by intro c hc; rw [head?_append_ne (by decide)] at hc; cases hc; decide)
  have h5 : lit (str "Scene") (str "Scene):" ++ rest) = some (str "):" ++ rest) :=
    lit_eq_some.mpr rfl
  have w5 : wsDrop (str "):" ++ rest) = str "):" ++ rest :=
    wsDrop_eq_of_head (by intro c hc; rw [head?_append_ne (by decide)] at hc; cases hc; decide)
  have h6 : lit [')'] (str "):" ++ rest) = some (str ":" ++ rest) := lit_eq_some.mpr rfl
  have w6 : wsDrop (str ":" ++ rest) = str ":" ++ rest :=
    wsDrop_eq_of_head (by intro c hc; rw [head?_append_ne (by decide)] at hc; cases hc; decide)
  have h7 : lit [':'] (str ":" ++ rest) = some rest := lit_eq_some.mpr rfl
  simp only [mClass, Option.bind_eq_bind, h1, Option.some_bind, h2, h3, w3, h4, w4, h5,
    w5, h6, w6, h7]

/-! ## processLine on generated line shapes -/

theorem noPair_dec {s : Str} {a b : Char} (h : pairScan a b s = false) : ¬ hasPair s a b := by
  intro hp
  rw [hasPair_iff_pairScan, h] at hp
  cases hp

theorem processLine_empty (st : BlockSt) : processLine st [] = .ok st := rfl

theorem processLine_construct (st : BlockSt) :
    processLine st (str "    def construct(self):") = .ok st := by
  have e1 : searchM mBgCE (pyStrip (str "    def construct(self):")) = none := by decide
  have e2 : searchM mBgGL (pyStrip (str "    def construct(self):")) = none := by decide
  have e3 : searchM mObj (pyStrip (str "    def construct(self):")) = none := by decide
  have e4 : searchM mColor (pyStrip (str "    def construct(self):")) = none := by decide
  have e5 : searchM mScale (pyStrip (str "    def construct(self):")) = none := by decide
  have e6 : searchM mMove (pyStrip (str "    def construct(self):")) = none := by decide
  have e7 : searchM mAdd (pyStrip (str "    def construct(self):")) = none := by decide
  have e8 : searchM mWait (pyStrip (str "    def construct(self):")) = none := by decide
  have e9 : searchM mPlay (pyStrip (str "    def construct(self):")) = none := by decide
  unfold processLine
  rw [if_neg (by decide), if_neg (by decide)]
  rw [e1, e2, e3, e4, e5, e6, e7, e8, e9]

theorem processLine_pass (st : BlockSt) :
    processLine st (str "        pass") = .ok st := by
  have e1 : searchM mBgCE (pyStrip (str "        pass")) = none := by decide
  have e2 : searchM mBgGL (pyStrip (str "        pass")) = none := by decide
  have e3 : searchM mObj (pyStrip (str "        pass")) = none := by decide
  have e4 : searchM mColor (pyStrip (str "        pass")) = none := by decide
  have e5 : searchM mScale (pyStrip (str "        pass")) = none := by decide
  have e6 : searchM mMove (pyStrip (str "        pass")) = none := by decide
  have e7 : searchM mAdd (pyStrip (str "        pass")) = none := by decide
  have e8 : searchM mWait (pyStrip (str "        pass")) = none := by decide
  have e9 : searchM mPlay (pyStrip (str "        pass")) = none := by decide
  unfold processLine
  rw [if_neg (by decide), if_neg (by decide)]
  rw [e1, e2, e3, e4, e5, e6, e7, e8, e9]

theorem headConc {seg : Str} {d : Char} (hseg : seg.head? = some d)
    (hd : isSpaceC d = false) : ∀ c, seg.head? = some c → isSpaceC c = false := by
  intro c hc
  rw [hseg] at hc
  injection hc with h
  rw [← h]
  exact hd

theorem lastConc {seg : Str} {d : Char} (hseg : seg.getLast? = some d)
    (hd : isSpaceC d = false) : ∀ c, seg.getLast? = some c → isSpaceC c = false := by
  intro c hc
  rw [hseg] at hc
  injection hc with h
  rw [← h]
  exact hd

theorem append_ne_nil_left {A B : Str} (h : A ≠ []) : A ++ B ≠ [] := by
  intro hx
  exact absurd (List.append_eq_nil.mp hx).1 h

theorem head_ne_hash {A B : Str} (h : A.head? ≠ some '#') (hA : A ≠ []) :
    (A ++ B).head? ≠ some '#' := by
  rw [head?_append_ne hA]
  exact h

theorem processLine_bgGL (st : BlockSt) {h6v : Str} (hlen : h6v.length = 6)
    (hall6 : ∀ c ∈ h6v, isHexC c = true) :
    processLine st (str "        self.camera.background_rgba = color_to_rgba(\"#" ++
      (h6v ++ str "\")")) = .ok { st with bg := '#' :: h6v } := by
  have hstrip : pyStrip (str "        self.camera.background_rgba = color_to_rgba(\"#" ++
      (h6v ++ str "\")")) =
      str "self.camera.background_rgba = color_to_rgba(\"#" ++ (h6v ++ str "\")") := by
    rw [show str "        self.camera.background_rgba = color_to_rgba(\"#" ++
        (h6v ++ str "\")") = str "        " ++
        (str "self.camera.background_rgba = color_to_rgba(\"#" ++ (h6v ++ str "\")"))
      from rfl]
    refine pyStrip_run (by decide) (headConc (by rw [head?_append_ne (by decide)]; rfl)
      (by decide)) ?_
    intro c hc
    rw [getLast?_append_ne (append_ne_nil_left ?stop), getLast?_append_ne (by decide)] at hc
    case stop => exact fun hx => by rw [hx] at hlen; cases hlen
    exact lastConc (d := ')') (by decide) (by decide) c hc
  have hce : searchM mBgCE (str "self.camera.background_rgba = color_to_rgba(\"#" ++
      (h6v ++ str "\")")) = none := by
    apply snBgCE_us
    refine noPair_append (noPair_dec (by decide))
      (noPair_append (noPair_of_not_mem (all_not_mem hall6 (by decide)))
        (noPair_dec (by decide))
        (joint_ne_fst (run_getLast_ne hall6 (by decide))))
      (joint_ne_fst (by decide))
  have hpos : searchM mBgGL (str "self.camera.background_rgba = color_to_rgba(\"#" ++
      (h6v ++ str "\")")) = some ('#' :: h6v) :=
    searchM_head (mBgGL_pos hlen hall6)
  unfold processLine
  rw [hstrip, if_neg (append_ne_nil_left (by decide)),
    if_neg (head_ne_hash (by decide) (by decide))]
  rw [hce, hpos]

theorem processLine_bgCE (st : BlockSt) {h6v : Str} (hlen : h6v.length = 6)
    (hall6 : ∀ c ∈ h6v, isHexC c = true) :
    processLine st (str "        self.camera.background_color = \"#" ++
      (h6v ++ str "\"")) = .ok { st with bg := '#' :: h6v } := by
  have hstrip : pyStrip (str "        self.camera.background_color = \"#" ++
      (h6v ++ str "\"")) =
      str "self.camera.background_color = \"#" ++ (h6v ++ str "\"") := by
    rw [show str "        self.camera.background_color = \"#" ++ (h6v ++ str "\"") =
        str "        " ++
        (str "self.camera.background_color = \"#" ++ (h6v ++ str "\"")) from rfl]
    refine pyStrip_run (by decide) (headConc (by rw [head?_append_ne (by decide)]; rfl)
      (by decide)) ?_
    intro c hc
    rw [getLast?_append_ne (append_ne_nil_left ?stop), getLast?_append_ne (by decide)] at hc
    case stop => exact fun hx => by rw [hx] at hlen; cases hlen
    exact lastConc (d := '"') (by decide) (by decide) c hc
  have hpos : searchM mBgCE (str "self.camera.background_color = \"#" ++
      (h6v ++ str "\"")) = some ('#' :: h6v) :=
    searchM_head (mBgCE_pos hlen hall6)
  unfold processLine
  rw [hstrip, if_neg (append_ne_nil_left (by decide)),
    if_neg (head_ne_hash (by decide) (by decide))]
  rw [hpos]

theorem notMem_append {c : Char} {A B : Str} (hA : c ∉ A) (hB : c ∉ B) : c ∉ A ++ B := by
  intro h
  rcases List.mem_append.mp h with h | h
  · exact hA h
  · exact hB h

theorem append_ne_nil_right {A B : Str} (h : B ≠ []) : A ++ B ≠ [] := by
  intro hx
  exact absurd (List.append_eq_nil.mp hx).2 h

theorem latex_no_dot {latex : Str} (hl : latexOk latex) : '.' ∉ latex :=
  fun hm => (hl '.' hm).2.1 rfl

theorem latex_no_quote {latex : Str} (hl : latexOk latex) : '"' ∉ latex :=
  fun hm => (hl '"' hm).1 rfl

theorem wordRun_no {nm : Str} (h : wordRun nm) {c : Char} (hc : isWordC c = false) :
    c ∉ nm := all_not_mem h.2 hc

/-- The object-declaration line.  The two background searches cannot
fire (no `.c` pair anywhere on the line), and `mObj` matches at
position 0. -/
theorem processLine_obj (st : BlockSt) {nm latex tok : Str} (hn : wordRun nm)
    (hl : latexOk latex) (htok : tok = str "Tex" ∨ tok = str "MathTex") :
    processLine st (str "        " ++ (nm ++ (str " = " ++ (tok ++
        (str "(r\"" ++ (latex ++ str "\")")))))) =
      .ok { st with objs := insertA nm ⟨nm, latex, str "#FFFFFF", 48, 0, 0⟩ st.objs } := by
  have htokne : tok ≠ [] := by rcases htok with h | h <;> subst h <;> decide
  have hstrip : pyStrip (str "        " ++ (nm ++ (str " = " ++ (tok ++
      (str "(r\"" ++ (latex ++ str "\")")))))) =
      nm ++ (str " = " ++ (tok ++ (str "(r\"" ++ (latex ++ str "\")")))) := by
    refine pyStrip_run (by decide) (wordRun_head_not_space hn _) ?_
    intro c hc
    rw [getLast?_append_ne (append_ne_nil_left (by decide)),
      getLast?_append_ne (append_ne_nil_left htokne),
      getLast?_append_ne (append_ne_nil_left (by decide)),
      getLast?_append_ne (append_ne_nil_right (by decide)),
      getLast?_append_ne (by decide)] at hc
    exact lastConc (d := ')') (by decide) (by decide) c hc
  have hnp : ¬ hasPair (nm ++ (str " = " ++ (tok ++ (str "(r\"" ++ (latex ++ str "\")")))))
      '.' 'c' := by
    refine noPair_append (noPair_run hn.2 (by decide))
      (noPair_append (noPair_dec (by decide))
        (noPair_append ?_
          (noPair_append (noPair_dec (by decide))
            (noPair_append (noPair_of_not_mem (latex_no_dot hl)) (noPair_dec (by decide))
              (joint_ne_snd (by decide)))
            (joint_ne_fst (by decide)))
          ?_)
        (joint_ne_fst (by decide)))
      (joint_ne_fst (run_getLast_ne hn.2 (by decide)))
    · rcases htok with h | h <;> subst h <;> exact noPair_dec (by decide)
    · rcases htok with h | h <;> subst h <;> exact joint_ne_fst (by decide)
  have hce : searchM mBgCE (nm ++ (str " = " ++ (tok ++ (str "(r\"" ++
      (latex ++ str "\")"))))) = none := snBgCE_dot hnp
  have hgl : searchM mBgGL (nm ++ (str " = " ++ (tok ++ (str "(r\"" ++
      (latex ++ str "\")"))))) = none := snBgGL_dot hnp
  have hpos : searchM mObj (nm ++ (str " = " ++ (tok ++ (str "(r\"" ++
      (latex ++ str "\")"))))) = some (nm, latex) := searchM_head (mObj_pos hn hl htok)
  unfold processLine
  rw [hstrip, if_neg (append_ne_nil_left hn.1),
    if_neg (head_ne_hash (run_head_ne hn.2 (by decide)) hn.1)]
  rw [hce, hgl, hpos]

/-- The color line. -/
theorem processLine_color (st : BlockSt) {nm h6v : Str} (hn : wordRun nm)
    (hlen : h6v.length = 6) (hall6 : ∀ c ∈ h6v, isHexC c = true) :
    processLine st (str "        " ++ (nm ++ (str ".set_color(\"#" ++
        (h6v ++ str "\")")))) =
      .ok { st with objs := (if (lookupA nm st.objs).isSome then
        updateA nm (fun o => { o with color := '#' :: h6v }) st.objs else st.objs) } := by
  have h6ne : h6v ≠ [] := by intro hx; rw [hx] at hlen; cases hlen
  have hstrip : pyStrip (str "        " ++ (nm ++ (str ".set_color(\"#" ++
      (h6v ++ str "\")")))) = nm ++ (str ".set_color(\"#" ++ (h6v ++ str "\")")) := by
    refine pyStrip_run (by decide) (wordRun_head_not_space hn _) ?_
    intro c hc
    rw [getLast?_append_ne (append_ne_nil_left (by decide)),
      getLast?_append_ne (append_ne_nil_left h6ne), getLast?_append_ne (by decide)] at hc
    exact lastConc (d := ')') (by decide) (by decide) c hc
  have hnp : ¬ hasPair (nm ++ (str ".set_color(\"#" ++ (h6v ++ str "\")"))) '.' 'c' := by
    refine noPair_append (noPair_run hn.2 (by decide))
      (noPair_append (noPair_dec (by decide))
        (noPair_append (noPair_of_not_mem (all_not_mem hall6 (by decide)))
          (noPair_dec (by decide))
          (joint_ne_fst (run_getLast_ne hall6 (by decide))))
        (joint_ne_fst (by decide)))
      (joint_ne_fst (run_getLast_ne hn.2 (by decide)))
  have hce : searchM mBgCE (nm ++ (str ".set_color(\"#" ++ (h6v ++ str "\")"))) = none :=
    snBgCE_dot hnp
  have hgl : searchM mBgGL (nm ++ (str ".set_color(\"#" ++ (h6v ++ str "\")"))) = none :=
    snBgGL_dot hnp
  have hobj : searchM mObj (nm ++ (str ".set_color(\"#" ++ (h6v ++ str "\")"))) = none := by
    apply snObj_eq
    refine notMem_append (wordRun_no hn (by decide))
      (notMem_append (by decide) (notMem_append (all_not_mem hall6 (by decide)) (by decide)))
  have hpos : searchM mColor (nm ++ (str ".set_color(\"#" ++ (h6v ++ str "\")"))) =
      some (nm, '#' :: h6v) := searchM_head (mColor_pos hn hlen hall6)
  unfold processLine
  rw [hstrip, if_neg (append_ne_nil_left hn.1),
    if_neg (head_ne_hash (run_head_ne hn.2 (by decide)) hn.1)]
  rw [hce, hgl, hobj, hpos]

theorem ddRun_no {d : Str} (h : ddRun d) {c : Char} (hc : isDigitDotC c = false) :
    c ∉ d := all_not_mem h.2 hc

theorem nmRun_no {d : Str} (h : nmRun d) {c : Char} (hc : isNumMoveC c = false) :
    c ∉ d := all_not_mem h.2 hc

/-- The scale line. -/
theorem processLine_scale (st : BlockSt) {nm num : Str} {scl : ℚ} (hn : wordRun nm)
    (hd : ddRun num) (hpf : pyFloat num = some scl) :
    processLine st (str "        " ++ (nm ++ (str ".scale(" ++ (num ++ str ")")))) =
      .ok { st with objs := (if (lookupA nm st.objs).isSome then
        updateA nm (fun o => { o with font_size := max 8 (rhe (scl * 48)) }) st.objs
        else st.objs) } := by
  have hstrip : pyStrip (str "        " ++ (nm ++ (str ".scale(" ++ (num ++ str ")")))) =
      nm ++ (str ".scale(" ++ (num ++ str ")")) := by
    refine pyStrip_run (by decide) (wordRun_head_not_space hn _) ?_
    intro c hc
    rw [getLast?_append_ne (append_ne_nil_left (by decide)),
      getLast?_append_ne (append_ne_nil_left hd.1), getLast?_append_ne (by decide)] at hc
    exact lastConc (d := ')') (by decide) (by decide) c hc
  have hnp : ¬ hasPair (nm ++ (str ".scale(" ++ (num ++ str ")"))) '.' 'c' := by
    refine noPair_append (noPair_run hn.2 (by decide))
      (noPair_append (noPair_dec (by decide))
        (noPair_append (noPair_of_not_mem_snd (ddRun_no hd (by decide)))
          (noPair_dec (by decide)) (joint_ne_snd (by decide)))
        (joint_ne_fst (by decide)))
      (joint_ne_fst (run_getLast_ne hn.2 (by decide)))
  have hnq : '"' ∉ nm ++ (str ".scale(" ++ (num ++ str ")")) :=
    notMem_append (wordRun_no hn (by decide))
      (notMem_append (by decide) (notMem_append (ddRun_no hd (by decide)) (by decide)))
  have hce : searchM mBgCE (nm ++ (str ".scale(" ++ (num ++ str ")"))) = none :=
    snBgCE_dot hnp
  have hgl : searchM mBgGL (nm ++ (str ".scale(" ++ (num ++ str ")"))) = none :=
    snBgGL_dot hnp
  have hobj : searchM mObj (nm ++ (str ".scale(" ++ (num ++ str ")"))) = none :=
    snObj_quote hnq
  have hcol : searchM mColor (nm ++ (str ".scale(" ++ (num ++ str ")"))) = none :=
    snColor_quote hnq
  have hpos : searchM mScale (nm ++ (str ".scale(" ++ (num ++ str ")"))) =
      some (nm, num) := searchM_head (mScale_pos hn hd)
  unfold processLine
  rw [hstrip, if_neg (append_ne_nil_left hn.1),
    if_neg (head_ne_hash (run_head_ne hn.2 (by decide)) hn.1)]
  rw [hce, hgl, hobj, hcol, hpos]
  simp only [hpf]

theorem noPair_moveSeg {b : Char} (hm : b ≠ 'm') (ha : b ≠ 'a') :
    ¬ hasPair (str ".move_to(np.array([") '.' b := by
  intro hp
  rw [hasPair_iff_pairScan] at hp
  simp +decide [pairScan, str] at hp
  rcases hp with h | h
  · exact hm h.symm
  · exact ha h.symm

/-- The move line. -/
theorem processLine_move (st : BlockSt) {nm X Y : Str} {xv yv : ℚ} (hn : wordRun nm)
    (hX : nmRun X) (hY : nmRun Y) (hpx : pyFloat X = some xv) (hpy : pyFloat Y = some yv) :
    processLine st (str "        " ++ (nm ++ (str ".move_to(np.array([" ++
        (X ++ (str ", " ++ (Y ++ str ", 0]))")))))) =
      .ok { st with objs := (if (lookupA nm st.objs).isSome then
        updateA nm (fun o => { o with pos_x := xv, pos_y := yv }) st.objs
        else st.objs) } := by
  have hstrip : pyStrip (str "        " ++ (nm ++ (str ".move_to(np.array([" ++
      (X ++ (str ", " ++ (Y ++ str ", 0]))")))))) =
      nm ++ (str ".move_to(np.array([" ++ (X ++ (str ", " ++ (Y ++ str ", 0]))")))) := by
    refine pyStrip_run (by decide) (wordRun_head_not_space hn _) ?_
    intro c hc
    rw [getLast?_append_ne (append_ne_nil_left (by decide)),
      getLast?_append_ne (append_ne_nil_left hX.1),
      getLast?_append_ne (append_ne_nil_left (by decide)),
      getLast?_append_ne (append_ne_nil_left hY.1),
      getLast?_append_ne (by decide)] at hc
    exact lastConc (d := ')') (by decide) (by decide) c hc
  have hpair : ∀ b : Char, isNumMoveC b = false → b ≠ 'm' → b ≠ 'a' → b ≠ ',' →
      ¬ hasPair (nm ++ (str ".move_to(np.array([" ++
        (X ++ (str ", " ++ (Y ++ str ", 0]))"))))) '.' b := by
    intro b hb hbm hba hbc
    refine noPair_append (noPair_run hn.2 (by decide))
      (noPair_append (noPair_moveSeg hbm hba)
        (noPair_append (noPair_of_not_mem_snd (nmRun_no hX hb))
          (noPair_append (noPair_of_not_mem (by decide))
            (noPair_append (noPair_of_not_mem_snd (nmRun_no hY hb))
              (noPair_of_not_mem (by decide))
              (joint_ne_snd (fun hx => by
                rw [show List.head? (str ", 0]))") = some ',' from rfl] at hx
                injection hx with hx2
                exact hbc hx2.symm)))
            (joint_ne_fst (by decide)))
          (joint_ne_snd (fun hx => by
            rw [head?_append_ne (by decide)] at hx
            injection hx with hx2
            exact hbc hx2.symm)))
        (joint_ne_fst (by decide)))
      (joint_ne_fst (run_getLast_ne hn.2 (by decide)))
  have hnq : '"' ∉ nm ++ (str ".move_to(np.array([" ++
      (X ++ (str ", " ++ (Y ++ str ", 0]))")))) :=
    notMem_append (wordRun_no hn (by decide))
      (notMem_append (by decide) (notMem_append (nmRun_no hX (by decide))
        (notMem_append (by decide) (notMem_append (nmRun_no hY (by decide)) (by decide)))))
  have hce := snBgCE_dot (hpair 'c' (by decide) (by decide) (by decide) (by decide))
  have hgl := snBgGL_dot (hpair 'c' (by decide) (by decide) (by decide) (by decide))
  have hobj := snObj_quote hnq
  have hcol := snColor_quote hnq
  have hsca := snScale (hpair 's' (by decide) (by decide) (by decide) (by decide))
  have hpos : searchM mMove (nm ++ (str ".move_to(np.array([" ++
      (X ++ (str ", " ++ (Y ++ str ", 0]))"))))) = some (nm, X, Y) :=
    searchM_head (mMove_pos hn hX hY)
  unfold processLine
  rw [hstrip, if_neg (append_ne_nil_left hn.1),
    if_neg (head_ne_hash (run_head_ne hn.2 (by decide)) hn.1)]
  rw [hce, hgl, hobj, hcol, hsca, hpos]
  simp only [hpx, hpy]

theorem noPair_addSeg {b : Char} (ha : b ≠ 'a') : ¬ hasPair (str "self.add(") '.' b := by
  intro hp
  rw [hasPair_iff_pairScan] at hp
  simp +decide [pairScan, str] at hp
  exact ha hp.symm

theorem noPair_waitSeg {b : Char} (hw : b ≠ 'w') : ¬ hasPair (str "self.wait(") '.' b := by
  intro hp
  rw [hasPair_iff_pairScan] at hp
  simp +decide [pairScan, str] at hp
  exact hw hp.symm

theorem noPair_playSeg {b : Char} (hp2 : b ≠ 'p') : ¬ hasPair (str "self.play(") '.' b := by
  intro hp
  rw [hasPair_iff_pairScan] at hp
  simp +decide [pairScan, str] at hp
  exact hp2 hp.symm

/-- The add line. -/
theorem processLine_add (st : BlockSt) {tgt : Str} (ht : wordRun tgt) :
    processLine st (str "        self.add(" ++ (tgt ++ str ")")) =
      .ok { st with anims := st.anims ++ [⟨tgt, str "Add", 0, []⟩] } := by
  have hstrip : pyStrip (str "        self.add(" ++ (tgt ++ str ")")) =
      str "self.add(" ++ (tgt ++ str ")") := by
    rw [show str "        self.add(" ++ (tgt ++ str ")") =
      str "        " ++ (str "self.add(" ++ (tgt ++ str ")")) from rfl]
    refine pyStrip_run (by decide) (headConc (by rw [head?_append_ne (by decide)]; rfl)
      (by decide)) ?_
    intro c hc
    rw [getLast?_append_ne (append_ne_nil_right (by decide)),
      getLast?_append_ne (by decide)] at hc
    exact lastConc (d := ')') (by decide) (by decide) c hc
  have hpair : ∀ b : Char, isWordC b = true → b ≠ 'a' →
      ¬ hasPair (str "self.add(" ++ (tgt ++ str ")")) '.' b := by
    intro b hb hba
    refine noPair_append (noPair_addSeg hba)
      (noPair_append (noPair_run ht.2 (by decide)) (noPair_of_not_mem (by decide))
        (joint_ne_fst (run_getLast_ne ht.2 (by decide))))
      (joint_ne_fst (by decide))
  have hnq : '"' ∉ str "self.add(" ++ (tgt ++ str ")") :=
    notMem_append (by decide) (notMem_append (wordRun_no ht (by decide)) (by decide))
  have hce := snBgCE_dot (hpair 'c' (by decide) (by decide))
  have hgl := snBgGL_dot (hpair 'c' (by decide) (by decide))
  have hobj := snObj_quote hnq
  have hcol := snColor_quote hnq
  have hsca := snScale (hpair 's' (by decide) (by decide))
  have hmov := snMove (hpair 'm' (by decide) (by decide))
  have hpos : searchM mAdd (str "self.add(" ++ (tgt ++ str ")")) = some tgt :=
    searchM_head (mAdd_pos ht)
  unfold processLine
  rw [hstrip, if_neg (append_ne_nil_left (by decide)),
    if_neg (head_ne_hash (by decide) (by decide))]
  rw [hce, hgl, hobj, hcol, hsca, hmov, hpos]

/-- The wait line with an explicit duration. -/
theorem processLine_waitDur (st : BlockSt) {d : Str} {dv : ℚ} (hd : ddRun d)
    (hpf : pyFloat d = some dv) :
    processLine st (str "        self.wait(" ++ (d ++ str ")")) =
      .ok { st with anims := st.anims ++ [⟨[], str "Wait", dv, []⟩] } := by
  have hstrip : pyStrip (str "        self.wait(" ++ (d ++ str ")")) =
      str "self.wait(" ++ (d ++ str ")") := by
    rw [show str "        self.wait(" ++ (d ++ str ")") =
      str "        " ++ (str "self.wait(" ++ (d ++ str ")")) from rfl]
    refine pyStrip_run (by decide) (headConc (by rw [head?_append_ne (by decide)]; rfl)
      (by decide)) ?_
    intro c hc
    rw [getLast?_append_ne (append_ne_nil_right (by decide)),
      getLast?_append_ne (by decide)] at hc
    exact lastConc (d := ')') (by decide) (by decide) c hc
  have hpair : ∀ b : Char, isDigitDotC b = false → b ≠ 'w' → b ≠ ')' →
      ¬ hasPair (str "self.wait(" ++ (d ++ str ")")) '.' b := by
    intro b hb hbw hbp
    refine noPair_append (noPair_waitSeg hbw)
      (noPair_append (noPair_of_not_mem_snd (ddRun_no hd hb))
        (noPair_of_not_mem (by decide))
        (joint_ne_snd (fun hx => by
          rw [show List.head? (str ")") = some ')' from rfl] at hx
          injection hx with hx2
          exact hbp hx2.symm)))
      (joint_ne_fst (by decide))
  have hnq : '"' ∉ str "self.wait(" ++ (d ++ str ")") :=
    notMem_append (by decide) (notMem_append (ddRun_no hd (by decide)) (by decide))
  have hce := snBgCE_dot (hpair 'c' (by decide) (by decide) (by decide))
  have hgl := snBgGL_dot (hpair 'c' (by decide) (by decide) (by decide))
  have hobj := snObj_quote hnq
  have hcol := snColor_quote hnq
  have hsca := snScale (hpair 's' (by decide) (by decide) (by decide))
  have hmov := snMove (hpair 'm' (by decide) (by decide) (by decide))
  have hadd := snAdd (hpair 'a' (by decide) (by decide) (by decide))
  have hpos : searchM mWait (str "self.wait(" ++ (d ++ str ")")) = some (some d) :=
    searchM_head (mWait_pos_dur hd)
  unfold processLine
  rw [hstrip, if_neg (append_ne_nil_left (by decide)),
    if_neg (head_ne_hash (by decide) (by decide))]
  rw [hce, hgl, hobj, hcol, hsca, hmov, hadd, hpos]
  simp only [hpf]

/-- The bare wait line. -/
theorem processLine_waitBare (st : BlockSt) :
    processLine st (str "        self.wait()") =
      .ok { st with anims := st.anims ++ [⟨[], str "Wait", 1, []⟩] } := by
  have e1 : searchM mBgCE (pyStrip (str "        self.wait()")) = none := by decide
  have e2 : searchM mBgGL (pyStrip (str "        self.wait()")) = none := by decide
  have e3 : searchM mObj (pyStrip (str "        self.wait()")) = none := by decide
  have e4 : searchM mColor (pyStrip (str "        self.wait()")) = none := by decide
  have e5 : searchM mScale (pyStrip (str "        self.wait()")) = none := by decide
  have e6 : searchM mMove (pyStrip (str "        self.wait()")) = none := by decide
  have e7 : searchM mAdd (pyStrip (str "        self.wait()")) = none := by decide
  have e8 : searchM mWait (pyStrip (str "        self.wait()")) = some none := by decide
  unfold processLine
  rw [if_neg (by decide), if_neg (by decide)]
  rw [e1, e2, e3, e4, e5, e6, e7, e8]

theorem notMem_cons {c d : Char} {B : Str} (hcd : c ≠ d) (hB : c ∉ B) : c ∉ d :: B := by
  intro hm
  rcases List.mem_cons.mp hm with h | h
  · exact hcd h
  · exact hB h

/-- The play line, parameterized over the optional-argument tail `rest`. -/
theorem processLine_play (st : BlockSt) {ty tgt rest : Str} {rt : Option Str}
    {rest2 : Str} {rf : Option Str} {dv : ℚ}
    (hty : wordRun ty) (htgt : wordRun tgt)
    (hrq : '"' ∉ rest)
    (hrp : ∀ b : Char, isWordC b = true → b ≠ 'p' → ¬ hasPair rest '.' b)
    (hrl : rest.getLast? = some ')')
    (h1 : (match mPlayRunTime rest with
           | some (num, r) => ((some num : Option Str), r)
           | none => (none, rest)) = (rt, rest2))
    (h2 : (match mPlayRateFunc rest2 with
           | some nm => (some nm : Option Str)
           | none => none) = rf)
    (h3 : (match rt with
           | some num =>
             match pyFloat num with
             | some d => (Except.ok d : Except String ℚ)
             | none => Except.error "ValueError: could not convert string to float"
           | none => Except.ok 1) = Except.ok dv) :
    processLine st (str "        self.play(" ++
        (ty ++ (str "(" ++ (tgt ++ (str ")" ++ rest))))) =
      .ok { st with anims := st.anims ++
        [⟨tgt, dictGetD ceToGlAnim ty, dv,
          (match rf with | some e => e | none => str "smooth")⟩] } := by
  have hrne : rest ≠ [] := by
    intro h
    rw [h] at hrl
    exact absurd hrl (by decide)
  have hstrip : pyStrip (str "        self.play(" ++
      (ty ++ (str "(" ++ (tgt ++ (str ")" ++ rest))))) =
      str "self.play(" ++ (ty ++ (str "(" ++ (tgt ++ (str ")" ++ rest)))) := by
    rw [show str "        self.play(" ++ (ty ++ (str "(" ++ (tgt ++ (str ")" ++ rest)))) =
      str "        " ++ (str "self.play(" ++ (ty ++ (str "(" ++ (tgt ++ (str ")" ++ rest)))))
      from rfl]
    refine pyStrip_run (by decide) (headConc (by rw [head?_append_ne (by decide)]; rfl)
      (by decide)) ?_
    intro c hc
    rw [getLast?_append_ne (append_ne_nil_right (append_ne_nil_left (by decide))),
      getLast?_append_ne (append_ne_nil_left (by decide)),
      getLast?_append_ne (append_ne_nil_right (append_ne_nil_left (by decide))),
      getLast?_append_ne (append_ne_nil_left (by decide)),
      getLast?_append_ne hrne] at hc
    exact lastConc (d := ')') hrl (by decide) c hc
  have hpair : ∀ b : Char, isWordC b = true → b ≠ 'p' →
      ¬ hasPair (str "self.play(" ++ (ty ++ (str "(" ++ (tgt ++ (str ")" ++ rest)))))
        '.' b := by
    intro b hb hbp
    refine noPair_append (noPair_playSeg hbp)
      (noPair_append (noPair_run hty.2 (by decide))
        (noPair_append (noPair_of_not_mem (by decide))
          (noPair_append (noPair_run htgt.2 (by decide))
            (noPair_append (noPair_of_not_mem (by decide))
              (hrp b hb hbp)
              (joint_ne_fst (by decide)))
            (joint_ne_fst (run_getLast_ne htgt.2 (by decide))))
          (joint_ne_fst (by decide)))
        (joint_ne_fst (run_getLast_ne hty.2 (by decide))))
      (joint_ne_fst (by decide))
  have hnq : '"' ∉ str "self.play(" ++ (ty ++ (str "(" ++ (tgt ++ (str ")" ++ rest)))) :=
    notMem_append (by decide) (notMem_append (wordRun_no hty (by decide))
      (notMem_append (by decide) (notMem_append (wordRun_no htgt (by decide))
        (notMem_append (by decide) hrq))))
  have hce := snBgCE_dot (hpair 'c' (by decide) (by decide))
  have hgl := snBgGL_dot (hpair 'c' (by decide) (by decide))
  have hobj := snObj_quote hnq
  have hcol := snColor_quote hnq
  have hsca := snScale (hpair 's' (by decide) (by decide))
  have hmov := snMove (hpair 'm' (by decide) (by decide))
  have hadd := snAdd (hpair 'a' (by decide) (by decide))
  have hwai := snWait (hpair 'w' (by decide) (by decide))
  have hpos : searchM mPlay (str "self.play(" ++
      (ty ++ (str "(" ++ (tgt ++ (str ")" ++ rest))))) = some (ty, tgt, rt, rf) :=
    searchM_head (mPlay_pos hty htgt h1 h2)
  unfold processLine
  rw [hstrip, if_neg (append_ne_nil_left (by decide)),
    if_neg (head_ne_hash (by decide) (by decide))]
  rw [hce, hgl, hobj, hcol, hsca, hmov, hadd, hwai, hpos]
  simp only [h3]
  cases rf <;> rfl

/-! ## splitlines ∘ join -/

/-- A string with no line breaks (one generated line). -/
def noBreak (s : Str) : Prop := ∀ c ∈ s, c ≠ '\n' ∧ c ≠ '\x0d'

/-- The tail of `"\n".join(lines) + "\n"` after the first line. -/
def joinTail : List Str → Str
  | [] => ['\n']
  | x :: xs => '\n' :: (x ++ joinTail xs)

theorem joinTail_ne_nil (ls : List Str) : joinTail ls ≠ [] := by
  cases ls <;> simp [joinTail]

theorem joinTail_head (ls : List Str) : (joinTail ls).head? = some '\n' := by
  cases ls <;> rfl

theorem joinNL_foldl (ls : List Str) : ∀ A : Str,
    (ls.foldl (fun a x => a ++ '\n' :: x) A) ++ ['\n'] = A ++ joinTail ls := by
  induction ls with
  | nil => intro A; rfl
  | cons x xs ih =>
    intro A
    show (xs.foldl (fun a x => a ++ '\n' :: x) (A ++ '\n' :: x)) ++ ['\n'] = _
    rw [ih (A ++ '\n' :: x), List.append_assoc]
    rfl

theorem joinNL_cons (l : Str) (ls : List Str) : joinNL (l :: ls) = l ++ joinTail ls := by
  show (l ++ (ls.foldl (fun a x => a ++ '\n' :: x) [])) ++ ['\n'] = _
  rw [List.append_assoc, joinNL_foldl ls []]
  rfl

theorem splitB_nl (t : Str) : splitB ('\n' :: t) = [] :: splitB t := by
  rfl

theorem splitB_ne_nil : ∀ s : Str, splitB s ≠ [] := by
  intro s
  induction s using splitB.induct <;> simp only [splitB] <;> try simp
  all_goals (rename_i hsplit ih; simp [hsplit])

theorem splitB_other {c : Char} (h1 : c ≠ '\n') (h2 : c ≠ '\x0d') (t : Str) :
    splitB (c :: t) =
      match splitB t with
      | [] => [[c]]
      | h :: r => (c :: h) :: r := by
  rcases t with _ | ⟨d, t2⟩ <;> rw [splitB.eq_def] <;> split <;>
    first
      | rfl
      | simp_all

theorem splitB_append_nl {l : Str} (hl : noBreak l) (t : Str) :
    splitB (l ++ '\n' :: t) = l :: splitB t := by
  induction l with
  | nil => exact splitB_nl t
  | cons c cs ih =>
    have hc := hl c (List.mem_cons_self c cs)
    have hcs : noBreak cs := fun x hx => hl x (List.mem_cons_of_mem c hx)
    rw [List.cons_append, splitB_other hc.1 hc.2, ih hcs]

theorem splitB_joinTail : ∀ (ls : List Str), (∀ s ∈ ls, noBreak s) →
    ∀ (l : Str), noBreak l → splitB (l ++ joinTail ls) = (l :: ls) ++ [[]] := by
  intro ls
  induction ls with
  | nil =>
    intro _ l hl
    show splitB (l ++ '\n' :: []) = _
    rw [splitB_append_nl hl]
    rfl
  | cons x xs ih =>
    intro hmem l hl
    show splitB (l ++ '\n' :: (x ++ joinTail xs)) = _
    rw [splitB_append_nl hl,
      ih (fun s hs => hmem s (List.mem_cons_of_mem x hs)) x
        (hmem x (List.mem_cons_self x xs))]
    rfl

theorem getLast?_joinTail (ls : List Str) : (joinTail ls).getLast? = some '\n' := by
  induction ls with
  | nil => rfl
  | cons x xs ih =>
    show (['\n'] ++ (x ++ joinTail xs)).getLast? = _
    rw [getLast?_append_ne (append_ne_nil_right (joinTail_ne_nil xs)),
      getLast?_append_ne (joinTail_ne_nil xs), ih]

theorem pySplitlines_joinNL {L : List Str} (hne : L ≠ [])
    (h : ∀ s ∈ L, noBreak s) : pySplitlines (joinNL L) = L := by
  rcases L with _ | ⟨l, ls⟩
  · exact absurd rfl hne
  rw [joinNL_cons]
  have hsplit : splitB (l ++ joinTail ls) = (l :: ls) ++ [[]] :=
    splitB_joinTail ls (fun s hs => h s (List.mem_cons_of_mem l hs)) l
      (h l (List.mem_cons_self l ls))
  have hne2 : l ++ joinTail ls ≠ [] := append_ne_nil_right (joinTail_ne_nil ls)
  have hlast : (l ++ joinTail ls).getLast? = some '\n' := by
    rw [getLast?_append_ne (joinTail_ne_nil ls), getLast?_joinTail]
  unfold pySplitlines
  rw [if_neg hne2, if_pos (by unfold endsWithBreak; rw [hlast]; rfl), hsplit]
  rw [show (l :: ls) ++ [[]] = (l :: ls) ++ [([] : Str)] from rfl,
    List.dropLast_concat]

/-! ## `_RE_CLASS.finditer`: characterizing the scan -/

theorem mClass_nil : mClass [] = none := by rfl

theorem mClass_none_head {s : Str} (h : s.head? ≠ some 'c') : mClass s = none := by
  rcases s with _ | ⟨x, t⟩
  · rfl
  · have hx : x ≠ 'c' := fun he => h (by rw [he]; rfl)
    have hl : lit (str "class") (x :: t) = none := by
      rw [show str "class" = 'c' :: str "lass" from rfl]
      simp only [lit, if_neg hx]
    simp only [mClass, Option.bind_eq_bind, hl, Option.none_bind]

theorem mClass_none_second {d : Char} (hd : d ≠ 'l') (t : Str) :
    mClass ('c' :: d :: t) = none := by
  have hl : lit (str "class") ('c' :: d :: t) = none := by
    rw [show str "class" = 'c' :: ('l' :: str "ass") from rfl]
    simp [lit, hd]
  simp only [mClass, Option.bind_eq_bind, hl, Option.none_bind]

theorem space_ne_quote {c : Char} (h : isSpaceC c = true) : c ≠ '"' := by
  intro he
  subst he
  simp [isSpaceC] at h

theorem ws1_inv {s r : Str} (h : ws1 s = some r) :
    ∃ w t, s = w :: t ∧ isSpaceC w = true ∧ r = wsDrop t := by
  rcases s with _ | ⟨w, t⟩
  · cases h
  · simp only [ws1] at h
    by_cases hw : isSpaceC w
    · rw [if_pos hw] at h
      exact ⟨w, t, rfl, hw, (Option.some.injEq _ _ ▸ h).symm⟩
    · rw [if_neg hw] at h
      cases h

theorem wsDrop_decomp (s : Str) :
    s = s.takeWhile isSpaceC ++ wsDrop s :=
  (List.takeWhile_append_dropWhile isSpaceC s).symm

theorem takeWhile_space_mem {s : Str} {c : Char} (hc : c ∈ s.takeWhile isSpaceC) :
    isSpaceC c = true :=
  List.mem_takeWhile_imp hc

/-- Master inversion for `mClass`: a successful match consumed a prefix
`P` that contains a colon and no double quote. -/
theorem mClass_consumed {s nm rest : Str} (h : mClass s = some (nm, rest)) :
    ∃ P, s = P ++ rest ∧ ':' ∈ P ∧ '"' ∉ P := by
  simp only [mClass, Option.bind_eq_bind, Option.bind_eq_some] at h
  obtain ⟨r1, h1, r2, h2, p, h3, r5, h4, r7, h5, r9, h6, r11, h7, hfin⟩ := h
  obtain ⟨nm', r3⟩ := p
  dsimp only at h3 h4 hfin
  simp only [Option.some.injEq, Prod.mk.injEq] at hfin
  obtain ⟨hnm, hrest⟩ := hfin
  subst nm'
  subst r11
  obtain ⟨w, t, ht, hw, hr2⟩ := ws1_inv h2
  obtain ⟨hr2eq, -, hnmall, -⟩ := cls1_inv h3
  rw [lit_eq_some] at h1 h4 h5 h6 h7
  refine ⟨str "class" ++ (w :: (t.takeWhile isSpaceC ++ (nm ++ (r3.takeWhile isSpaceC ++
    (['('] ++ (r5.takeWhile isSpaceC ++ (str "Scene" ++ (r7.takeWhile isSpaceC ++
    ([')'] ++ (r9.takeWhile isSpaceC ++ [':'])))))))))), ?_, ?_, ?_⟩
  · conv_lhs => rw [h1, ht, wsDrop_decomp t, ← hr2, hr2eq, wsDrop_decomp r3, h4,
      wsDrop_decomp r5, h5, wsDrop_decomp r7, h6, wsDrop_decomp r9, h7]
    simp [List.append_assoc]
  · simp
  · have hcl : ('"' : Char) ∉ str "class" := by decide
    refine notMem_append hcl (notMem_cons (Ne.symm (space_ne_quote hw)) ?_)
    refine notMem_append (fun hm => space_ne_quote (takeWhile_space_mem hm) rfl) ?_
    refine notMem_append (fun hm => by
      have := hnmall _ hm
      simp [isWordC] at this) ?_
    refine notMem_append (fun hm => space_ne_quote (takeWhile_space_mem hm) rfl) ?_
    refine notMem_append (by decide) ?_
    refine notMem_append (fun hm => space_ne_quote (takeWhile_space_mem hm) rfl) ?_
    refine notMem_append (by decide) ?_
    refine notMem_append (fun hm => space_ne_quote (takeWhile_space_mem hm) rfl) ?_
    refine notMem_append (by decide) ?_
    refine notMem_append (fun hm => space_ne_quote (takeWhile_space_mem hm) rfl) ?_
    decide

theorem mClass_none_noColon {s : Str} (h : (':' : Char) ∉ s) : mClass s = none := by
  cases hm : mClass s with
  | none => rfl
  | some x =>
    obtain ⟨nm, rest⟩ := x
    obtain ⟨P, hP, hc, -⟩ := mClass_consumed hm
    exact absurd (by rw [hP]; exact List.mem_append_left _ hc) h


/-- No suffix starting inside `X` begins a class-declaration match (with
`Y` the continuation of the text after `X`). -/
def noClassWithin (X Y : Str) : Prop :=
  ∀ U V, X = U ++ V → V ≠ [] → mClass (V ++ Y) = none

theorem noClassWithin_append {A B Y : Str} (hA : noClassWithin A (B ++ Y))
    (hB : noClassWithin B Y) : noClassWithin (A ++ B) Y := by
  intro U V hUV hne
  rcases List.append_eq_append_iff.mp hUV.symm with ⟨a2, ha1, ha2⟩ | ⟨c2, hc1, hc2⟩
  · rcases a2 with _ | ⟨x, xs⟩
    · simp only [List.nil_append] at ha2
      exact hB [] V (by rw [ha2]; rfl) hne
    · subst ha2
      have := hA U (x :: xs) ha1 (by simp)
      simpa [List.append_assoc] using this
  · exact hB c2 V hc2 hne

/-- A certificate that a concrete segment contains no possible start of a
class declaration, whatever follows it: every suffix either does not
start with `c`, or its second character is visibly not `l`. -/
def classFreeB : Str → Bool
  | [] => true
  | c :: t =>
    (if c = 'c' then
      match t with
      | d :: _ => decide (d ≠ 'l')
      | [] => false
     else true) && classFreeB t

theorem noClassWithin_of_classFreeB {X : Str} (h : classFreeB X = true) (Y : Str) :
    noClassWithin X Y := by
  induction X with
  | nil =>
    intro U V hUV hne
    have hv : V = [] := by
      rcases U with _ | ⟨u, us⟩
      · exact hUV.symm
      · cases hUV
    exact absurd hv hne
  | cons c t ih =>
    simp only [classFreeB, Bool.and_eq_true] at h
    intro U V hUV hne
    rcases U with _ | ⟨u, us⟩
    · simp only [List.nil_append] at hUV
      subst hUV
      by_cases hc : c = 'c'
      · subst hc
        rcases t with _ | ⟨d, t2⟩
        · rw [if_pos rfl] at h
          cases h.1
        · rw [if_pos rfl] at h
          have hd : d ≠ 'l' := by simpa using h.1
          exact mClass_none_second hd (t2 ++ Y)
      · refine mClass_none_head ?_
        rw [List.cons_append]
        intro hx
        injection hx with hx2
        exact hc hx2
    · have ht : t = us ++ V := by
        rw [List.cons_append] at hUV
        injection hUV with _ h2
      exact ih h.2 us V ht hne

theorem noClassWithin_noColon {X Y : Str} (hX : (':' : Char) ∉ X)
    (hY : (':' : Char) ∉ Y) : noClassWithin X Y := by
  intro U V hUV hne
  refine mClass_none_noColon (notMem_append ?_ hY)
  intro hm
  exact hX (by rw [hUV]; exact List.mem_append_right _ hm)

theorem classMatchesAux_nil (f pos : ℕ) : classMatchesAux f [] pos = [] := by
  cases f with
  | zero => rfl
  | succ f2 => rfl

theorem classMatchesAux_skip {Y : Str} : ∀ (X : Str), noClassWithin X Y →
    ∀ (f pos : ℕ), classMatchesAux (X.length + f) (X ++ Y) pos =
      classMatchesAux f Y (pos + X.length) := by
  intro X
  induction X with
  | nil => intro h f pos; simp
  | cons c t ih =>
    intro h f pos
    have hm : mClass ((c :: t) ++ Y) = none := h [] (c :: t) rfl (by simp)
    have hstep : classMatchesAux ((c :: t).length + f) ((c :: t) ++ Y) pos =
        classMatchesAux (t.length + f) (t ++ Y) (pos + 1) := by
      rw [show (c :: t).length + f = (t.length + f) + 1 from by simp [Nat.add_comm, Nat.add_assoc, Nat.add_left_comm]]
      rw [List.cons_append]
      show (match mClass (c :: (t ++ Y)) with
        | some (nm, rest) => _ | none => _) = _
      rw [List.cons_append] at hm
      rw [hm]
    rw [hstep]
    have ht : noClassWithin t Y := by
      intro U V hUV hne
      exact h (c :: U) V (by rw [hUV]; rfl) hne
    rw [ih ht f (pos + 1)]
    congr 1
    simp [Nat.add_comm, Nat.add_assoc, Nat.add_left_comm]

theorem classMatchesAux_match {real rest SN : Str}
    (hm : mClass (real ++ rest) = some (SN, rest)) (f pos : ℕ) :
    classMatchesAux (f + 1) (real ++ rest) pos =
      (pos, pos + real.length, SN) :: classMatchesAux f rest (pos + real.length) := by
  show (match mClass (real ++ rest) with
    | some (nm, r) =>
      (pos, pos + ((real ++ rest).length - r.length), nm)
        :: classMatchesAux f r (pos + ((real ++ rest).length - r.length))
    | none => _) = _
  rw [hm]
  dsimp only
  have hlen : (real ++ rest).length - rest.length = real.length := by
    simp [List.length_append]
  rw [hlen]

theorem classMatches_single {A real rest SN : Str}
    (hA : noClassWithin A (real ++ rest))
    (hm : mClass (real ++ rest) = some (SN, rest))
    (hr : noClassWithin rest []) :
    classMatches (A ++ (real ++ rest)) =
      [(A.length, A.length + real.length, SN)] := by
  unfold classMatches
  have hlen : (A ++ (real ++ rest)).length + 1 =
      A.length + (real.length + rest.length + 1) := by
    simp [List.length_append]
    omega
  rw [hlen, classMatchesAux_skip A hA (real.length + rest.length + 1) 0]
  rw [show real.length + rest.length + 1 = (real.length + rest.length) + 1 from rfl,
    classMatchesAux_match hm (real.length + rest.length) (0 + A.length)]
  have htail : classMatchesAux (real.length + rest.length) rest
      (0 + A.length + real.length) = [] := by
    have hs := classMatchesAux_skip rest hr real.length (0 + A.length + real.length)
    rw [List.append_nil, classMatchesAux_nil] at hs
    rw [Nat.add_comm real.length rest.length]
    exact hs
  rw [htail]
  simp

theorem sliceStr_suffix (A real rest : Str) :
    sliceStr (A ++ (real ++ rest)) (A.length + real.length)
      (A ++ (real ++ rest)).length = rest := by
  unfold sliceStr
  rw [← List.append_assoc]
  have h1 : (A ++ real ++ rest).drop (A.length + real.length) = rest := by
    rw [show A.length + real.length = (A ++ real).length from (List.length_append _ _).symm]
    exact List.drop_left _ _
  rw [h1]
  have h2 : (A ++ real ++ rest).length - (A.length + real.length) = rest.length := by
    simp [List.length_append]
    omega
  rw [h2, List.take_length]

theorem parse_code_single {A real rest SN : Str}
    (hA : noClassWithin A (real ++ rest))
    (hm : mClass (real ++ rest) = some (SN, rest))
    (hr : noClassWithin rest []) :
    parse_code (A ++ (real ++ rest)) =
      match parse_scene_block SN rest with
      | .ok ps => .ok (some [ps])
      | .error e => .error e := by
  have hslice : sliceStr (A ++ (real ++ rest)) (A.length + real.length)
      (A.length + (real.length + rest.length)) = rest := by
    have := sliceStr_suffix A real rest
    simpa [List.length_append] using this
  unfold parse_code
  rw [classMatches_single hA hm hr]
  rcases hps : parse_scene_block SN rest with e | ps <;>
    simp [hps, List.range_succ, bind, Except.bind, pure, Except.pure,
      List.mapM.loop, hslice]

/-! ## Decimal digit strings: `natDigits`, `valDigits`, parse-back -/

theorem digitVal_digitChar {d : ℕ} (h : d < 10) : digitVal (digitChar d) = d := by
  interval_cases d <;> decide

theorem isDigitC_digitChar {d : ℕ} (h : d < 10) : isDigitC (digitChar d) = true := by
  interval_cases d <;> decide

theorem valDigits_foldl (b : Str) : ∀ a : ℕ,
    b.foldl (fun x c => x * 10 + digitVal c) a = a * 10 ^ b.length + valDigits b := by
  induction b with
  | nil => intro a; simp [valDigits]
  | cons c t ih =>
    intro a
    show t.foldl _ (a * 10 + digitVal c) = _
    rw [ih (a * 10 + digitVal c)]
    have hv : valDigits (c :: t) = (digitVal c) * 10 ^ t.length + valDigits t := by
      show t.foldl _ (0 * 10 + digitVal c) = _
      rw [ih (0 * 10 + digitVal c)]
      ring
    rw [hv]
    simp [List.length_cons, pow_succ]
    ring

theorem valDigits_append (a b : Str) :
    valDigits (a ++ b) = valDigits a * 10 ^ b.length + valDigits b := by
  unfold valDigits
  rw [List.foldl_append]
  exact valDigits_foldl b _

theorem valDigits_replicate_zero (k : ℕ) : valDigits (List.replicate k '0') = 0 := by
  induction k with
  | zero => rfl
  | succ n ih =>
    rw [show List.replicate (n+1) '0' = '0' :: List.replicate n '0' from rfl]
    show (List.replicate n '0').foldl _ (0 * 10 + digitVal '0') = 0
    rw [valDigits_foldl]
    simpa [digitVal] using ih

theorem natDigitsAux_spec : ∀ fuel n, n < 10 ^ fuel → n ≠ 0 ∨ fuel ≠ 0 →
    valDigits (natDigitsAux fuel n) = n ∧ (∀ c ∈ natDigitsAux fuel n, isDigitC c = true)
      ∧ natDigitsAux fuel n ≠ [] := by
  intro fuel
  induction fuel with
  | zero =>
    intro n hn hne
    rcases hne with h | h
    · simp at hn; omega
    · exact absurd rfl h
  | succ f ih =>
    intro n hn hne
    by_cases h10 : n < 10
    · have : natDigitsAux (f+1) n = [digitChar n] := by
        unfold natDigitsAux
        rw [if_pos h10]
      rw [this]
      refine ⟨?_, ?_, by simp⟩
      · show [digitChar n].foldl _ 0 = n
        simp [digitVal_digitChar h10]
      · intro c hc
        rcases List.mem_singleton.mp hc with rfl
        exact isDigitC_digitChar h10
    · have hrec : natDigitsAux (f+1) n = natDigitsAux f (n / 10) ++ [digitChar (n % 10)] := by
        conv_lhs => unfold natDigitsAux
        rw [if_neg h10]
      have hdiv : n / 10 < 10 ^ f := by
        rw [pow_succ] at hn
        omega
      have hdne : n / 10 ≠ 0 ∨ f ≠ 0 := Or.inl (by omega)
      obtain ⟨hv, hall, hne2⟩ := ih (n / 10) hdiv hdne
      rw [hrec]
      refine ⟨?_, ?_, append_ne_nil_left hne2⟩
      · rw [valDigits_append, hv]
        have : valDigits [digitChar (n % 10)] = n % 10 := by
          show [digitChar (n % 10)].foldl _ 0 = n % 10
          simp [digitVal_digitChar (Nat.mod_lt n (by norm_num))]
        rw [this]
        simp
        omega
      · intro c hc
        rcases List.mem_append.mp hc with h | h
        · exact hall c h
        · rcases List.mem_singleton.mp h with rfl
          exact isDigitC_digitChar (Nat.mod_lt n (by norm_num))

theorem nat_lt_pow_succ (n : ℕ) : n < 10 ^ (n + 1) :=
  lt_of_lt_of_le (Nat.lt_pow_self (by norm_num) n)
    (Nat.pow_le_pow_right (by norm_num) (by omega))

theorem natDigits_val (n : ℕ) : valDigits (natDigits n) = n :=
  (natDigitsAux_spec (n+1) n (nat_lt_pow_succ n) (Or.inr (by omega))).1

theorem natDigits_all (n : ℕ) : ∀ c ∈ natDigits n, isDigitC c = true :=
  (natDigitsAux_spec (n+1) n (nat_lt_pow_succ n) (Or.inr (by omega))).2.1

theorem natDigits_ne_nil (n : ℕ) : natDigits n ≠ [] :=
  (natDigitsAux_spec (n+1) n (nat_lt_pow_succ n) (Or.inr (by omega))).2.2

theorem natDigitsAux_len_le : ∀ fuel n k, n < 10 ^ k → 1 ≤ k → n < 10 ^ fuel →
    (natDigitsAux fuel n).length ≤ k := by
  intro fuel
  induction fuel with
  | zero => intro n k _ _ _; simp [natDigitsAux]
  | succ f ih =>
    intro n k hk hk1 hf
    by_cases h10 : n < 10
    · have : natDigitsAux (f+1) n = [digitChar n] := by
        conv_lhs => unfold natDigitsAux
        rw [if_pos h10]
      rw [this]
      simpa using hk1
    · have hrec : natDigitsAux (f+1) n = natDigitsAux f (n / 10) ++ [digitChar (n % 10)] := by
        conv_lhs => unfold natDigitsAux
        rw [if_neg h10]
      have hk2 : 2 ≤ k := by
        by_contra hlt
        have : k = 1 := by omega
        subst this
        simp at hk
        omega
      have h1 : n / 10 < 10 ^ (k - 1) := by
        have : n < 10 ^ (k - 1) * 10 := by
          rw [← pow_succ]
          have : k - 1 + 1 = k := by omega
          rw [this]
          exact hk
        omega
      have h2 : n / 10 < 10 ^ f := by
        rw [pow_succ] at hf
        omega
      have := ih (n / 10) (k - 1) h1 (by omega) h2
      rw [hrec, List.length_append]
      simp only [List.length_cons, List.length_nil]
      omega

theorem natDigitsAux_len_ge : ∀ fuel n k, 10 ^ (k - 1) ≤ n → 1 ≤ k → n < 10 ^ fuel →
    k ≤ (natDigitsAux fuel n).length := by
  intro fuel
  induction fuel with
  | zero =>
    intro n k hk hk1 hf
    simp at hf
    have : 10 ^ (k - 1) > 0 := Nat.pos_pow_of_pos _ (by norm_num)
    omega
  | succ f ih =>
    intro n k hk hk1 hf
    by_cases h10 : n < 10
    · have heq : natDigitsAux (f+1) n = [digitChar n] := by
        conv_lhs => unfold natDigitsAux
        rw [if_pos h10]
      rw [heq]
      simp only [List.length_singleton]
      by_contra hc
      have hk2 : 2 ≤ k := by omega
      have : 10 ≤ 10 ^ (k - 1) := by
        calc 10 = 10 ^ 1 := by norm_num
        _ ≤ 10 ^ (k - 1) := Nat.pow_le_pow_right (by norm_num) (by omega)
      omega
    · have hrec : natDigitsAux (f+1) n = natDigitsAux f (n / 10) ++ [digitChar (n % 10)] := by
        conv_lhs => unfold natDigitsAux
        rw [if_neg h10]
      rcases Nat.lt_or_ge k 2 with hk2 | hk2
      · have : k = 1 := by omega
        subst this
        rw [hrec, List.length_append]
        have := (natDigitsAux_spec f (n / 10) (by rw [pow_succ] at hf; omega)
          (Or.inl (by omega))).2.2
        have hpos : 1 ≤ (natDigitsAux f (n / 10)).length :=
          List.length_pos.mpr this
        simp only [List.length_cons, List.length_nil]
        omega
      · have h1 : 10 ^ (k - 2) ≤ n / 10 := by
          have h3 : 10 ^ (k - 2) * 10 ≤ n := by
            calc 10 ^ (k - 2) * 10 = 10 ^ (k - 1) := by
                  rw [← pow_succ]
                  congr 1
                  omega
            _ ≤ n := hk
          omega
        have h2 : n / 10 < 10 ^ f := by
          rw [pow_succ] at hf
          omega
        have := ih (n / 10) (k - 1) (by
          have : k - 1 - 1 = k - 2 := by omega
          rw [this]
          exact h1) (by omega) h2
        rw [hrec, List.length_append]
        simp only [List.length_cons, List.length_nil]
        omega

theorem natDigits_len_four {m : ℕ} (h1 : 1000 ≤ m) (h2 : m ≤ 9999) :
    (natDigits m).length = 4 := by
  have hle : (natDigits m).length ≤ 4 :=
    natDigitsAux_len_le (m+1) m 4 (by omega) (by omega) (nat_lt_pow_succ m)
  have hge : 4 ≤ (natDigits m).length :=
    natDigitsAux_len_ge (m+1) m 4 (by norm_num; omega) (by omega)
      (nat_lt_pow_succ m)
  omega

theorem natDigits_len_le' {n k : ℕ} (h : n < 10 ^ k) (hk : 1 ≤ k) :
    (natDigits n).length ≤ k :=
  natDigitsAux_len_le (n+1) n k h hk (nat_lt_pow_succ n)

theorem pyStrip_id {s : Str} (h : ∀ c ∈ s, isSpaceC c = false) : pyStrip s = s := by
  unfold pyStrip
  have h1 : s.dropWhile isSpaceC = s := by
    apply wsDrop_eq_of_head
    intro c hc
    exact h c (List.mem_of_mem_head? (by rw [hc]; rfl))
  rw [h1]
  have h2 : s.reverse.dropWhile isSpaceC = s.reverse := by
    apply wsDrop_eq_of_head
    intro c hc
    rw [List.head?_reverse] at hc
    refine h c ?_
    have hmem : c ∈ s.getLast? := by rw [hc]; rfl
    obtain ⟨hne, heq⟩ := List.mem_getLast?_eq_getLast hmem
    rw [heq]
    exact List.getLast_mem hne
  rw [h2, List.reverse_reverse]

theorem digit_not_space {c : Char} (h : isDigitC c = true) : isSpaceC c = false :=
  digitDot_not_space (by simp [isDigitDotC, h])

theorem digit_enum {c : Char} (h : isDigitC c = true) :
    c ∈ ['0','1','2','3','4','5','6','7','8','9'] := by
  simp only [isDigitC, Bool.and_eq_true, decide_eq_true_eq] at h
  obtain ⟨h1, h2⟩ := h
  have e1 : 48 ≤ c.toNat := by
    simpa [Char.le_def, Char.toNat] using h1
  have e2 : c.toNat ≤ 57 := by
    simpa [Char.le_def, Char.toNat] using h2
  have hofn : Char.ofNat c.toNat = c := Char.ofNat_toNat c
  interval_cases hh : c.toNat <;> (rw [← hofn]; decide)

/-- `float()` of a nonempty pure-digit string. -/
theorem pyFloat_digits {s : Str} (hne : s ≠ []) (hall : ∀ c ∈ s, isDigitC c = true) :
    pyFloat s = some ((valDigits s : ℚ)) := by
  have hstrip : pyStrip s = s := pyStrip_id (fun c hc => digit_not_space (hall c hc))
  have htk : s.takeWhile isDigitC = s ∧ s.dropWhile isDigitC = [] := by
    have := @takeWhile_run isDigitC s [] hall (by intro c hc; cases hc)
    simpa using this
  rcases s with _ | ⟨c, t⟩
  · exact absurd rfl hne
  have hc : isDigitC c = true := hall c (by simp)
  have hcp : c ≠ '+' := by intro he; subst he; simp [isDigitC] at hc
  have hcm : c ≠ '-' := by intro he; subst he; simp [isDigitC] at hc
  have hpu : parseUnsigned (c :: t) = some ((valDigits (c :: t) : ℚ), []) := by
    unfold parseUnsigned
    rw [htk.1, htk.2]
    simp
  clear hcp hcm hne hall htk
  have hcd := digit_enum hc
  fin_cases hcd <;> (unfold pyFloat; rw [hstrip]; simp [hpu])

/-! ## round-half-even basics -/

theorem rhe_mem (q : ℚ) : rhe q = ⌊q⌋ ∨ rhe q = ⌊q⌋ + 1 := by
  unfold rhe
  dsimp only
  split_ifs <;> simp

theorem rhe_err (q : ℚ) : |(rhe q : ℚ) - q| ≤ 1/2 := by
  have h1 : (⌊q⌋ : ℚ) ≤ q := Int.floor_le q
  have h2 : q < ⌊q⌋ + 1 := Int.lt_floor_add_one q
  unfold rhe
  dsimp only
  split_ifs with ha hb hc <;> rw [abs_le] <;> push_cast <;> constructor <;> linarith

theorem rhe_eq_of_close {q : ℚ} {n : ℤ} (h : |q - (n : ℚ)| < 1/2) : rhe q = n := by
  rw [abs_lt] at h
  obtain ⟨hl, hr⟩ := h
  by_cases hq : (n : ℚ) ≤ q
  · have hf : ⌊q⌋ = n := by
      rw [Int.floor_eq_iff]
      constructor
      · exact_mod_cast hq
      · push_cast; linarith
    unfold rhe
    dsimp only
    rw [hf, if_pos (by push_cast; linarith)]
  · push_neg at hq
    have hf : ⌊q⌋ = n - 1 := by
      rw [Int.floor_eq_iff]
      constructor
      · push_cast; linarith
      · push_cast; linarith
    unfold rhe
    dsimp only
    rw [hf]
    rw [if_neg (by push_cast; linarith), if_pos (by push_cast; linarith)]
    omega

theorem rhe_nonneg {q : ℚ} (h : 0 ≤ q) : 0 ≤ rhe q := by
  have hf : 0 ≤ ⌊q⌋ := Int.floor_nonneg.mpr h
  rcases rhe_mem q with he | he <;> omega

theorem rhe_nonpos {q : ℚ} (h : q ≤ 0) : rhe q ≤ 0 := by
  rcases eq_or_lt_of_le h with he | hlt
  · subst he
    unfold rhe
    dsimp only
    rw [Int.floor_zero]
    norm_num
  · have hf : ⌊q⌋ ≤ -1 := by
      have : ⌊q⌋ < 0 := Int.floor_lt.mpr (by push_cast; linarith)
      omega
    rcases rhe_mem q with he | he <;> omega

theorem parseUnsigned_digits_dot {A B : Str} (hA : A ≠ [])
    (hAall : ∀ c ∈ A, isDigitC c = true) (hBall : ∀ c ∈ B, isDigitC c = true) :
    parseUnsigned (A ++ '.' :: B) =
      some ((valDigits A : ℚ) + (valDigits B : ℚ) / 10 ^ B.length, []) := by
  have htk := @takeWhile_run isDigitC A ('.' :: B) hAall
    (by intro c hc; injection hc with h2; rw [← h2]; decide)
  have htkB : B.takeWhile isDigitC = B ∧ B.dropWhile isDigitC = [] := by
    have := @takeWhile_run isDigitC B [] hBall
      (by intro c hc; cases hc)
    simpa using this
  unfold parseUnsigned
  rw [htk.1, htk.2]
  simp [htkB.1, htkB.2, hA]

theorem pyFloat_digits_dot {A B : Str} (hA : A ≠ [])
    (hAall : ∀ c ∈ A, isDigitC c = true) (hBall : ∀ c ∈ B, isDigitC c = true) :
    pyFloat (A ++ '.' :: B) =
      some ((valDigits A : ℚ) + (valDigits B : ℚ) / 10 ^ B.length) := by
  have hstrip : pyStrip (A ++ '.' :: B) = A ++ '.' :: B := by
    refine pyStrip_id ?_
    intro c hc
    rcases List.mem_append.mp hc with h | h
    · exact digit_not_space (hAall c h)
    · rcases List.mem_cons.mp h with rfl | h2
      · decide
      · exact digit_not_space (hBall c h2)
  have hpu := parseUnsigned_digits_dot hA hAall hBall
  rcases A with _ | ⟨c, t⟩
  · exact absurd rfl hA
  have hc : isDigitC c = true := hAall c (by simp)
  have hcd := digit_enum hc
  rw [List.cons_append] at hstrip hpu ⊢
  fin_cases hcd <;> (unfold pyFloat; rw [hstrip]; simp [hpu])

theorem pyFloat_neg_digits_dot {A B : Str} (hA : A ≠ [])
    (hAall : ∀ c ∈ A, isDigitC c = true) (hBall : ∀ c ∈ B, isDigitC c = true) :
    pyFloat ('-' :: (A ++ '.' :: B)) =
      some (-((valDigits A : ℚ) + (valDigits B : ℚ) / 10 ^ B.length)) := by
  have hstrip : pyStrip ('-' :: (A ++ '.' :: B)) = '-' :: (A ++ '.' :: B) := by
    refine pyStrip_id ?_
    intro c hc
    rcases List.mem_cons.mp hc with rfl | h
    · decide
    rcases List.mem_append.mp h with h | h
    · exact digit_not_space (hAall c h)
    · rcases List.mem_cons.mp h with rfl | h2
      · decide
      · exact digit_not_space (hBall c h2)
  have hpu := parseUnsigned_digits_dot hA hAall hBall
  unfold pyFloat
  rw [hstrip]
  simp [hpu]

theorem valDigits_padLeft (n : ℕ) (s : Str) : valDigits (padLeft n s) = valDigits s := by
  unfold padLeft
  rw [valDigits_append, valDigits_replicate_zero]
  simp

theorem padLeft_length {n : ℕ} {s : Str} (h : s.length ≤ n) :
    (padLeft n s).length = n := by
  unfold padLeft
  rw [List.length_append, List.length_replicate]
  omega

theorem padLeft_all_digits {n : ℕ} {s : Str} (h : ∀ c ∈ s, isDigitC c = true) :
    ∀ c ∈ padLeft n s, isDigitC c = true := by
  intro c hc
  rcases List.mem_append.mp hc with h1 | h1
  · rw [List.eq_of_mem_replicate h1]
    decide
  · exact h c h1

theorem cast_div_add_mod (a k : ℕ) :
    ((a / 10 ^ k : ℕ) : ℚ) + ((a % 10 ^ k : ℕ) : ℚ) / 10 ^ k = (a : ℚ) / 10 ^ k := by
  have h : (a / 10 ^ k) * 10 ^ k + a % 10 ^ k = a := by
    rw [Nat.mul_comm]
    exact Nat.div_add_mod a (10 ^ k)
  have h2 : ((a / 10 ^ k : ℕ) : ℚ) * 10 ^ k + ((a % 10 ^ k : ℕ) : ℚ) = (a : ℚ) := by
    exact_mod_cast congrArg (fun x : ℕ => (x : ℚ)) h
  field_simp
  linarith

theorem pyFloat_fmtFixed {nd : ℕ} (hnd : 1 ≤ nd) (q : ℚ) :
    pyFloat (fmtFixed nd q) = some (fmtFixedVal nd q) := by
  unfold fmtFixed fmtFixedVal
  dsimp only
  rw [if_neg (by omega : ¬ nd = 0)]
  have hlen : (natDigits ((rhe (q * 10 ^ nd)).natAbs % 10 ^ nd)).length ≤ nd :=
    natDigits_len_le' (Nat.mod_lt _ (Nat.pos_pow_of_pos _ (by norm_num))) hnd
  have hip_ne := natDigits_ne_nil ((rhe (q * 10 ^ nd)).natAbs / 10 ^ nd)
  have hip_all := natDigits_all ((rhe (q * 10 ^ nd)).natAbs / 10 ^ nd)
  have hfp_all := padLeft_all_digits (n := nd)
    (natDigits_all ((rhe (q * 10 ^ nd)).natAbs % 10 ^ nd))
  have hfplen := padLeft_length hlen
  have hval : ((valDigits (natDigits ((rhe (q * 10 ^ nd)).natAbs / 10 ^ nd)) : ℚ)
      + (valDigits (padLeft nd (natDigits ((rhe (q * 10 ^ nd)).natAbs % 10 ^ nd))) : ℚ)
        / 10 ^ (padLeft nd (natDigits ((rhe (q * 10 ^ nd)).natAbs % 10 ^ nd))).length)
      = ((rhe (q * 10 ^ nd)).natAbs : ℚ) / 10 ^ nd := by
    rw [hfplen, valDigits_padLeft, natDigits_val, natDigits_val]
    exact cast_div_add_mod _ nd
  by_cases hq : q < 0
  · rw [if_pos hq]
    rw [show (['-'] : Str) ++ natDigits ((rhe (q * 10 ^ nd)).natAbs / 10 ^ nd)
        ++ '.' :: padLeft nd (natDigits ((rhe (q * 10 ^ nd)).natAbs % 10 ^ nd)) =
      '-' :: (natDigits ((rhe (q * 10 ^ nd)).natAbs / 10 ^ nd)
        ++ '.' :: padLeft nd (natDigits ((rhe (q * 10 ^ nd)).natAbs % 10 ^ nd))) from rfl]
    rw [pyFloat_neg_digits_dot hip_ne hip_all hfp_all]
    rw [hval]
    have hple : rhe (q * 10 ^ nd) ≤ 0 :=
      rhe_nonpos (mul_nonpos_of_nonpos_of_nonneg (le_of_lt hq) (by positivity))
    have : ((rhe (q * 10 ^ nd)).natAbs : ℚ) = -((rhe (q * 10 ^ nd) : ℤ) : ℚ) := by
      rw [Int.cast_natAbs]
      rw [abs_of_nonpos (by exact_mod_cast hple)]
      push_cast
      ring
    rw [this]
    congr 1
    field_simp
  · rw [if_neg hq]
    push_neg at hq
    rw [List.nil_append]
    rw [pyFloat_digits_dot hip_ne hip_all hfp_all]
    rw [hval]
    have hple : 0 ≤ rhe (q * 10 ^ nd) :=
      rhe_nonneg (mul_nonneg hq (by positivity))
    have : ((rhe (q * 10 ^ nd)).natAbs : ℚ) = ((rhe (q * 10 ^ nd) : ℤ) : ℚ) := by
      rw [Int.cast_natAbs]
      rw [abs_of_nonneg (by exact_mod_cast hple)]
    rw [this]

/-! ## Claim theorems (quick claims) -/

/-- C2: the spec says the parser never raises and that a directive whose
numeric argument fails to convert is skipped on its own; but the wait
branch of `_parse_scene_block` calls `float(...)` unguarded, so a wait
call with a malformed duration raises `ValueError` out of `parse_code`
instead of being skipped. -/
theorem parse_code_raises_on_malformed_wait_duration :
    parse_code (str "class A(Scene):\n    self.wait(1.2.3)\n") =
      .error "ValueError: could not convert string to float" := by
  rfl

/-- C3: the spec says the generator is total on well-formed scenes; but
`TrackedObject` declares no `font_size` field (it is only ever attached
dynamically by the properties panel), so generating code for a
registered mathtex object whose `font_size` attribute was never set
raises `AttributeError` in `_generate_body`. -/
theorem generator_attributeerror_on_missing_font_size :
    generate_manimgl_code
      { objects := [(str "eq_1",
          { name := str "eq_1", obj_type := str "mathtex",
            latex := str "x", color := str "#FFFFFF", font_size := none })],
        items := [(str "eq_1", { posX := 0, posY := 0 })],
        animations := [] }
      (str "MyScene") =
      .error "AttributeError: TrackedObject object has no attribute font_size" := by
  rfl

/-- C4: input with no class-declaration marker parses to the explicit
no-scenes value `none` (not an empty list, not an exception), and the
code-to-canvas sync then leaves the scene list untouched. -/
theorem no_class_marker_parse_none_no_mutation (code : Str)
    (h : classMatches code = []) (scenes : List AppScene) (cur : ℕ) :
    parse_code code = .ok none ∧
      apply_code_to_canvas scenes cur code = .ok scenes := by
  have hp : parse_code code = .ok none := by
    unfold parse_code
    rw [h]
    rfl
  refine ⟨hp, ?_⟩
  unfold apply_code_to_canvas
  rw [hp]
  rfl

/-- C4 witness: the empty string has no class marker; parsing yields
`none` and the sync leaves a one-scene list unchanged. -/
theorem no_class_marker_parse_none_no_mutation_witness :
    classMatches [] = [] ∧
      (parse_code [] = .ok none ∧
        apply_code_to_canvas [⟨str "A", str "#000000", {}⟩] 0 [] =
          .ok [⟨str "A", str "#000000", {}⟩]) :=
  ⟨by decide, no_class_marker_parse_none_no_mutation [] (by decide)
    [⟨str "A", str "#000000", {}⟩] 0⟩

/-- C8: the animation-kind remapping table of the generator composed with
the parser's reverse table is the identity on the table's domain:
`ShowCreation` emits as `Create` in the community dialect and parses back
as `ShowCreation`. -/
theorem dialect_table_roundtrip :
    ∀ p ∈ ceAnimNames, dictGetD ceToGlAnim (dictGetD ceAnimNames p.1) = p.1 := by
  decide

/-- C8 witness at the table's single entry. -/
theorem dialect_table_roundtrip_witness :
    (str "ShowCreation", str "Create") ∈ ceAnimNames ∧
      dictGetD ceToGlAnim (dictGetD ceAnimNames (str "ShowCreation")) =
        str "ShowCreation" :=
  ⟨by decide, dialect_table_roundtrip (str "ShowCreation", str "Create") (by decide)⟩

/-- C6: a color, scale or position directive naming an object not yet
declared in the block leaves the working state unchanged (the directive
is dropped); the add and play branches, by contrast, append without any
declaration check (see the counterexample). -/
theorem undeclared_color_scale_move_dropped (st : BlockSt) {nm : Str}
    (hn : wordRun nm) (hundecl : lookupA nm st.objs = none)
    {h6v : Str} (hlen : h6v.length = 6) (hall6 : ∀ c ∈ h6v, isHexC c = true)
    {num : Str} {scl : ℚ} (hd : ddRun num) (hpf : pyFloat num = some scl)
    {X Y : Str} {xv yv : ℚ} (hX : nmRun X) (hY : nmRun Y)
    (hpx : pyFloat X = some xv) (hpy : pyFloat Y = some yv) :
    processLine st (str "        " ++ (nm ++ (str ".set_color(\"#" ++
        (h6v ++ str "\")")))) = .ok st ∧
    processLine st (str "        " ++ (nm ++ (str ".scale(" ++
        (num ++ str ")")))) = .ok st ∧
    processLine st (str "        " ++ (nm ++ (str ".move_to(np.array([" ++
        (X ++ (str ", " ++ (Y ++ str ", 0]))")))))) = .ok st := by
  refine ⟨?_, ?_, ?_⟩
  · rw [processLine_color st hn hlen hall6, hundecl]
    rfl
  · rw [processLine_scale st hn hd hpf, hundecl]
    rfl
  · rw [processLine_move st hn hX hY hpx hpy, hundecl]
    rfl

/-- C6 witness: a color/scale/move directive for the undeclared `ghost`
leaves the empty block state unchanged. -/
theorem undeclared_color_scale_move_dropped_witness :
    pyFloat (str "2.0") = some 2 ∧ pyFloat (str "1.00") = some 1 ∧
      (processLine {} (str "        " ++ (str "ghost" ++ (str ".set_color(\"#" ++
          (str "FF0000" ++ str "\")")))) = .ok {} ∧
       processLine {} (str "        " ++ (str "ghost" ++ (str ".scale(" ++
          (str "2.0" ++ str ")")))) = .ok {} ∧
       processLine {} (str "        " ++ (str "ghost" ++ (str ".move_to(np.array([" ++
          (str "1.00" ++ (str ", " ++ (str "1.00" ++ str ", 0]))")))))) = .ok {}) := by
  have hpf2 : pyFloat (str "2.0") = some 2 := by
    norm_num +decide [pyFloat, parseUnsigned, pyStrip, valDigits, str]
  have hpf1 : pyFloat (str "1.00") = some 1 := by
    norm_num +decide [pyFloat, parseUnsigned, pyStrip, valDigits, str]
  exact ⟨hpf2, hpf1, undeclared_color_scale_move_dropped {} ⟨by decide, by decide⟩
    (by decide) (by decide) (by decide) ⟨by decide, by decide⟩ hpf2
    ⟨by decide, by decide⟩ ⟨by decide, by decide⟩ hpf1 hpf1⟩

/-- C6 counterexample: an add directive whose target was never declared
is *not* dropped: it contributes an animation entry to the parsed
scene. -/
theorem undeclared_add_appended :
    parse_scene_block (str "A") (str "self.add(ghost)") =
      .ok { name := str "A", bg_color := str "#000000",
            objects := [], animations := [⟨str "ghost", str "Add", 0, []⟩] } := by
  rfl

/-- C10: a scale directive with numeric factor `f` for a declared object
sets that object's parsed font size to `max 8 (round (f * 48))`, which
is never below 8. -/
theorem scale_font_clamp_min8 (st : BlockSt) {nm num : Str} {scl : ℚ}
    (hn : wordRun nm) (hd : ddRun num) (hpf : pyFloat num = some scl)
    (hdecl : (lookupA nm st.objs).isSome = true) :
    processLine st (str "        " ++ (nm ++ (str ".scale(" ++ (num ++ str ")")))) =
      .ok { st with objs := (updateA nm
        (fun o => { o with font_size := max 8 (rhe (scl * 48)) }) st.objs) } ∧
      8 ≤ max 8 (rhe (scl * 48)) := by
  refine ⟨?_, le_max_left _ _⟩
  rw [processLine_scale st hn hd hpf, if_pos hdecl]

/-- C10 witness: scaling the declared `eq_1` by `0.1` yields font size
`max 8 (round 4.8) = 8`. -/
theorem scale_font_clamp_min8_witness :
    pyFloat (str "0.1") = some (1/10) ∧
      (processLine { objs := [(str "eq_1", { name := str "eq_1", latex := str "x" })] }
          (str "        " ++ (str "eq_1" ++ (str ".scale(" ++ (str "0.1" ++ str ")")))) =
        .ok { objs := (updateA (str "eq_1")
          (fun o => { o with font_size := max 8 (rhe ((1/10 : ℚ) * 48)) })
          [(str "eq_1", { name := str "eq_1", latex := str "x" })]) } ∧
        8 ≤ max 8 (rhe ((1/10 : ℚ) * 48))) := by
  have hpf : pyFloat (str "0.1") = some (1/10) := by
    norm_num +decide [pyFloat, parseUnsigned, pyStrip, valDigits, str]
  exact ⟨hpf, scale_font_clamp_min8 _ ⟨by decide, by decide⟩ ⟨by decide, by decide⟩
    hpf (by decide)⟩

/-- The referential-integrity invariant of the spec: every animation step
targets a live object, except steps with an empty target. -/
def noDanglingB (st : SceneState) : Bool :=
  st.animations.all (fun a => a.target_name.isEmpty || (lookupTr a.target_name st.objects).isSome)

theorem lookupTr_nil (k : Str) : lookupTr k ([] : List (Str × TrackedObject)) = none :=
  rfl

theorem lookupTr_cons (k k' : Str) (v : TrackedObject) (t : List (Str × TrackedObject)) :
    lookupTr k ((k', v) :: t) = if k' = k then some v else lookupTr k t :=
  rfl

theorem lookupTr_removeA_ne {x nm : Str} (h : x ≠ nm) :
    ∀ l, lookupTr x (removeA nm l) = lookupTr x l := by
  intro l
  induction l with
  | nil => rfl
  | cons p t ih =>
    obtain ⟨k, v⟩ := p
    unfold removeA
    by_cases hk : k = nm
    · rw [if_pos hk, lookupTr_cons, if_neg (by rw [hk]; exact fun he => h he.symm)]
    · rw [if_neg hk, lookupTr_cons, lookupTr_cons, ih]

theorem lookupTr_map_replace_self {nm : Str} {tr : TrackedObject} :
    ∀ l, (lookupTr nm l).isSome = true →
      lookupTr nm (l.map (fun p => if p.1 = nm then (nm, tr) else p)) = some tr := by
  intro l
  induction l with
  | nil => intro h; cases h
  | cons p t ih =>
    obtain ⟨k, v⟩ := p
    intro h
    by_cases hk : k = nm
    · rw [List.map_cons,
        show (if (k, v).1 = nm then ((nm, tr) : Str × TrackedObject) else (k, v)) =
          (nm, tr) from by simp [hk],
        lookupTr_cons, if_pos rfl]
    · rw [List.map_cons,
        show (if (k, v).1 = nm then ((nm, tr) : Str × TrackedObject) else (k, v)) =
          (k, v) from by simp [hk],
        lookupTr_cons, if_neg hk]
      refine ih ?_
      rw [lookupTr_cons, if_neg hk] at h
      exact h

theorem lookupTr_map_replace_other {x nm : Str} {tr : TrackedObject} (h : x ≠ nm) :
    ∀ l, lookupTr x (l.map (fun p => if p.1 = nm then (nm, tr) else p)) =
      lookupTr x l := by
  intro l
  induction l with
  | nil => rfl
  | cons p t ih =>
    obtain ⟨k, v⟩ := p
    by_cases hk : k = nm
    · rw [List.map_cons,
        show (if (k, v).1 = nm then ((nm, tr) : Str × TrackedObject) else (k, v)) =
          (nm, tr) from by simp [hk],
        lookupTr_cons, lookupTr_cons, if_neg (fun he => h he.symm),
        if_neg (by rw [hk]; exact fun he => h he.symm), ih]
    · rw [List.map_cons,
        show (if (k, v).1 = nm then ((nm, tr) : Str × TrackedObject) else (k, v)) =
          (k, v) from by simp [hk],
        lookupTr_cons, lookupTr_cons, ih]

theorem lookupTr_append_sing_self {nm : Str} {tr : TrackedObject} :
    ∀ l, lookupTr nm l = none → lookupTr nm (l ++ [(nm, tr)]) = some tr := by
  intro l
  induction l with
  | nil =>
    intro _
    rw [List.nil_append, lookupTr_cons, if_pos rfl]
  | cons p t ih =>
    obtain ⟨k, v⟩ := p
    intro h
    rw [lookupTr_cons] at h
    rw [List.cons_append, lookupTr_cons]
    by_cases hk : k = nm
    · rw [if_pos hk] at h
      cases h
    · rw [if_neg hk] at h ⊢
      exact ih h

theorem lookupTr_append_sing_other {x nm : Str} {tr : TrackedObject} (h : x ≠ nm) :
    ∀ l, lookupTr x (l ++ [(nm, tr)]) = lookupTr x l := by
  intro l
  induction l with
  | nil =>
    rw [List.nil_append, lookupTr_cons, if_neg (fun he => h he.symm)]
  | cons p t ih =>
    obtain ⟨k, v⟩ := p
    rw [List.cons_append, lookupTr_cons, lookupTr_cons, ih]

theorem lookupTr_none_of_not_contains {nm : Str} :
    ∀ l : List (Str × TrackedObject),
      (l.map Prod.fst).contains nm = false → lookupTr nm l = none := by
  intro l
  induction l with
  | nil => intro _; rfl
  | cons p t ih =>
    obtain ⟨k, v⟩ := p
    intro h
    simp only [List.map_cons, List.contains_cons, Bool.or_eq_false_iff] at h
    obtain ⟨h1, h2⟩ := h
    rw [lookupTr_cons, if_neg (by
      intro he
      rw [he] at h1
      simp at h1)]
    exact ih h2

theorem lookupTr_register_self (st : SceneState) (nm : Str) (tr : TrackedObject)
    (it : Item) : lookupTr nm (register st nm tr it).objects = some tr := by
  unfold register
  by_cases h : (lookupTr nm st.objects).isSome = true
  · rw [if_pos h]
    exact lookupTr_map_replace_self st.objects h
  · rw [if_neg h]
    refine lookupTr_append_sing_self st.objects ?_
    cases hl : lookupTr nm st.objects with
    | none => rfl
    | some v => rw [hl] at h; exact absurd rfl h

theorem lookupTr_register_other (st : SceneState) (nm : Str) (tr : TrackedObject)
    (it : Item) {x : Str} (h : x ≠ nm) :
    lookupTr x (register st nm tr it).objects = lookupTr x st.objects := by
  unfold register
  by_cases hs : (lookupTr nm st.objects).isSome = true
  · rw [if_pos hs]
    exact lookupTr_map_replace_other h st.objects
  · rw [if_neg hs]
    exact lookupTr_append_sing_other h st.objects

/-- C7: renaming an object through the properties panel rewrites every
animation step that referenced the old name to the new name atomically
(none dropped, none left dangling), and explicitly destroying an object
removes every step that targeted it; both operations preserve the
no-dangling-reference invariant.  (Parse-driven reconciliation does not:
see the counterexample.) -/
theorem rename_delete_no_dangling (st : SceneState) (cur new_name : Str)
    (st' : SceneState) (hok : on_name_edited st cur new_name = .ok st')
    (hnd : noDanglingB st = true) :
    (noDanglingB st' = true ∧
      (st' = st ∨ st'.animations = st.animations.map
        (fun a => if a.target_name = cur then { a with target_name := new_name } else a))) ∧
    (∀ nm, (unregister st nm).animations =
        st.animations.filter (fun a => a.target_name ≠ nm) ∧
      noDanglingB (unregister st nm) = true) := by
  constructor
  · unfold on_name_edited at hok
    by_cases hg1 : new_name = [] ∨ new_name = cur
    · rw [if_pos hg1] at hok
      injection hok with he
      subst he
      exact ⟨hnd, Or.inl rfl⟩
    · rw [if_neg hg1] at hok
      push_neg at hg1
      by_cases hg2 : (st.objects.map Prod.fst).contains new_name = true
      · rw [if_pos hg2] at hok
        injection hok with he
        subst he
        exact ⟨hnd, Or.inl rfl⟩
      · have hg2f : (st.objects.map Prod.fst).contains new_name = false := by
          cases hc : (st.objects.map Prod.fst).contains new_name
          · rfl
          · exact absurd hc hg2
        rw [if_neg hg2] at hok
        have hnew_none : lookupTr new_name st.objects = none :=
          lookupTr_none_of_not_contains st.objects hg2f
        cases hlc : lookupTr cur st.objects with
        | none =>
          rw [hlc] at hok
          exact absurd hok (by cases hli : lookupItem cur st.items <;> simp [hli])
        | some tr =>
          cases hli : lookupItem cur st.items with
          | none =>
            rw [hlc, hli] at hok
            exact absurd hok (by simp)
          | some it =>
            rw [hlc, hli] at hok
            injection hok with he
            subst he
            have hanim : (register (unregister { st with animations := (st.animations.map
                (fun a => if a.target_name = cur then { a with target_name := new_name }
                  else a)) } cur) new_name { tr with name := new_name } it).animations =
                st.animations.map (fun a => if a.target_name = cur then
                  { a with target_name := new_name } else a) := by
              show ((st.animations.map _).filter _) = _
              apply List.filter_eq_self.mpr
              intro a ha
              obtain ⟨b, hb, hfb⟩ := List.mem_map.mp ha
              subst hfb
              by_cases hbt : b.target_name = cur
              · simp [hbt, hg1.2]
              · simp [hbt]
            refine ⟨?_, Or.inr hanim⟩
            simp only [noDanglingB, List.all_eq_true] at hnd ⊢
            intro a ha
            rw [hanim] at ha
            obtain ⟨b, hb, hfb⟩ := List.mem_map.mp ha
            subst hfb
            have hb' := hnd b hb
            simp only [Bool.or_eq_true] at hb' ⊢
            by_cases hbt : b.target_name = cur
            · refine Or.inr ?_
              have hT : (if b.target_name = cur then { b with target_name := new_name }
                  else b).target_name = new_name := by simp [hbt]
              rw [hT, lookupTr_register_self]
              rfl
            · have hT : (if b.target_name = cur then { b with target_name := new_name }
                  else b) = b := by simp [hbt]
              rw [hT]
              rcases hb' with h1 | h1
              · exact Or.inl h1
              · refine Or.inr ?_
                have hbnew : b.target_name ≠ new_name := by
                  intro he
                  rw [he, hnew_none] at h1
                  cases h1
                rw [lookupTr_register_other _ _ _ _ hbnew]
                show (lookupTr b.target_name (removeA cur st.objects)).isSome = true
                rw [lookupTr_removeA_ne hbt st.objects]
                exact h1
  · intro nm
    refine ⟨rfl, ?_⟩
    simp only [noDanglingB, List.all_eq_true] at hnd ⊢
    intro a ha
    obtain ⟨ha1, ha2⟩ := List.mem_filter.mp ha
    have hb' := hnd a ha1
    simp only [Bool.or_eq_true] at hb' ⊢
    rcases hb' with h1 | h1
    · exact Or.inl h1
    · refine Or.inr ?_
      have hne : a.target_name ≠ nm := by simpa using ha2
      show (lookupTr a.target_name (removeA nm st.objects)).isSome = true
      rw [lookupTr_removeA_ne hne st.objects]
      exact h1

/-- The one-object, one-step scene of the rename scenario. -/
def stRenameBefore : SceneState :=
  { objects := [(str "eq_1",
      { name := str "eq_1", obj_type := str "mathtex",
        latex := str "x", color := str "#FFFFFF", font_size := none })],
    items := [(str "eq_1", { posX := 0, posY := 0 })],
    animations := [⟨str "eq_1", str "FadeIn", 1, str "smooth"⟩] }

/-- The same scene after renaming `eq_1` to `force_eq`. -/
def stRenameAfter : SceneState :=
  { objects := [(str "force_eq",
      { name := str "force_eq", obj_type := str "mathtex",
        latex := str "x", color := str "#FFFFFF", font_size := none })],
    items := [(str "force_eq", { posX := 0, posY := 0 })],
    animations := [⟨str "force_eq", str "FadeIn", 1, str "smooth"⟩] }

/-- C7 witness: renaming `eq_1` to `force_eq` while a `FadeIn` step
targets `eq_1` rewrites the step's target and leaves nothing dangling. -/
theorem rename_delete_no_dangling_witness :
    on_name_edited stRenameBefore (str "eq_1") (str "force_eq") = .ok stRenameAfter ∧
      noDanglingB stRenameBefore = true ∧ noDanglingB stRenameAfter = true := by
  have hok : on_name_edited stRenameBefore (str "eq_1") (str "force_eq") =
      .ok stRenameAfter := by rfl
  have hnd : noDanglingB stRenameBefore = true := by decide
  exact ⟨hok, hnd, ((rename_delete_no_dangling _ _ _ _ hok hnd).1).1⟩

/-- C7 counterexample: parse-driven reconciliation *can* leave a dangling
reference — syncing a block whose only directive is an add on the
undeclared `ghost` installs an animation step targeting a nonexistent
object. -/
theorem reconcile_dangling_add :
    (apply_code_to_canvas [⟨str "A", str "#000000", {}⟩] 0
        (str "class A(Scene):\n    self.add(ghost)\n")).map
      (fun l => l.map (fun s => noDanglingB s.state)) = .ok [false] := by
  rfl

/-! ## `%g` zero-stripping: `stripG` on digit strings -/

theorem dropWhile_append_of_ne {p : Char → Bool} {u v : Str}
    (h : u.dropWhile p ≠ []) : (u ++ v).dropWhile p = u.dropWhile p ++ v := by
  induction u with
  | nil => exact absurd rfl h
  | cons c t ih =>
    rw [List.cons_append, List.dropWhile_cons, List.dropWhile_cons]
    by_cases hc : p c = true
    · rw [if_pos hc, if_pos hc]
      rw [List.dropWhile_cons, if_pos hc] at h
      exact ih h
    · rw [if_neg hc, if_neg hc, List.cons_append]

theorem dropWhile_append_of_nil {p : Char → Bool} {u v : Str}
    (h : u.dropWhile p = []) : (u ++ v).dropWhile p = v.dropWhile p := by
  induction u with
  | nil => rfl
  | cons c t ih =>
    rw [List.dropWhile_cons] at h
    by_cases hc : p c = true
    · rw [if_pos hc] at h
      rw [List.cons_append, List.dropWhile_cons, if_pos hc]
      exact ih h
    · rw [if_neg hc] at h
      cases h

theorem stripG_eq_of_ne {A B : Str} (hBall : ∀ c ∈ B, isDigitC c = true)
    (hRne : B.reverse.dropWhile (fun c => c = '0') ≠ []) :
    stripG (A ++ '.' :: B) =
      A ++ '.' :: (B.reverse.dropWhile (fun c => c = '0')).reverse := by
  obtain ⟨c, R', hcR⟩ := List.exists_cons_of_ne_nil hRne
  have hcd : isDigitC c = true := by
    have hmem : c ∈ B.reverse.dropWhile (fun c => c = '0') := by rw [hcR]; simp
    have : c ∈ B.reverse := List.Sublist.mem hmem (List.dropWhile_sublist _)
    exact hBall c (List.mem_reverse.mp this)
  have hcdot : c ≠ '.' := by
    intro he
    rw [he] at hcd
    cases hcd
  have hrev : (A ++ '.' :: B).reverse = B.reverse ++ ('.' :: A.reverse) := by
    rw [List.reverse_append, List.reverse_cons, List.append_assoc]
    rfl
  unfold stripG
  rw [hrev, dropWhile_append_of_ne (by rw [hcR]; simp), hcR, List.cons_append]
  dsimp only
  split
  · rename_i t heq
    injection heq with h1
    exact absurd h1 hcdot
  · rw [show c :: (R' ++ ('.' :: A.reverse)) = (c :: R') ++ ('.' :: A.reverse) from rfl,
      List.reverse_append, List.reverse_cons, List.reverse_reverse, List.append_assoc]
    rfl

theorem stripG_eq_of_nil {A B : Str}
    (hRnil : B.reverse.dropWhile (fun c => c = '0') = []) :
    stripG (A ++ '.' :: B) = A := by
  have hrev : (A ++ '.' :: B).reverse = B.reverse ++ ('.' :: A.reverse) := by
    rw [List.reverse_append, List.reverse_cons, List.append_assoc]
    rfl
  unfold stripG
  rw [hrev, dropWhile_append_of_nil hRnil, List.dropWhile_cons, if_neg (by decide)]
  dsimp only
  split
  · rename_i t heq
    injection heq with _ h2
    rw [← h2, List.reverse_reverse]
  · rename_i hno
    exact absurd rfl (by
      have := hno A.reverse
      intro hx
      exact this hx)

theorem dd_of_digit {c : Char} (h : isDigitC c = true) : isDigitDotC c = true := by
  simp [isDigitDotC, h]

theorem stripG_digits_dot {A B : Str} (hA : A ≠ [])
    (hAall : ∀ c ∈ A, isDigitC c = true) (hBall : ∀ c ∈ B, isDigitC c = true) :
    pyFloat (stripG (A ++ '.' :: B)) =
        some ((valDigits A : ℚ) + (valDigits B : ℚ) / 10 ^ B.length) ∧
      ddRun (stripG (A ++ '.' :: B)) := by
  have hsplit : B.reverse.takeWhile (fun c => c = '0') ++
      B.reverse.dropWhile (fun c => c = '0') = B.reverse :=
    List.takeWhile_append_dropWhile _ _
  have hTall : ∀ c ∈ B.reverse.takeWhile (fun c => c = '0'), c = '0' := by
    intro c hc
    have := List.mem_takeWhile_imp hc
    simpa using this
  have hT : B.reverse.takeWhile (fun c => c = '0') =
      List.replicate (B.reverse.takeWhile (fun c => c = '0')).length '0' :=
    List.eq_replicate_of_mem hTall
  have hBdec : B = (B.reverse.dropWhile (fun c => c = '0')).reverse ++
      List.replicate (B.reverse.takeWhile (fun c => c = '0')).length '0' := by
    conv_lhs => rw [← List.reverse_reverse B, ← hsplit]
    rw [List.reverse_append]
    congr 1
    rw [← List.reverse_replicate, ← hT]
  have hvalB : valDigits B = valDigits (B.reverse.dropWhile (fun c => c = '0')).reverse *
      10 ^ (B.reverse.takeWhile (fun c => c = '0')).length := by
    conv_lhs => rw [hBdec]
    rw [valDigits_append, valDigits_replicate_zero, List.length_replicate]
    omega
  have hlenB : B.length = (B.reverse.dropWhile (fun c => c = '0')).length +
      (B.reverse.takeWhile (fun c => c = '0')).length := by
    conv_lhs => rw [hBdec]
    rw [List.length_append, List.length_reverse, List.length_replicate]
  have hRall : ∀ c ∈ (B.reverse.dropWhile (fun c => c = '0')).reverse,
      isDigitC c = true := by
    intro c hc
    rw [List.mem_reverse] at hc
    have : c ∈ B.reverse := List.Sublist.mem hc (List.dropWhile_sublist _)
    exact hBall c (List.mem_reverse.mp this)
  by_cases hRne : B.reverse.dropWhile (fun c => c = '0') = []
  · rw [stripG_eq_of_nil hRne]
    have hv0 : valDigits B = 0 := by
      rw [hvalB, hRne]
      simp [valDigits]
    constructor
    · rw [pyFloat_digits hA hAall, hv0]
      norm_num
    · exact ⟨hA, fun c hc => dd_of_digit (hAall c hc)⟩
  · rw [stripG_eq_of_ne hBall hRne]
    constructor
    · rw [pyFloat_digits_dot hA hAall hRall]
      have heq : ((valDigits (B.reverse.dropWhile (fun c => c = '0')).reverse : ℕ) : ℚ) /
          10 ^ ((B.reverse.dropWhile (fun c => c = '0')).reverse).length =
          ((valDigits B : ℕ) : ℚ) / 10 ^ B.length := by
        rw [hvalB, hlenB, List.length_reverse]
        push_cast
        rw [pow_add]
        field_simp
        ring
      rw [heq]
    · refine ⟨append_ne_nil_left hA, ?_⟩
      intro c hc
      rcases List.mem_append.mp hc with h1 | h1
      · exact dd_of_digit (hAall c h1)
      · rcases List.mem_cons.mp h1 with rfl | h2
        · decide
        · exact dd_of_digit (hRall c h2)

theorem valDigits_take_drop (D : Str) (k : ℕ) :
    valDigits D = valDigits (D.take k) * 10 ^ (D.drop k).length + valDigits (D.drop k) := by
  conv_lhs => rw [← List.take_append_drop k D]
  rw [valDigits_append]

theorem sig_value_eq {vA vB mN p : ℕ} (h : vA * 10 ^ p + vB = mN) :
    (vA : ℚ) + (vB : ℚ) / 10 ^ p = (mN : ℚ) * ((10:ℚ) ^ p)⁻¹ := by
  have hc : (vA : ℚ) * 10 ^ p + vB = mN := by exact_mod_cast h
  have hp : (0:ℚ) < 10 ^ p := by positivity
  field_simp
  linarith

theorem renderSig_spec {mN : ℕ} (h1 : 1000 ≤ mN) (h2 : mN ≤ 9999) {e : ℤ}
    (hee : e = -1 ∨ e = 0 ∨ e = 1) :
    pyFloat (renderSig mN e) = some ((mN : ℚ) * (10:ℚ) ^ (e - 3)) ∧
      ddRun (renderSig mN e) := by
  have hlen : (natDigits mN).length = 4 := natDigits_len_four h1 h2
  have hall := natDigits_all mN
  have hval := natDigits_val mN
  have htakeall : ∀ k, ∀ c ∈ (natDigits mN).take k, isDigitC c = true :=
    fun k c hc => hall c (List.take_subset k _ hc)
  have hdropall : ∀ k, ∀ c ∈ (natDigits mN).drop k, isDigitC c = true :=
    fun k c hc => hall c (List.drop_subset k _ hc)
  have htakene : ∀ k, 1 ≤ k → (natDigits mN).take k ≠ [] := by
    intro k hk h
    have := congrArg List.length h
    rw [List.length_take, hlen] at this
    simp at this
    omega
  rcases hee with rfl | rfl | rfl
  · have hr : renderSig mN (-1) = stripG (['0'] ++ '.' :: natDigits mN) := by
      unfold renderSig
      rw [if_neg (by decide), if_neg (by decide),
        show ((-(-1:ℤ)) - 1).toNat = 0 from rfl, List.replicate_zero]
      rfl
    rw [hr]
    obtain ⟨hv, hdd⟩ := stripG_digits_dot (A := ['0']) (by decide) (by decide) hall
    refine ⟨?_, hdd⟩
    rw [hv, hlen, hval]
    congr 1
    rw [show ((-1:ℤ) - 3) = -(4:ℤ) from rfl, zpow_neg,
      show (10:ℚ) ^ (4:ℤ) = (10:ℚ) ^ (4:ℕ) from by norm_num,
      show valDigits ['0'] = 0 from rfl]
    have := @sig_value_eq 0 mN mN 4 (by omega)
    simpa using this
  · have hr : renderSig mN 0 =
        stripG ((natDigits mN).take 1 ++ '.' :: (natDigits mN).drop 1) := by
      unfold renderSig
      rw [if_neg (by decide), if_pos (by decide), show ((0:ℤ)).toNat + 1 = 1 from rfl]
    rw [hr]
    obtain ⟨hv, hdd⟩ := stripG_digits_dot (htakene 1 (by omega)) (htakeall 1) (hdropall 1)
    refine ⟨?_, hdd⟩
    rw [hv]
    congr 1
    have hdl : ((natDigits mN).drop 1).length = 3 := by
      rw [List.length_drop, hlen]
    have hsplit := valDigits_take_drop (natDigits mN) 1
    rw [hval, hdl] at hsplit
    rw [hdl, show ((0:ℤ) - 3) = -(3:ℤ) from rfl, zpow_neg,
      show (10:ℚ) ^ (3:ℤ) = (10:ℚ) ^ (3:ℕ) from by norm_num]
    exact sig_value_eq hsplit.symm
  · have hr : renderSig mN 1 =
        stripG ((natDigits mN).take 2 ++ '.' :: (natDigits mN).drop 2) := by
      unfold renderSig
      rw [if_neg (by decide), if_pos (by decide), show ((1:ℤ)).toNat + 1 = 2 from rfl]
    rw [hr]
    obtain ⟨hv, hdd⟩ := stripG_digits_dot (htakene 2 (by omega)) (htakeall 2) (hdropall 2)
    refine ⟨?_, hdd⟩
    rw [hv]
    congr 1
    have hdl : ((natDigits mN).drop 2).length = 2 := by
      rw [List.length_drop, hlen]
    have hsplit := valDigits_take_drop (natDigits mN) 2
    rw [hval, hdl] at hsplit
    rw [hdl, show ((1:ℤ) - 3) = -(2:ℤ) from rfl, zpow_neg,
      show (10:ℚ) ^ (2:ℤ) = (10:ℚ) ^ (2:ℕ) from by norm_num]
    exact sig_value_eq hsplit.symm

theorem flog10_mid {fs : ℤ} (hlo : 48 ≤ fs) (hhi : fs ≤ 479) :
    flog10 ((fs:ℚ)/48) = 0 := by
  have hc1 : (48:ℚ) ≤ (fs:ℚ) := by exact_mod_cast hlo
  have hc2 : (fs:ℚ) ≤ 479 := by exact_mod_cast hhi
  have hq1 : (1:ℚ) ≤ (fs:ℚ)/48 := by
    rw [le_div_iff (by norm_num)]
    linarith
  have hq10 : (fs:ℚ)/48 < 10 := by
    rw [div_lt_iff (by norm_num)]
    linarith
  unfold flog10
  rw [if_pos hq1]
  have hf2 : ⌊(fs:ℚ)/48⌋ < 10 := Int.floor_lt.mpr (by push_cast; linarith)
  have htn : ⌊(fs:ℚ)/48⌋.toNat < 10 := by omega
  rw [natLog10_of_lt _ htn]
  rfl

theorem flog10_high {fs : ℤ} (hlo : 480 ≤ fs) (hhi : fs ≤ 4799) :
    flog10 ((fs:ℚ)/48) = 1 := by
  have hc1 : (480:ℚ) ≤ (fs:ℚ) := by exact_mod_cast hlo
  have hc2 : (fs:ℚ) ≤ 4799 := by exact_mod_cast hhi
  have hq1 : (1:ℚ) ≤ (fs:ℚ)/48 := by
    rw [le_div_iff (by norm_num)]
    linarith
  have hq10 : (10:ℚ) ≤ (fs:ℚ)/48 := by
    rw [le_div_iff (by norm_num)]
    linarith
  have hq100 : (fs:ℚ)/48 < 100 := by
    rw [div_lt_iff (by norm_num)]
    linarith
  unfold flog10
  rw [if_pos hq1]
  have hf1 : 10 ≤ ⌊(fs:ℚ)/48⌋ := Int.le_floor.mpr (by push_cast; linarith)
  have hf2 : ⌊(fs:ℚ)/48⌋ < 100 := Int.floor_lt.mpr (by push_cast; linarith)
  have htn1 : 10 ≤ ⌊(fs:ℚ)/48⌋.toNat := by omega
  have htn2 : ⌊(fs:ℚ)/48⌋.toNat < 100 := by omega
  rw [natLog10_of_teens _ htn1 htn2]
  rfl

theorem flog10_low {fs : ℤ} (hlo : 8 ≤ fs) (hhi : fs ≤ 47) :
    flog10 ((fs:ℚ)/48) = -1 := by
  have hc1 : (8:ℚ) ≤ (fs:ℚ) := by exact_mod_cast hlo
  have hc2 : (fs:ℚ) ≤ 47 := by exact_mod_cast hhi
  have hq1 : ¬ (1:ℚ) ≤ (fs:ℚ)/48 := by
    rw [not_le, div_lt_iff (by norm_num)]
    linarith
  have hqpos : (0:ℚ) < (fs:ℚ)/48 := by
    apply div_pos
    · linarith
    · norm_num
  have hinv : ((fs:ℚ)/48)⁻¹ = 48/(fs:ℚ) := by
    rw [inv_div]
  have hinv1 : (1:ℚ) ≤ ((fs:ℚ)/48)⁻¹ := by
    rw [hinv, le_div_iff (by linarith)]
    linarith
  have hinv10 : ((fs:ℚ)/48)⁻¹ < 10 := by
    rw [hinv, div_lt_iff (by linarith)]
    linarith
  unfold flog10
  rw [if_neg hq1]
  have hf1 : ⌊((fs:ℚ)/48)⁻¹⌋ < 10 := Int.floor_lt.mpr (by push_cast; linarith)
  have htn : ⌊((fs:ℚ)/48)⁻¹⌋.toNat < 10 := by omega
  rw [natLog10_of_lt _ htn]
  have hcond : ¬ ((10:ℚ) ^ (-((0:ℕ) : ℤ)) ≤ (fs:ℚ)/48) := by
    rw [show (-((0:ℕ) : ℤ)) = (0:ℤ) from rfl, zpow_zero]
    exact hq1
  rw [if_neg hcond]
  simp

theorem fmtG4_scale_core {fs e : ℤ} (hfs0 : 0 < fs)
    (hee : e = -1 ∨ e = 0 ∨ e = 1)
    (hflog : flog10 ((fs:ℚ)/48) = e)
    (hx1 : 1000 ≤ ((fs:ℚ)/48) / (10:ℚ) ^ (e - 3))
    (hx2 : ((fs:ℚ)/48) / (10:ℚ) ^ (e - 3) ≤ 9998) :
    ∃ v : ℚ, pyFloat (fmtG4 ((fs : ℚ) / 48)) = some v ∧
      ddRun (fmtG4 ((fs : ℚ) / 48)) ∧ rhe (v * 48) = fs := by
  have hq0 : (0:ℚ) < (fs:ℚ)/48 := by
    apply div_pos
    · exact_mod_cast hfs0
    · norm_num
  have herr := rhe_err (((fs:ℚ)/48) / (10:ℚ) ^ (e - 3))
  rw [abs_le] at herr
  have hm1 : 1000 ≤ rhe (((fs:ℚ)/48) / (10:ℚ) ^ (e - 3)) := by
    have h9 : (999:ℚ) < (rhe (((fs:ℚ)/48) / (10:ℚ) ^ (e - 3)) : ℚ) := by linarith
    have : (999:ℤ) < rhe (((fs:ℚ)/48) / (10:ℚ) ^ (e - 3)) := by exact_mod_cast h9
    omega
  have hm2 : rhe (((fs:ℚ)/48) / (10:ℚ) ^ (e - 3)) ≤ 9999 := by
    have h9 : (rhe (((fs:ℚ)/48) / (10:ℚ) ^ (e - 3)) : ℚ) < 9999 + 1 := by linarith
    have : rhe (((fs:ℚ)/48) / (10:ℚ) ^ (e - 3)) < 10000 := by exact_mod_cast h9
    omega
  have hren : fmtG4 ((fs:ℚ)/48) =
      renderSig (rhe (((fs:ℚ)/48) / (10:ℚ) ^ (e - 3))).toNat e :=
    fmtG4_eq_renderSig _ e _ hq0 hflog rfl (by omega)
      (by rcases hee with rfl | rfl | rfl <;> norm_num)
      (by rcases hee with rfl | rfl | rfl <;> norm_num)
  have hmn1 : 1000 ≤ (rhe (((fs:ℚ)/48) / (10:ℚ) ^ (e - 3))).toNat := by omega
  have hmn2 : (rhe (((fs:ℚ)/48) / (10:ℚ) ^ (e - 3))).toNat ≤ 9999 := by omega
  obtain ⟨hv, hdd⟩ := renderSig_spec hmn1 hmn2 hee
  refine ⟨((rhe (((fs:ℚ)/48) / (10:ℚ) ^ (e - 3))).toNat : ℚ) * (10:ℚ) ^ (e - 3),
    by rw [hren]; exact hv, by rw [hren]; exact hdd, ?_⟩
  have hcast : (((rhe (((fs:ℚ)/48) / (10:ℚ) ^ (e - 3))).toNat : ℕ) : ℚ) =
      ((rhe (((fs:ℚ)/48) / (10:ℚ) ^ (e - 3)) : ℤ) : ℚ) := by
    have h0 : (0:ℤ) ≤ rhe (((fs:ℚ)/48) / (10:ℚ) ^ (e - 3)) := by omega
    exact_mod_cast Int.toNat_of_nonneg h0
  rw [hcast]
  apply rhe_eq_of_close
  have hpow_pos : (0:ℚ) < (10:ℚ) ^ (e - 3) := by
    rcases hee with rfl | rfl | rfl <;> norm_num
  have hfsq : (fs:ℚ) = (((fs:ℚ)/48) / (10:ℚ) ^ (e - 3)) * ((10:ℚ) ^ (e - 3) * 48) := by
    field_simp
    exact Or.inl (mul_comm _ _)
  have hPpos : (0:ℚ) < (10:ℚ) ^ (e - 3) * 48 := by positivity
  have hsmall : (10:ℚ) ^ (e - 3) * 48 ≤ 48/100 := by
    rcases hee with rfl | rfl | rfl <;> norm_num
  have hrw : ((rhe (((fs:ℚ)/48) / (10:ℚ) ^ (e - 3)) : ℤ) : ℚ) * (10:ℚ) ^ (e - 3) * 48
      - (fs:ℚ) =
      (((rhe (((fs:ℚ)/48) / (10:ℚ) ^ (e - 3)) : ℤ) : ℚ) -
        (((fs:ℚ)/48) / (10:ℚ) ^ (e - 3))) * ((10:ℚ) ^ (e - 3) * 48) := by
    nth_rewrite 2 [hfsq]
    ring
  rw [abs_lt, hrw]
  constructor
  · have h1 := mul_le_mul_of_nonneg_right herr.1 (le_of_lt hPpos)
    linarith [h1, hsmall]
  · have h2 := mul_le_mul_of_nonneg_right herr.2 (le_of_lt hPpos)
    linarith [h2, hsmall]

/-- `%.4g` of `fs/48` parses back to a value whose rescaled rounding
recovers `fs` exactly, for any integer font size in `[8, 4799]`. -/
theorem fmtG4_scale_spec {fs : ℤ} (h8 : 8 ≤ fs) (hub : fs ≤ 4799) :
    ∃ v : ℚ, pyFloat (fmtG4 ((fs : ℚ) / 48)) = some v ∧
      ddRun (fmtG4 ((fs : ℚ) / 48)) ∧ rhe (v * 48) = fs := by
  have hfsq8 : (8:ℚ) ≤ (fs:ℚ) := by exact_mod_cast h8
  have hfsqub : (fs:ℚ) ≤ 4799 := by exact_mod_cast hub
  rcases le_or_lt fs 47 with h47 | h48
  · have hq47 : (fs:ℚ) ≤ 47 := by exact_mod_cast h47
    refine fmtG4_scale_core (by omega) (Or.inl rfl) (flog10_low h8 h47) ?_ ?_
    · rw [show ((-1:ℤ) - 3) = -(4:ℤ) from rfl, zpow_neg,
        show (10:ℚ) ^ (4:ℤ) = 10000 from by norm_num, div_eq_mul_inv _ _, inv_inv,
        div_mul_eq_mul_div, le_div_iff (by norm_num)]
      linarith
    · rw [show ((-1:ℤ) - 3) = -(4:ℤ) from rfl, zpow_neg,
        show (10:ℚ) ^ (4:ℤ) = 10000 from by norm_num, div_eq_mul_inv _ _, inv_inv,
        div_mul_eq_mul_div, div_le_iff (by norm_num)]
      linarith
  · rcases le_or_lt fs 479 with h479 | h480
    · have hq48 : (48:ℚ) ≤ (fs:ℚ) := by exact_mod_cast h48
      have hq479 : (fs:ℚ) ≤ 479 := by exact_mod_cast h479
      refine fmtG4_scale_core (by omega) (Or.inr (Or.inl rfl))
        (flog10_mid (by omega) h479) ?_ ?_
      · rw [show ((0:ℤ) - 3) = -(3:ℤ) from rfl, zpow_neg,
          show (10:ℚ) ^ (3:ℤ) = 1000 from by norm_num, div_eq_mul_inv _ _, inv_inv,
          div_mul_eq_mul_div, le_div_iff (by norm_num)]
        linarith
      · rw [show ((0:ℤ) - 3) = -(3:ℤ) from rfl, zpow_neg,
          show (10:ℚ) ^ (3:ℤ) = 1000 from by norm_num, div_eq_mul_inv _ _, inv_inv,
          div_mul_eq_mul_div, div_le_iff (by norm_num)]
        linarith
    · have hq480 : (480:ℚ) ≤ (fs:ℚ) := by exact_mod_cast h480
      refine fmtG4_scale_core (by omega) (Or.inr (Or.inr rfl))
        (flog10_high (by omega) hub) ?_ ?_
      · rw [show ((1:ℤ) - 3) = -(2:ℤ) from rfl, zpow_neg,
          show (10:ℚ) ^ (2:ℤ) = 100 from by norm_num, div_eq_mul_inv _ _, inv_inv,
          div_mul_eq_mul_div, le_div_iff (by norm_num)]
        linarith
      · rw [show ((1:ℤ) - 3) = -(2:ℤ) from rfl, zpow_neg,
          show (10:ℚ) ^ (2:ℤ) = 100 from by norm_num, div_eq_mul_inv _ _, inv_inv,
          div_mul_eq_mul_div, div_le_iff (by norm_num)]
        linarith
